import Mathlib

set_option maxRecDepth 100000

/-!
Verification of the MginDB datastore engine (`src/mgindb`) against its
natural-language specification.  Each section embeds one slice of the
Python source as executable Lean definitions (documents, indices, the
query-cache, command handlers, the sharding router and the expression
evaluator) and proves or refutes the spec claims about that slice.

Python conventions used throughout the embedding:
  * `dict` objects are association lists (`List (String × α)`) where
    lookup returns the *last* binding (Python overwrites in place, so a
    key occurs at most once; our insert function keeps that invariant);
  * machine integers are `Int`/`Nat` with explicit `% 2 ^ 32` where the
    original relies on 32-bit wraparound (CRC32, SHA rounds);
  * Python `float` is modelled by `ℚ`: every numeric literal that the
    claims exercise is exactly representable, and value claims are
    only made where the rational model agrees with IEEE doubles;
  * code that can raise returns `Except PyErr α`.
-/

/-- Python exception kinds relevant to the embedded code paths. -/
inductive PyErr where
  | valueError (msg : String)
  | typeError (msg : String)
  | keyError (msg : String)
  | attributeError (msg : String)
  | zeroDivisionError
  deriving DecidableEq, Repr

/-- Values stored in the document tree (JSON-ish Python values):
strings, ints, floats (modelled as `ℚ`), booleans, lists and dicts. -/
inductive PyVal where
  | str (s : String)
  | int (n : Int)
  | float (q : ℚ)
  | bool (b : Bool)
  | null
  | list (xs : List PyVal)
  | obj (fields : List (String × PyVal))
  deriving Repr

namespace PyVal

/-- Structural equality on `PyVal` (faithful to Python `==` on the
values the claims exercise: we never compare an `int` with a `float`
payload of equal magnitude, so type-tag equality is adequate here). -/
def beq : PyVal → PyVal → Bool
  | .str a, .str b => a == b
  | .int a, .int b => a == b
  | .float a, .float b => a == b
  | .bool a, .bool b => a == b
  | .list a, .list b => beqList a b
  | .obj a, .obj b => beqObj a b
  | _, _ => false
where
  beqList : List PyVal → List PyVal → Bool
    | [], [] => true
    | x :: xs, y :: ys => beq x y && beqList xs ys
    | _, _ => false
  beqObj : List (String × PyVal) → List (String × PyVal) → Bool
    | [], [] => true
    | (k, x) :: xs, (l, y) :: ys => k == l && beq x y && beqObj xs ys
    | _, _ => false

instance : BEq PyVal := ⟨beq⟩

end PyVal

/-- Python `dict` lookup (`d.get(k)`): first binding wins; our insert
keeps keys unique, so first = only. -/
def dictGet (d : List (String × PyVal)) (k : String) : Option PyVal :=
  match d.find? (fun p => p.1 == k) with
  | some p => some p.2
  | none => none

/-- Python `d[k] = v`: overwrite in place if present (keeping position,
like CPython dicts), else append at the end (insertion order). -/
def dictSet (d : List (String × PyVal)) (k : String) (v : PyVal) :
    List (String × PyVal) :=
  if d.any (fun p => p.1 == k) then
    d.map (fun p => if p.1 == k then (k, v) else p)
  else
    d ++ [(k, v)]

/-- Python `del d[k]`. -/
def dictDel (d : List (String × PyVal)) (k : String) :
    List (String × PyVal) :=
  d.filter (fun p => p.1 != k)

/-!
## SHA-256 (`hashlib.sha256`)

`ShardingManager.get_shard` and the `HASH` expression function both use
`hashlib.sha256`; the algorithm is embedded here in full (FIPS 180-4)
over `Nat` with explicit 32-bit reduction.
-/

namespace SHA256

/-- Truncate to a 32-bit word. -/
def w32 (n : Nat) : Nat := n % 4294967296

/-- Right rotation of a 32-bit word. -/
def rotr (x n : Nat) : Nat := w32 ((x >>> n) ||| (x <<< (32 - n)))

/-- The 64 round constants. -/
def K : Array Nat := #[
  1116352408, 1899447441, 3049323471, 3921009573, 961987163, 1508970993, 2453635748, 2870763221,
  3624381080, 310598401, 607225278, 1426881987, 1925078388, 2162078206, 2614888103, 3248222580,
  3835390401, 4022224774, 264347078, 604807628, 770255983, 1249150122, 1555081692, 1996064986,
  2554220882, 2821834349, 2952996808, 3210313671, 3336571891, 3584528711, 113926993, 338241895,
  666307205, 773529912, 1294757372, 1396182291, 1695183700, 1986661051, 2177026350, 2456956037,
  2730485921, 2820302411, 3259730800, 3345764771, 3516065817, 3600352804, 4094571909, 275423344,
  430227734, 506948616, 659060556, 883997877, 958139571, 1322822218, 1537002063, 1747873779,
  1955562222, 2024104815, 2227730452, 2361852424, 2428436474, 2756734187, 3204031479, 3329325298]

/-- Initial hash value. -/
def H0 : List Nat :=
  [1779033703, 3144134277, 1013904242, 2773480762,
   1359893119, 2600822924, 528734635, 1541459225]

/-- UTF-8 encoding of one code point (Python `str.encode()`). -/
def encodeChar (c : Nat) : List Nat :=
  if c < 128 then [c]
  else if c < 2048 then
    [192 ||| (c >>> 6), 128 ||| (c &&& 63)]
  else if c < 65536 then
    [224 ||| (c >>> 12), 128 ||| ((c >>> 6) &&& 63), 128 ||| (c &&& 63)]
  else
    [240 ||| (c >>> 18), 128 ||| ((c >>> 12) &&& 63),
     128 ||| ((c >>> 6) &&& 63), 128 ||| (c &&& 63)]

/-- UTF-8 bytes of a string. -/
def strBytes (s : String) : List Nat :=
  s.toList.foldr (fun c acc => encodeChar c.toNat ++ acc) []

/-- SHA-256 padding: append `0x80`, zeros to 56 mod 64, then the bit
length as 8 big-endian bytes. -/
def pad (msg : List Nat) : List Nat :=
  let len := msg.length
  let zeros := (119 - len % 64) % 64
  let bitLen := (8 * len) % 18446744073709551616
  msg ++ [128] ++ List.replicate zeros 0 ++
    (List.range 8).map (fun i => (bitLen >>> (8 * (7 - i))) &&& 255)

/-- Split a byte stream into 64-byte blocks (fuel-recursive so that the
kernel can evaluate it; the fuel `l.length` always suffices). -/
def toBlocksAux : Nat → List Nat → List (List Nat)
  | 0, _ => []
  | _, [] => []
  | fuel + 1, l => (l.take 64) :: toBlocksAux fuel (l.drop 64)

/-- Split the padded byte stream into 64-byte blocks. -/
def toBlocks (l : List Nat) : List (List Nat) :=
  toBlocksAux l.length l

/-- Big-endian 32-bit words from bytes. -/
def bytesToWords : List Nat → List Nat
  | b0 :: b1 :: b2 :: b3 :: rest =>
    (((b0 * 256 + b1) * 256 + b2) * 256 + b3) :: bytesToWords rest
  | _ => []

/-- Extend the 16 message words to 64. -/
def extendWords (w : Array Nat) : Array Nat :=
  (List.range 48).foldl
    (fun w _ =>
      let i := w.size
      let s0 :=
        w32 ((rotr (w[i - 15]!) 7) ^^^ (rotr (w[i - 15]!) 18) ^^^ ((w[i - 15]!) >>> 3))
      let s1 :=
        w32 ((rotr (w[i - 2]!) 17) ^^^ (rotr (w[i - 2]!) 19) ^^^ ((w[i - 2]!) >>> 10))
      w.push (w32 (w[i - 16]! + s0 + w[i - 7]! + s1)))
    w

/-- One compression round. -/
def round (st : Nat × Nat × Nat × Nat × Nat × Nat × Nat × Nat)
    (ki wi : Nat) : Nat × Nat × Nat × Nat × Nat × Nat × Nat × Nat :=
  let (a, b, c, d, e, f, g, h) := st
  let s1 := w32 ((rotr e 6) ^^^ (rotr e 11) ^^^ (rotr e 25))
  let ch := w32 ((e &&& f) ^^^ ((4294967295 - e) &&& g))
  let t1 := w32 (h + s1 + ch + ki + wi)
  let s0 := w32 ((rotr a 2) ^^^ (rotr a 13) ^^^ (rotr a 22))
  let mj := w32 ((a &&& b) ^^^ (a &&& c) ^^^ (b &&& c))
  let t2 := w32 (s0 + mj)
  (w32 (t1 + t2), a, b, c, w32 (d + t1), e, f, g)

/-- Compress one 64-byte block into the running hash. -/
def compress (h : List Nat) (block : List Nat) : List Nat :=
  let w := extendWords (Array.mk (bytesToWords block))
  let init :=
    (h[0]!, h[1]!, h[2]!, h[3]!, h[4]!, h[5]!, h[6]!, h[7]!)
  let (a, b, c, d, e, f, g, hh) :=
    (List.range 64).foldl (fun st i => round st (K[i]!) (w[i]!)) init
  [w32 (h[0]! + a), w32 (h[1]! + b), w32 (h[2]! + c), w32 (h[3]! + d),
   w32 (h[4]! + e), w32 (h[5]! + f), w32 (h[6]! + g), w32 (h[7]! + hh)]

/-- SHA-256 digest (eight 32-bit words) of a byte stream. -/
def digestWords (msg : List Nat) : List Nat :=
  (toBlocks (pad msg)).foldl compress H0

/-- Digest as a 256-bit natural number (Python `int(hexdigest, 16)`). -/
def digestNat (msg : List Nat) : Nat :=
  (digestWords msg).foldl (fun acc w => acc * 4294967296 + w) 0

/-- Hex digit. -/
def hexChar (n : Nat) : Char :=
  if n < 10 then Char.ofNat (48 + n) else Char.ofNat (87 + n)

/-- Lower-case hex of one 32-bit word. -/
def wordHex (w : Nat) : List Char :=
  (List.range 8).map (fun i => hexChar ((w >>> (4 * (7 - i))) &&& 15))

/-- `hashlib.sha256(s.encode()).hexdigest()`. -/
def sha256Hex (s : String) : String :=
  String.mk (((digestWords (strBytes s)).map wordHex).flatten)

/-- `int(hashlib.sha256(s.encode()).hexdigest(), 16)`. -/
def sha256Nat (s : String) : Nat :=
  digestNat (strBytes s)

end SHA256

/-- Cross-check of the SHA-256 embedding against the FIPS 180-4 test
vector for "abc". -/
theorem sha256_abc_vector :
    SHA256.sha256Hex "abc" =
      "ba7816bf8f01cfea414140de5dae2223b00361a396177a9cb410ff61f20015ad" := by
  rfl

/-!
## Sharding router (`sharding_manager.py`, `ShardingManager.get_shard`)

```python
shards = self.app_state.config_store.get('SHARDS')
total_shards = len(shards)
hash_object = hashlib.sha256(key.encode())
hash_digest = hash_object.hexdigest()
hash_int = int(hash_digest, 16)
shard_number = hash_int % total_shards
return shards[shard_number]
```
On an empty `SHARDS` list the modulo raises `ZeroDivisionError`
(re-raised by the `except` clause); that path is `none` here.
-/
def get_shard (shards : List String) (key : String) : Option String :=
  if shards.length = 0 then
    none
  else
    shards[SHA256.sha256Nat key % shards.length]?

/-- C6: for a fixed non-empty `SHARDS` list, `get_shard` is a
deterministic function of the key (two evaluations agree), and it
returns `shards[i]` where `i` is the SHA-256 digest of the key read as
an integer modulo the number of shards. -/
theorem get_shard_sha256_mod (shards : List String) (k : String)
    (h : shards ≠ []) :
    get_shard shards k = get_shard shards k ∧
    ∃ hlt : SHA256.sha256Nat k % shards.length < shards.length,
      get_shard shards k =
        some (shards.get ⟨SHA256.sha256Nat k % shards.length, hlt⟩) := by
  have hlen : shards.length ≠ 0 := by
    simpa [List.length_eq_zero] using h
  have hlt : SHA256.sha256Nat k % shards.length < shards.length :=
    Nat.mod_lt _ (Nat.pos_of_ne_zero hlen)
  refine ⟨rfl, hlt, ?_⟩
  simp [get_shard, hlen, List.getElem?_eq_getElem hlt]

/-- Witness for C6 at the concrete configuration
`SHARDS = [s0, s1, s2]` and key `user:1`: the digest of `user:1` is
`0xabc3…7b34 ≡ 0 (mod 3)`, so shard `s0` owns the key. -/
theorem get_shard_sha256_mod_witness :
    (["s0", "s1", "s2"] : List String) ≠ [] ∧
    get_shard ["s0", "s1", "s2"] "user:1" = some "s0" := by
  refine ⟨by decide, ?_⟩
  have h := (get_shard_sha256_mod ["s0", "s1", "s2"] "user:1" (by decide)).2
  obtain ⟨hlt, he⟩ := h
  rw [he]
  rfl

/-!
## MD5 (`hashlib.md5`), SHA-1, CRC32, Base64

Support for the remaining expression functions of
`command_utils.py` (`ExpressionUtil.apply_function`): `MD5`,
`CHECKSUM(CRC32|SHA1|SHA256, …)` and `BASE64`.
-/

namespace MD5

/-- Per-round sine-derived constants `T` of RFC 1321. -/
def T : Array Nat := #[
  3614090360, 3905402710, 606105819, 3250441966, 4118548399, 1200080426, 2821735955, 4249261313,
  1770035416, 2336552879, 4294925233, 2304563134, 1804603682, 4254626195, 2792965006, 1236535329,
  4129170786, 3225465664, 643717713, 3921069994, 3593408605, 38016083, 3634488961, 3889429448,
  568446438, 3275163606, 4107603335, 1163531501, 2850285829, 4243563512, 1735328473, 2368359562,
  4294588738, 2272392833, 1839030562, 4259657740, 2763975236, 1272893353, 4139469664, 3200236656,
  681279174, 3936430074, 3572445317, 76029189, 3654602809, 3873151461, 530742520, 3299628645,
  4096336452, 1126891415, 2878612391, 4237533241, 1700485571, 2399980690, 4293915773, 2240044497,
  1873313359, 4264355552, 2734768916, 1309151649, 4149444226, 3174756917, 718787259, 3951481745]

/-- Per-round left-rotation amounts. -/
def S : Array Nat := #[
  7, 12, 17, 22, 7, 12, 17, 22, 7, 12, 17, 22, 7, 12, 17, 22,
  5, 9, 14, 20, 5, 9, 14, 20, 5, 9, 14, 20, 5, 9, 14, 20,
  4, 11, 16, 23, 4, 11, 16, 23, 4, 11, 16, 23, 4, 11, 16, 23,
  6, 10, 15, 21, 6, 10, 15, 21, 6, 10, 15, 21, 6, 10, 15, 21]

/-- Left rotation of a 32-bit word. -/
def rotl (x n : Nat) : Nat := SHA256.w32 ((x <<< n) ||| (x >>> (32 - n)))

/-- 32-bit complement. -/
def compl32 (x : Nat) : Nat := 4294967295 - x

/-- MD5 padding: `0x80`, zeros, then the bit length as 8 *little*-endian
bytes. -/
def pad (msg : List Nat) : List Nat :=
  let len := msg.length
  let zeros := (119 - len % 64) % 64
  let bitLen := (8 * len) % 18446744073709551616
  msg ++ [128] ++ List.replicate zeros 0 ++
    (List.range 8).map (fun i => (bitLen >>> (8 * i)) &&& 255)

/-- Little-endian 32-bit words from bytes. -/
def bytesToWordsLE : List Nat → List Nat
  | b0 :: b1 :: b2 :: b3 :: rest =>
    (b0 + 256 * (b1 + 256 * (b2 + 256 * b3))) :: bytesToWordsLE rest
  | _ => []

/-- One MD5 round. -/
def round (m : Array Nat) (st : Nat × Nat × Nat × Nat) (i : Nat) :
    Nat × Nat × Nat × Nat :=
  let (a, b, c, d) := st
  let (f, g) :=
    if i < 16 then ((b &&& c) ||| (compl32 b &&& d), i)
    else if i < 32 then ((d &&& b) ||| (compl32 d &&& c), (5 * i + 1) % 16)
    else if i < 48 then (b ^^^ c ^^^ d, (3 * i + 5) % 16)
    else (c ^^^ (b ||| compl32 d), (7 * i) % 16)
  let f2 := SHA256.w32 (f + a + T[i]! + m[g]!)
  (d, SHA256.w32 (b + rotl f2 (S[i]!)), b, c)

/-- Compress one 64-byte block. -/
def compress (h : List Nat) (block : List Nat) : List Nat :=
  let m := Array.mk (bytesToWordsLE block)
  let (a, b, c, d) :=
    (List.range 64).foldl (round m) (h[0]!, h[1]!, h[2]!, h[3]!)
  [SHA256.w32 (h[0]! + a), SHA256.w32 (h[1]! + b),
   SHA256.w32 (h[2]! + c), SHA256.w32 (h[3]! + d)]

/-- Little-endian hex of one 32-bit word (byte at a time). -/
def wordHexLE (w : Nat) : List Char :=
  (List.range 4).map (fun i => (w >>> (8 * i)) &&& 255) |>.map
    (fun b => [SHA256.hexChar (b >>> 4), SHA256.hexChar (b &&& 15)]) |>.flatten

/-- `hashlib.md5(s.encode()).hexdigest()`. -/
def md5Hex (s : String) : String :=
  let words :=
    (SHA256.toBlocks (pad (SHA256.strBytes s))).foldl compress
      [1732584193, 4023233417, 2562383102, 271733878]
  String.mk ((words.map wordHexLE).flatten)

end MD5

namespace SHA1

/-- Extend the 16 message words to 80 (`w[i] = rotl1 (w[i-3] ^ w[i-8]
^ w[i-14] ^ w[i-16])`). -/
def extendWords (w : Array Nat) : Array Nat :=
  (List.range 64).foldl
    (fun w _ =>
      let i := w.size
      w.push (MD5.rotl ((w[i - 3]!) ^^^ (w[i - 8]!) ^^^ (w[i - 14]!) ^^^ (w[i - 16]!)) 1))
    w

/-- One SHA-1 round. -/
def round (w : Array Nat) (st : Nat × Nat × Nat × Nat × Nat) (i : Nat) :
    Nat × Nat × Nat × Nat × Nat :=
  let (a, b, c, d, e) := st
  let (f, k) :=
    if i < 20 then ((b &&& c) ||| (MD5.compl32 b &&& d), 1518500249)
    else if i < 40 then (b ^^^ c ^^^ d, 1859775393)
    else if i < 60 then ((b &&& c) ||| (b &&& d) ||| (c &&& d), 2400959708)
    else (b ^^^ c ^^^ d, 3395469782)
  let temp := SHA256.w32 (MD5.rotl a 5 + f + e + k + w[i]!)
  (temp, a, MD5.rotl b 30, c, d)

/-- Compress one 64-byte block. -/
def compress (h : List Nat) (block : List Nat) : List Nat :=
  let w := extendWords (Array.mk (SHA256.bytesToWords block))
  let (a, b, c, d, e) :=
    (List.range 80).foldl (round w) (h[0]!, h[1]!, h[2]!, h[3]!, h[4]!)
  [SHA256.w32 (h[0]! + a), SHA256.w32 (h[1]! + b), SHA256.w32 (h[2]! + c),
   SHA256.w32 (h[3]! + d), SHA256.w32 (h[4]! + e)]

/-- `hashlib.sha1(s.encode()).hexdigest()`. -/
def sha1Hex (s : String) : String :=
  let words :=
    (SHA256.toBlocks (SHA256.pad (SHA256.strBytes s))).foldl compress
      [1732584193, 4023233417, 2562383102, 271733878, 3285377520]
  String.mk ((words.map SHA256.wordHex).flatten)

end SHA1

namespace CRC32

/-- Eight shift-xor steps of the reflected CRC-32 polynomial
`0xEDB88320` on one byte. -/
def byteStep (crc : Nat) : Nat :=
  (List.range 8).foldl
    (fun c _ => if c &&& 1 = 1 then (c >>> 1) ^^^ 3988292384 else c >>> 1)
    crc

/-- `zlib.crc32(s.encode()) & 0xffffffff`. -/
def crc32 (s : String) : Nat :=
  ((SHA256.strBytes s).foldl (fun c b => byteStep (c ^^^ b)) 4294967295) ^^^ 4294967295

end CRC32

namespace Base64

/-- The standard Base64 alphabet. -/
def alphabet : List Char :=
  "ABCDEFGHIJKLMNOPQRSTUVWXYZabcdefghijklmnopqrstuvwxyz0123456789+/".toList

/-- Character for a 6-bit group. -/
def enc (n : Nat) : Char := alphabet.getD n 'A'

/-- Encode a byte list, three bytes at a time, `=`-padded. -/
def encodeBytes : List Nat → List Char
  | b0 :: b1 :: b2 :: rest =>
    enc (b0 >>> 2) :: enc (((b0 &&& 3) <<< 4) ||| (b1 >>> 4)) ::
      enc (((b1 &&& 15) <<< 2) ||| (b2 >>> 6)) :: enc (b2 &&& 63) ::
      encodeBytes rest
  | [b0, b1] =>
    [enc (b0 >>> 2), enc (((b0 &&& 3) <<< 4) ||| (b1 >>> 4)),
     enc ((b1 &&& 15) <<< 2), '=']
  | [b0] =>
    [enc (b0 >>> 2), enc ((b0 &&& 3) <<< 4), '=', '=']
  | [] => []

/-- `base64.b64encode(s.encode()).decode()`. -/
def b64encode (s : String) : String :=
  String.mk (encodeBytes (SHA256.strBytes s))

end Base64

/-- Cross-checks of the hash/encoding embeddings against standard test
vectors. -/
theorem hash_abc_vectors :
    MD5.md5Hex "abc" = "900150983cd24fb0d6963f7d28e17f72" ∧
    SHA1.sha1Hex "abc" = "a9993e364706816aba3e25717850c26c9cd0d89d" ∧
    CRC32.crc32 "abc" = 891568578 ∧
    Base64.b64encode "abc" = "YWJj" ∧
    Base64.b64encode "ab" = "YWI=" ∧
    Base64.b64encode "a" = "YQ==" := by
  refine ⟨rfl, rfl, rfl, rfl, rfl, rfl⟩

/-!
## Python numeric coercions

`float(s)` / `int(s)` string parsing, and the exact-decimal helpers
used by the `ROUND` and `DECIMAL` expression functions.  Rationals
stand in for IEEE doubles; Python-only syntax that no claim exercises
(`inf`, `nan`, digit underscores) is not modelled and parses as a
failure.
-/

/-- ASCII digit test. -/
def isDigitChar (c : Char) : Bool := 48 ≤ c.toNat && c.toNat ≤ 57

/-- Whitespace stripped by Python numeric constructors. -/
def isPySpace (c : Char) : Bool :=
  c = ' ' || c = '\t' || c = '\n' || c = '\r'

/-- Value of a digit string. -/
def natOfDigits (ds : List Char) : Nat :=
  ds.foldl (fun a c => a * 10 + (c.toNat - 48)) 0

/-- Strip leading and trailing whitespace. -/
def stripSpace (cs : List Char) : List Char :=
  ((cs.dropWhile isPySpace).reverse.dropWhile isPySpace).reverse

/-- Optional sign; returns the sign as a rational and the rest. -/
def parseSign : List Char → ℚ × List Char
  | '-' :: r => (-1, r)
  | '+' :: r => (1, r)
  | r => (1, r)

/-- Optional exponent suffix `e±ddd`; `none` on malformed input. -/
def parseExpPart : List Char → Option ℤ
  | [] => some 0
  | 'e' :: r => parseSignedDigits r
  | 'E' :: r => parseSignedDigits r
  | _ => none
where
  parseSignedDigits : List Char → Option ℤ
    | '-' :: r =>
      if r ≠ [] && r.all isDigitChar then some (-(natOfDigits r : ℤ)) else none
    | '+' :: r =>
      if r ≠ [] && r.all isDigitChar then some (natOfDigits r : ℤ) else none
    | r =>
      if r ≠ [] && r.all isDigitChar then some (natOfDigits r : ℤ) else none

/-- `float(s)` on a string: sign, integer part, optional fraction,
optional exponent; whitespace stripped; anything else raises
`ValueError` (`none` here). -/
def pyParseFloat (s : String) : Option ℚ :=
  let cs := stripSpace s.toList
  let (sign, cs) := parseSign cs
  let ip := cs.takeWhile isDigitChar
  let cs1 := cs.dropWhile isDigitChar
  let core : Option (ℚ × List Char) :=
    match cs1 with
    | '.' :: r =>
      let fp := r.takeWhile isDigitChar
      let rest := r.dropWhile isDigitChar
      if ip.isEmpty && fp.isEmpty then none
      else some ((natOfDigits ip : ℚ) +
        (natOfDigits fp : ℚ) / (10 : ℚ) ^ fp.length, rest)
    | rest =>
      if ip.isEmpty then none else some ((natOfDigits ip : ℚ), rest)
  match core with
  | none => none
  | some (mant, rest) =>
    match parseExpPart rest with
    | none => none
    | some e => some (sign * mant * (10 : ℚ) ^ e)

/-- `int(s)` on a string: sign and digits only. -/
def pyParseInt (s : String) : Option ℤ :=
  let cs := stripSpace s.toList
  match cs with
  | '-' :: r =>
    if r ≠ [] && r.all isDigitChar then some (-(natOfDigits r : ℤ)) else none
  | '+' :: r =>
    if r ≠ [] && r.all isDigitChar then some (natOfDigits r : ℤ) else none
  | r =>
    if r ≠ [] && r.all isDigitChar then some (natOfDigits r : ℤ) else none

/-- Round to the nearest integer, ties to even (the rounding used both
by `round` and by `decimal`'s default context). -/
def roundHalfEven (q : ℚ) : ℤ :=
  let f := ⌊q⌋
  let frac := q - (f : ℚ)
  if frac < 1 / 2 then f
  else if 1 / 2 < frac then f + 1
  else if f % 2 = 0 then f else f + 1

/-- Round `q` at `d` decimal digits (`d` may be negative). -/
def roundAt (q : ℚ) (d : ℤ) : ℚ :=
  (roundHalfEven (q * (10 : ℚ) ^ d) : ℚ) / (10 : ℚ) ^ d

/-- Decimal digit character. -/
def digitChar (n : Nat) : Char := Char.ofNat (48 + n)

/-- Decimal digits of a natural number (no leading zeros, `"0"` for 0);
fuel-recursive so the kernel can evaluate it. -/
def natDigits (n : Nat) : List Char :=
  if n = 0 then ['0'] else go n n []
where
  go : Nat → Nat → List Char → List Char
    | 0, _, acc => acc
    | _, 0, acc => acc
    | fuel + 1, m, acc =>
      if m = 0 then acc else go fuel (m / 10) (digitChar (m % 10) :: acc)

/-- Fixed-point decimal rendering of `n / 10 ^ d` with exactly `d`
decimals (`d = 0`: no decimal point), as `decimal.Decimal` prints a
quantized value. -/
def formatScaled (n : ℤ) (d : Nat) : String :=
  let sign := if n < 0 then "-" else ""
  let digits := natDigits n.natAbs
  let digits := if digits.length < d + 1 then
    List.replicate (d + 1 - digits.length) '0' ++ digits else digits
  if d = 0 then sign ++ String.mk digits
  else
    sign ++ String.mk (digits.take (digits.length - d)) ++ "." ++
      String.mk (digits.drop (digits.length - d))

/-- `str()` of a float that is an exact decimal: minimal digits, at
least one decimal place (idealized: the Python original prints the
shortest decimal that round-trips through the binary double). -/
def formatPyFloat (q : ℚ) (d : Nat) : String :=
  let n := roundHalfEven (q * (10 : ℚ) ^ d)
  let rec strip : Nat → ℤ → Nat × ℤ
    | 0, n => (0, n)
    | k + 1, n => if n % 10 = 0 then strip k (n / 10) else (k + 1, n)
  let (d2, n2) := strip d n
  if d2 = 0 then formatScaled n2 0 ++ ".0" else formatScaled n2 d2

/-!
## Expression functions (`command_utils.py`, `ExpressionUtil.apply_function`)

Everything impure that `apply_function` consults is threaded in
explicitly through `PyEnv`: the stream of indices drawn by
`random.choices`, the next `uuid.uuid4()` rendering, and the wall
clock read by `TIMESTAMP`.  A branch is deterministic exactly when its
output does not depend on the `PyEnv` argument.
-/

/-- Ambient impure inputs of one `apply_function` evaluation. -/
structure PyEnv where
  randSrc : Nat → Nat
  uuidStr : String
  nowUnix : ℤ
  nowFull : String
  nowDate : String
  nowTime : String

/-- `string.ascii_letters + string.digits`. -/
def alnumChars : List Char :=
  "abcdefghijklmnopqrstuvwxyzABCDEFGHIJKLMNOPQRSTUVWXYZ0123456789".toList

/-- `''.join(random.choices(string.ascii_letters + string.digits, k))`:
each draw is the next index of the environment stream reduced mod 62. -/
def randomAlnum (env : PyEnv) (k : Nat) : String :=
  String.mk ((List.range k).map (fun i => alnumChars.getD (env.randSrc i % 62) 'a'))

/-- `ExpressionUtil.format_timestamp`. -/
def format_timestamp (env : PyEnv) (format_type : String) : String :=
  if format_type.toLower = "unix" then toString env.nowUnix
  else if format_type.toLower = "full" then env.nowFull
  else if format_type.toLower = "date" then env.nowDate
  else if format_type.toLower = "time" then env.nowTime
  else "ERROR: Unknown TIMESTAMP format"

/-- Split at the first comma (`arg.split(',', 1)`); `none` when no
comma is present (tuple unpacking then raises `ValueError`). -/
def splitFirstComma (s : String) : Option (String × String) :=
  match s.posOf ',' with
  | p => if p = s.endPos then none
    else some (⟨s.toList.takeWhile (· ≠ ',')⟩,
      ⟨(s.toList.dropWhile (· ≠ ',')).drop 1⟩)

/-- `ExpressionUtil.apply_function(func, arg)`.  The `try/except`
wrapper of the original maps any raised exception to an
`"ERROR: …"` string; exception message texts are abbreviated. -/
def apply_function (env : PyEnv) (func arg : String) : String :=
  if func = "BASE64" then Base64.b64encode arg
  else if func = "HASH" then SHA256.sha256Hex arg
  else if func = "MD5" then MD5.md5Hex arg
  else if func = "CHECKSUM" then
    match splitFirstComma arg with
    | none => "ERROR: not enough values to unpack"
    | some (algoRaw, valueRaw) =>
      let algo := (String.mk (stripSpace algoRaw.toList)).toUpper
      let value := String.mk (stripSpace valueRaw.toList)
      if algo = "CRC32" then toString (CRC32.crc32 value)
      else if algo = "SHA1" then SHA1.sha1Hex value
      else if algo = "SHA256" then SHA256.sha256Hex value
      else "ERROR: Unsupported CHECKSUM algorithm"
  else if func = "RANDOM" then
    match pyParseInt arg with
    | none => "ERROR: invalid literal for int"
    | some k => randomAlnum env k.toNat
  else if func = "UPPER" then arg.toUpper
  else if func = "LOWER" then arg.toLower
  else if func = "UUID" then env.uuidStr
  else if func = "TIMESTAMP" then format_timestamp env arg
  else if func = "ROUND" then
    match arg.splitOn "," with
    | [num, digits] =>
      match pyParseFloat num, pyParseInt digits with
      | some q, some d =>
        if 0 ≤ d then formatPyFloat q d.toNat
        else formatPyFloat (roundAt q d) 0
      | _, _ => "ERROR: could not convert"
    | _ => "ERROR: unpack"
  else if func = "DECIMAL" then
    match arg.splitOn "," with
    | [num, decimals] =>
      match pyParseFloat num, pyParseInt decimals with
      | some q, some d =>
        let dd := d.toNat
        formatScaled (roundHalfEven (q * (10 : ℚ) ^ dd)) dd
      | _, _ => "ERROR: could not convert"
    | _ => "ERROR: unpack"
  else "ERROR: Unsupported function " ++ func

/-- The function names C9 asserts to be deterministic. -/
def c9Functions : List String :=
  ["BASE64", "HASH", "MD5", "CHECKSUM", "RANDOM",
   "UPPER", "LOWER", "ROUND", "DECIMAL"]

/-- C9 counterexample: `RANDOM` is among the listed function names, yet
two evaluations of `apply_function` on the same argument `"3"` differ
when `random.choices` draws differently, so the claim fails as
stated. -/
theorem apply_function_random_nondeterministic :
    "RANDOM" ∈ c9Functions ∧
    apply_function ⟨fun _ => 0, "u", 0, "f", "d", "t"⟩ "RANDOM" "3" ≠
      apply_function ⟨fun _ => 1, "u", 0, "f", "d", "t"⟩ "RANDOM" "3" := by
  refine ⟨by decide, by decide⟩

/-- C9 amended: every embedded expression function other than
`TIMESTAMP(unix)`, `UUID()` *and `RANDOM(n)`* is deterministic: for any
name among BASE64, HASH, MD5, CHECKSUM, UPPER, LOWER, ROUND, DECIMAL
and any fixed argument string, two evaluations of `apply_function`
(under arbitrary ambient randomness, uuid and clock) agree. -/
theorem apply_function_deterministic (func : String)
    (h : func ∈ (["BASE64", "HASH", "MD5", "CHECKSUM",
      "UPPER", "LOWER", "ROUND", "DECIMAL"] : List String))
    (arg : String) (env1 env2 : PyEnv) :
    apply_function env1 func arg = apply_function env2 func arg := by
  simp only [List.mem_cons, List.mem_singleton, List.not_mem_nil, or_false] at h
  rcases h with h | h | h | h | h | h | h | h <;> subst h <;> rfl

/-- Witness for C9 (amended) at `func = "UPPER"`, `arg = "aBc"`. -/
theorem apply_function_deterministic_witness :
    "UPPER" ∈ (["BASE64", "HASH", "MD5", "CHECKSUM",
      "UPPER", "LOWER", "ROUND", "DECIMAL"] : List String) ∧
    apply_function ⟨fun _ => 0, "u", 0, "f", "d", "t"⟩ "UPPER" "aBc" =
      apply_function ⟨fun i => i + 7, "v", 1, "g", "e", "s"⟩ "UPPER" "aBc" :=
  ⟨by decide,
    apply_function_deterministic "UPPER" (by decide) "aBc"
      ⟨fun _ => 0, "u", 0, "f", "d", "t"⟩ ⟨fun i => i + 7, "v", 1, "g", "e", "s"⟩⟩

/-!
## Condition comparison (`command_utils.py`, `QueryUtil.compare_values`)

```python
def compare_values(self, value, op, expected):
    if op == 'BETWEEN':
        return expected[0] <= float(value) <= expected[1]
    elif op in ['=', '!=']:
        if isinstance(value, str) or isinstance(expected, str):
            value, expected = str(value), str(expected)
        else:
            try: value, expected = float(value), float(expected)
            except ValueError: return False
    elif op in ['>', '>=', '<', '<=']:
        try: value, expected = float(value), float(expected)
        except ValueError: return False
    elif op == 'LIKE':
        ...
```
Note the `BETWEEN` branch has *no* `try`: a failing `float(value)`
raises a `ValueError` that no caller of `compare_values` catches.
-/

/-- `float(x)` on a Python value: numbers and numeric strings coerce,
other strings raise `ValueError`, containers raise `TypeError`. -/
def pyFloat : PyVal → Except PyErr ℚ
  | .str s =>
    match pyParseFloat s with
    | some q => .ok q
    | none => .error (.valueError "could not convert string to float")
  | .int n => .ok (n : ℚ)
  | .float q => .ok q
  | .bool b => .ok (if b then 1 else 0)
  | .null => .error (.typeError "float argument must be a string or a real number")
  | .list _ => .error (.typeError "float argument must be a string or a real number")
  | .obj _ => .error (.typeError "float argument must be a string or a real number")

/-- Shortest-decimal rendering of a float whose value is an exact
decimal (the only floats the embedded code paths produce). -/
def pyFloatRepr (q : ℚ) : String :=
  match (List.range 60).find? (fun d => (q * (10 : ℚ) ^ d).den = 1) with
  | some d => formatPyFloat q d
  | none => "<nondecimal float>"

/-- Python single-quote character, written by code point to keep the
source free of quote literals. -/
def pyQuote : String := String.mk [Char.ofNat 39]

/-- `repr(x)`: containers render as Python literals with quoted
strings (only scalar cases are exercised by the claims). -/
def pyRepr : PyVal → String
  | .str s => pyQuote ++ s ++ pyQuote
  | .int n => toString n
  | .float q => pyFloatRepr q
  | .bool b => if b then "True" else "False"
  | .null => "None"
  | .list xs => "[" ++ String.intercalate ", " (reprList xs) ++ "]"
  | .obj fs => "\x7b" ++ String.intercalate ", " (reprObj fs) ++ "\x7d"
where
  reprList : List PyVal → List String
    | [] => []
    | v :: vs => pyRepr v :: reprList vs
  reprObj : List (String × PyVal) → List String
    | [] => []
    | (k, v) :: fs =>
      (pyQuote ++ k ++ pyQuote ++ ": " ++ pyRepr v) :: reprObj fs

/-- `str(x)` (equal to `repr(x)` on containers). -/
def pyStr : PyVal → String
  | .str s => s
  | .int n => toString n
  | .float q => pyFloatRepr q
  | .bool b => if b then "True" else "False"
  | .null => "None"
  | .list xs => pyRepr (.list xs)
  | .obj fs => pyRepr (.obj fs)

/-- Pattern token after the `LIKE` translation `%` → `.*` (a literal
`.` in the pattern is itself a regex wildcard). -/
inductive LikeTok where
  | many
  | any
  | lit (c : Char)

/-- Tokens of the translated pattern. -/
def likeTokens (cs : List Char) : List LikeTok :=
  cs.map (fun c => if c = '%' then .many else if c = '.' then .any else .lit c)

/-- Anchored regex match for the `LIKE` pattern language
(fuel-recursive; the fuel `|pattern| + |string| + 1` always
suffices). -/
def reMatchAux : Nat → List LikeTok → List Char → Bool
  | 0, _, _ => false
  | _ + 1, [], [] => true
  | _ + 1, [], _ :: _ => false
  | fuel + 1, .many :: ps, s =>
    reMatchAux fuel ps s ||
      (match s with
       | [] => false
       | _ :: s2 => reMatchAux fuel (.many :: ps) s2)
  | fuel + 1, .any :: ps, _ :: s => reMatchAux fuel ps s
  | _ + 1, .any :: _, [] => false
  | fuel + 1, .lit c :: ps, d :: s => c = d && reMatchAux fuel ps s
  | _ + 1, .lit _ :: _, [] => false

/-- `re.match(f"^{expected}$", value)` after the `%` → `.*`
translation. -/
def likeMatch (pat s : List Char) : Bool :=
  reMatchAux (pat.length + s.length + 1) (likeTokens pat) s

/-- The `expected` operand of `compare_values`: a `(lo, hi)` float pair
for `BETWEEN` (built by `parse_condition`), a raw string otherwise. -/
inductive CmpExpected where
  | tup (a b : ℚ)
  | str (s : String)

/-- `float(expected)`. -/
def cmpExpectedFloat : CmpExpected → Except PyErr ℚ
  | .str s =>
    match pyParseFloat s with
    | some q => .ok q
    | none => .error (.valueError "could not convert string to float")
  | .tup _ _ => .error (.typeError "float argument must be a string or a real number")

/-- `str(expected)`. -/
def cmpExpectedStr : CmpExpected → String
  | .str s => s
  | .tup a b => "(" ++ pyFloatRepr a ++ ", " ++ pyFloatRepr b ++ ")"

/-- Is this Python value a `str`? -/
def PyVal.isStr : PyVal → Bool
  | .str _ => true
  | _ => false

/-- Numeric comparison dispatch of the `op_functions` table. -/
def numCompare (op : String) (v e : ℚ) : Bool :=
  if op = "=" then v == e
  else if op = "!=" then v != e
  else if op = ">" then e < v
  else if op = ">=" then e ≤ v
  else if op = "<" then v < e
  else if op = "<=" then v ≤ e
  else false

/-- `QueryUtil.compare_values(value, op, expected)`.  Unsupported
operations print a message and return `False`. -/
def compare_values (value : PyVal) (op : String) (expected : CmpExpected) :
    Except PyErr Bool :=
  if op = "BETWEEN" then
    match expected with
    | .tup a b =>
      match pyFloat value with
      | .ok q => .ok (decide (a ≤ q) && decide (q ≤ b))
      | .error e => .error e
    | .str _ => .error (.typeError "not supported between instances of str and float")
  else if op = "=" || op = "!=" then
    if value.isStr || (match expected with | .str _ => true | _ => false) then
      let v := pyStr value
      let e := cmpExpectedStr expected
      .ok (if op = "=" then v == e else v != e)
    else
      match pyFloat value, cmpExpectedFloat expected with
      | .ok v, .ok e => .ok (numCompare op v e)
      | .error (.valueError _), _ => .ok false
      | .ok _, .error (.valueError _) => .ok false
      | .error e, _ => .error e
      | _, .error e => .error e
  else if op = ">" || op = ">=" || op = "<" || op = "<=" then
    match pyFloat value, cmpExpectedFloat expected with
    | .ok v, .ok e => .ok (numCompare op v e)
    | .error (.valueError _), _ => .ok false
    | .ok _, .error (.valueError _) => .ok false
    | .error e, _ => .error e
    | _, .error e => .error e
  else if op = "LIKE" then
    .ok (likeMatch (cmpExpectedStr expected).toLower.toList (pyStr value).toLower.toList)
  else
    .ok false

/-- C8 counterexample: `BETWEEN` on a field value that cannot be
coerced to float raises an uncaught `ValueError` instead of totally
evaluating to false — the `BETWEEN` branch, unlike the ordered
comparisons, has no `try/except`. -/
theorem compare_values_between_raises :
    compare_values (.str "abc") "BETWEEN" (.tup 1 2) =
      .error (.valueError "could not convert string to float") ∧
    compare_values (.str "abc") "BETWEEN" (.tup 1 2) ≠ .ok false := by
  have h1 : compare_values (.str "abc") "BETWEEN" (.tup 1 2) =
      .error (.valueError "could not convert string to float") := rfl
  exact ⟨h1, by rw [h1]; intro h; cases h⟩

/-- C8 amended: `BETWEEN a,b` coerces the entry value to float and
holds iff `a ≤ value ≤ b`; a value that cannot be coerced propagates
the coercion error (ValueError for non-numeric strings, TypeError for
containers) instead of evaluating to false. -/
theorem compare_values_between_total (v : PyVal) (a b : ℚ) :
    compare_values v "BETWEEN" (CmpExpected.tup a b) =
      (pyFloat v).map (fun q => decide (a ≤ q ∧ q ≤ b)) := by
  cases h : pyFloat v <;>
    simp [compare_values, h, Except.map, Bool.decide_and]

/-- The ordered comparisons, by contrast, do swallow the coercion
failure: `>` on a non-numeric string is `False`, not an error. -/
theorem compare_values_gt_swallows :
    compare_values (.str "abc") ">" (.str "5") = .ok false := by
  rfl

/-!
## Query modifiers (`command_utils.py`, `QueryUtil.apply_query_modifiers`
and `QueryUtil.custom_sort_key`)

```python
def custom_sort_key(self, x, order_by):
    value = x.get(order_by, '')
    if isinstance(value, str):
        return (0, value.lower())
    elif isinstance(value, (int, float)):
        return (1, value)
    return (2, str(value))
```
`list.sort` is stable; `reverse=True` produces the descending order
with ties kept in original order.  Note the default `''` for a missing
key lands in the *string* bucket `(0, '')`, the minimum of the whole
key order.
-/

/-- One query-result row (always a dict in the paths under claim). -/
def Entry : Type := List (String × PyVal)

/-- Code-point lexicographic order on char lists (Python string
comparison). -/
def strLE : List Char → List Char → Bool
  | [], _ => true
  | _ :: _, [] => false
  | c :: cs, d :: ds =>
    if c.toNat < d.toNat then true
    else if d.toNat < c.toNat then false
    else strLE cs ds

theorem strLE_total : ∀ a b : List Char, strLE a b = true ∨ strLE b a = true
  | [], _ => Or.inl rfl
  | _ :: _, [] => Or.inr rfl
  | c :: cs, d :: ds => by
    rcases Nat.lt_trichotomy c.toNat d.toNat with h | h | h
    · left; simp [strLE, h]
    · have h1 : ¬ c.toNat < d.toNat := by omega
      have h2 : ¬ d.toNat < c.toNat := by omega
      simp only [strLE, h1, h2, if_false]
      exact strLE_total cs ds
    · right; simp [strLE, h]

theorem strLE_trans :
    ∀ (a b c : List Char),
      strLE a b = true → strLE b c = true → strLE a c = true
  | [], _, _, _, _ => rfl
  | _ :: _, [], _, h1, _ => by simp [strLE] at h1
  | _ :: _, _ :: _, [], _, h2 => by simp [strLE] at h2
  | x :: xs, y :: ys, z :: zs, h1, h2 => by
    have hxy : x.toNat ≤ y.toNat := by
      by_contra hc
      push_neg at hc
      have hn : ¬ x.toNat < y.toNat := by omega
      simp [strLE, hn, hc] at h1
    have hyz : y.toNat ≤ z.toNat := by
      by_contra hc
      push_neg at hc
      have hn : ¬ y.toNat < z.toNat := by omega
      simp [strLE, hn, hc] at h2
    rcases Nat.lt_trichotomy x.toNat z.toNat with h | h | h
    · simp [strLE, h]
    · have hx1 : ¬ x.toNat < z.toNat := by omega
      have hx2 : ¬ z.toNat < x.toNat := by omega
      have hexy : x.toNat = y.toNat := by omega
      have heyz : y.toNat = z.toNat := by omega
      have h1n : ¬ x.toNat < y.toNat := by omega
      have h1n2 : ¬ y.toNat < x.toNat := by omega
      have h2n : ¬ y.toNat < z.toNat := by omega
      have h2n2 : ¬ z.toNat < y.toNat := by omega
      have h1t : strLE xs ys = true := by
        simpa [strLE, h1n, h1n2] using h1
      have h2t : strLE ys zs = true := by
        simpa [strLE, h2n, h2n2] using h2
      simp only [strLE, hx1, hx2, if_false]
      exact strLE_trans xs ys zs h1t h2t
    · omega

theorem strLE_nil_right {a : List Char} (h : strLE a [] = true) : a = [] := by
  cases a with
  | nil => rfl
  | cons c cs => simp [strLE] at h

/-- The value `custom_sort_key` returns: Python compares the tuples
`(0, lowered string) < (1, number) < (2, repr)` lexicographically. -/
inductive SortKey where
  | strKey (s : List Char)
  | numKey (q : ℚ)
  | otherKey (s : List Char)
  deriving DecidableEq

/-- `QueryUtil.custom_sort_key(x, order_by)` (a Python `bool` is an
`int`, so booleans take the numeric branch as 0/1). -/
def custom_sort_key (x : Entry) (order_by : String) : SortKey :=
  let value := (dictGet x order_by).getD (.str "")
  match value with
  | .str s => .strKey (s.toList.map Char.toLower)
  | .int n => .numKey (n : ℚ)
  | .float q => .numKey q
  | .bool b => .numKey (if b then 1 else 0)
  | v => .otherKey (pyStr v).toList

/-- Python `<=` on sort-key tuples. -/
def keyLE : SortKey → SortKey → Bool
  | .strKey a, .strKey b => strLE a b
  | .strKey _, _ => true
  | .numKey _, .strKey _ => false
  | .numKey a, .numKey b => decide (a ≤ b)
  | .numKey _, .otherKey _ => true
  | .otherKey a, .otherKey b => strLE a b
  | .otherKey _, _ => false

theorem keyLE_total (a b : SortKey) : keyLE a b = true ∨ keyLE b a = true := by
  cases a with
  | strKey x =>
    cases b with
    | strKey y => exact strLE_total x y
    | numKey y => left; rfl
    | otherKey y => left; rfl
  | numKey x =>
    cases b with
    | strKey y => right; rfl
    | numKey y =>
      rcases le_total x y with h | h
      · left; simpa [keyLE] using h
      · right; simpa [keyLE] using h
    | otherKey y => left; rfl
  | otherKey x =>
    cases b with
    | strKey y => right; rfl
    | numKey y => right; rfl
    | otherKey y => exact strLE_total x y

theorem keyLE_trans {a b c : SortKey} (h1 : keyLE a b = true)
    (h2 : keyLE b c = true) : keyLE a c = true := by
  cases a <;> cases b <;> cases c <;>
    simp only [keyLE, decide_eq_true_eq] at h1 h2 ⊢ <;>
    first
    | rfl
    | trivial
    | exact Bool.noConfusion h1
    | exact Bool.noConfusion h2
    | exact h1
    | exact h2
    | exact strLE_trans _ _ _ h1 h2
    | exact le_trans h1 h2

/-- The bottom of the key order: only the empty-string key sits below
itself. -/
theorem keyLE_strKey_nil {k : SortKey} (h : keyLE k (.strKey []) = true) :
    k = .strKey [] := by
  cases k with
  | strKey s =>
    exact congrArg SortKey.strKey (strLE_nil_right (by simpa [keyLE] using h))
  | numKey q => simp [keyLE] at h
  | otherKey s => simp [keyLE] at h

/-- Stable insertion into a `le`-sorted list: ties keep the inserted
element (originally earlier) first, as CPython sort does. -/
def insertSorted (le : α → α → Bool) (x : α) : List α → List α
  | [] => [x]
  | y :: ys => if le x y then x :: y :: ys else y :: insertSorted le x ys

/-- Stable sort (models CPython `list.sort(key=…)`). -/
def sortByLe (le : α → α → Bool) (l : List α) : List α :=
  l.foldr (insertSorted le) []

theorem insertSorted_perm (le : α → α → Bool) (x : α) (l : List α) :
    List.Perm (insertSorted le x l) (x :: l) := by
  induction l with
  | nil => exact List.Perm.refl _
  | cons y ys ih =>
    by_cases h : le x y
    · simp [insertSorted, h]
    · simp only [insertSorted, h, if_false]
      exact ((ih.cons y).trans (List.Perm.swap x y ys))

theorem sortByLe_perm (le : α → α → Bool) (l : List α) :
    List.Perm (sortByLe le l) l := by
  induction l with
  | nil => exact List.Perm.refl _
  | cons x xs ih =>
    exact (insertSorted_perm le x (sortByLe le xs)).trans (ih.cons x)

theorem insertSorted_sorted (le : α → α → Bool)
    (htot : ∀ a b, le a b = true ∨ le b a = true)
    (htr : ∀ {a b c}, le a b = true → le b c = true → le a c = true)
    (x : α) (l : List α) (hl : l.Pairwise (fun a b => le a b = true)) :
    (insertSorted le x l).Pairwise (fun a b => le a b = true) := by
  induction l with
  | nil => simp [insertSorted]
  | cons y ys ih =>
    rcases List.pairwise_cons.mp hl with ⟨hy, hys⟩
    by_cases h : le x y
    · simp only [insertSorted, h, if_true]
      refine List.pairwise_cons.mpr ⟨?_, hl⟩
      intro z hz
      rcases hz with _ | hz
      · exact h
      · exact htr h (hy _ (by assumption))
    · simp only [insertSorted, h, if_false]
      refine List.pairwise_cons.mpr ⟨?_, ih hys⟩
      intro z hz
      have hyx : le y x = true := by
        rcases htot x y with h1 | h1
        · exact absurd h1 h
        · exact h1
      have hperm := insertSorted_perm le x ys
      rcases List.mem_cons.mp ((hperm.mem_iff).mp hz) with hz1 | hz1
      · rw [hz1]; exact hyx
      · exact hy _ hz1

theorem sortByLe_sorted (le : α → α → Bool)
    (htot : ∀ a b, le a b = true ∨ le b a = true)
    (htr : ∀ {a b c}, le a b = true → le b c = true → le a c = true)
    (l : List α) :
    (sortByLe le l).Pairwise (fun a b => le a b = true) := by
  induction l with
  | nil => simp [sortByLe]
  | cons x xs ih => exact insertSorted_sorted le htot htr x _ ih

/-- Python truthiness (`if group_key:` / `if modifiers['order_by']:`). -/
def pyTruthy : PyVal → Bool
  | .str s => s ≠ ""
  | .int n => n ≠ 0
  | .float q => q ≠ 0
  | .bool b => b
  | .null => false
  | .list xs => !xs.isEmpty
  | .obj fs => !fs.isEmpty

/-- The modifier record `parse_modifiers` builds (`None` fields map to
`none`; `limit_start` defaults to 0). -/
structure Modifiers where
  group_by : Option String
  order_by : Option String
  order_asc : Bool
  limit_start : Nat
  limit_count : Option Nat

/-- Append an entry to the bucket of its (truthy) group key, creating
the bucket on first sight (dict insertion order). -/
def addToBucket (g : List (PyVal × List Entry)) (k : PyVal) (e : Entry) :
    List (PyVal × List Entry) :=
  if g.any (fun p => PyVal.beq p.1 k) then
    g.map (fun p => if PyVal.beq p.1 k then (p.1, p.2 ++ [e]) else p)
  else
    g ++ [(k, [e])]

/-- The GROUPBY pass: entries whose group key is absent or falsy are
skipped. -/
def bucketize (g : String) (l : List Entry) : List (PyVal × List Entry) :=
  l.foldl
    (fun acc entry =>
      match dictGet entry g with
      | some k => if pyTruthy k then addToBucket acc k entry else acc
      | none => acc)
    []

/-- Result of `apply_query_modifiers`: the plain entry list, or — when
grouping applied — the Python pair `[grouped_results,
combined_results]`. -/
inductive QMResult where
  | plain (l : List Entry)
  | grouped (groups : List (PyVal × List Entry)) (rest : List Entry)

/-- The ascending sort comparison used through
`custom_sort_key`. -/
def entryLE (f : String) (a b : Entry) : Bool :=
  keyLE (custom_sort_key a f) (custom_sort_key b f)

/-- `QueryUtil.apply_query_modifiers(combined_results, modifiers)`.
An empty grouped dict is falsy, so it behaves as no grouping; sorting
(`list.sort(key=…, reverse=not order_asc)`, stable) runs before the
`LIMIT` slice; with grouping, the groups are sorted and sliced while
`combined_results` is returned untouched beside them. -/
def apply_query_modifiers (combined : List Entry) (m : Modifiers) :
    QMResult :=
  let buckets : Option (List (PyVal × List Entry)) :=
    match m.group_by with
    | some g => if g = "" then none else some (bucketize g combined)
    | none => none
  let geff : Option (List (PyVal × List Entry)) :=
    match buckets with
    | some (b :: bs) => some (b :: bs)
    | _ => none
  let doSort : List Entry → List Entry := fun l =>
    match m.order_by with
    | some f =>
      if f = "" then l
      else if m.order_asc then sortByLe (entryLE f) l
      else sortByLe (fun a b => entryLE f b a) l
    | none => l
  match geff with
  | some bs =>
    let bs2 := bs.map (fun p => (p.1, doSort p.2))
    let bs3 :=
      match m.limit_count with
      | some c => bs2.map (fun p => (p.1, (p.2.drop m.limit_start).take c))
      | none => bs2
    .grouped bs3 combined
  | none =>
    let l2 := doSort combined
    let l3 :=
      match m.limit_count with
      | some c => (l2.drop m.limit_start).take c
      | none => l2
    .plain l3

/-- An entry that has field `a`. -/
def entryWithA : Entry := [("a", PyVal.str "b")]

/-- An entry with no fields at all (so `a` is missing). -/
def entryNoA : Entry := []

/-- C7 counterexample: under `ORDERBY(a)` (ascending), the entry
missing the field sorts *first*, not last: its key defaults to the
empty string, the minimum of the key order.  The claim as stated
requires `[entryWithA, entryNoA]`; the code returns the opposite
order. -/
theorem orderby_missing_key_sorts_first :
    apply_query_modifiers [entryWithA, entryNoA]
        ⟨none, some "a", true, 0, none⟩ = .plain [entryNoA, entryWithA] ∧
    dictGet entryNoA "a" = none ∧
    dictGet entryWithA "a" = some (.str "b") ∧
    entryNoA ≠ entryWithA := by
  refine ⟨rfl, rfl, rfl, ?_⟩
  intro h
  exact List.noConfusion h

/-- C7 amended: under `ORDERBY(f)` ascending (no grouping, no limit)
the result is a permutation of the input sorted by the
`custom_sort_key` order — string values compare after lower-casing,
numeric values compare naturally *after all strings*, and every entry
missing field `f` is keyed by the empty string and therefore placed
*before* every entry whose key is larger (missing keys sort first, not
last). -/
theorem apply_query_modifiers_orderby_sorted (l : List Entry) (f : String)
    (h : f ≠ "") :
    ∃ l2 : List Entry,
      apply_query_modifiers l ⟨none, some f, true, 0, none⟩ = .plain l2 ∧
      List.Perm l2 l ∧
      l2.Pairwise (fun x y => entryLE f x y = true) ∧
      l2.Pairwise
        (fun x y => dictGet y f = none → custom_sort_key x f = .strKey []) := by
  have htot : ∀ a b : Entry, entryLE f a b = true ∨ entryLE f b a = true := by
    intro a b
    unfold entryLE
    exact keyLE_total _ _
  have htr : ∀ {a b c : Entry},
      entryLE f a b = true → entryLE f b c = true → entryLE f a c = true := by
    intro a b c h1 h2
    unfold entryLE at h1 h2 ⊢
    exact keyLE_trans h1 h2
  refine ⟨sortByLe (entryLE f) l, ?_, ?_, ?_, ?_⟩
  · simp [apply_query_modifiers, h]
  · exact sortByLe_perm _ l
  · exact sortByLe_sorted (entryLE f) htot (fun h1 h2 => htr h1 h2) l
  · refine List.Pairwise.imp ?_
      (sortByLe_sorted (entryLE f) htot (fun h1 h2 => htr h1 h2) l)
    intro x y hxy hnone
    have hk : custom_sort_key y f = .strKey [] := by
      unfold custom_sort_key
      rw [hnone]
      rfl
    unfold entryLE at hxy
    rw [hk] at hxy
    exact keyLE_strKey_nil hxy

/-- Witness for C7 (amended) at the two-entry input of the
counterexample. -/
theorem apply_query_modifiers_orderby_sorted_witness :
    ("a" : String) ≠ "" ∧
    ∃ l2 : List Entry,
      apply_query_modifiers [entryWithA, entryNoA]
          ⟨none, some "a", true, 0, none⟩ = .plain l2 ∧
      List.Perm l2 [entryWithA, entryNoA] ∧
      l2.Pairwise (fun x y => entryLE "a" x y = true) ∧
      l2.Pairwise
        (fun x y => dictGet y "a" = none → custom_sort_key x "a" = .strKey []) :=
  ⟨by decide,
    apply_query_modifiers_orderby_sorted [entryWithA, entryNoA] "a" (by decide)⟩

/-!
## Nested document access (`command_utils.py`, `DataUtil`) and
INCR / DECR (`command_processing.py`,
`DataCommandHandler.incr_decr_command`)
-/

/-- `s.strip()`. -/
def pyStrip (s : String) : String := String.mk (stripSpace s.toList)

/-- `s.split()` (no argument): split on whitespace runs, no empty
pieces. -/
def splitWsAux : List Char → List Char → List String
  | [], acc => if acc.isEmpty then [] else [String.mk acc.reverse]
  | c :: cs, acc =>
    if isPySpace c then
      if acc.isEmpty then splitWsAux cs []
      else String.mk acc.reverse :: splitWsAux cs []
    else splitWsAux cs (c :: acc)

/-- `s.split()`. -/
def splitWs (s : String) : List String := splitWsAux s.toList []

/-- `s.split(sep)` for a one-character separator: keeps empty pieces
(`"a::b".split(":") == ["a", "", "b"]`). -/
def splitOnCharAux (sep : Char) : List Char → List Char → List String
  | [], acc => [String.mk acc.reverse]
  | c :: cs, acc =>
    if c = sep then String.mk acc.reverse :: splitOnCharAux sep cs []
    else splitOnCharAux sep cs (c :: acc)

/-- `s.split(sep)`. -/
def splitOnChar (sep : Char) (s : String) : List String :=
  splitOnCharAux sep s.toList []

/-- `DataUtil.get_nested_value(data, keys)`: walk the key path through
dicts; at a list, try integer indexing (Python negative indexing
included; a bad index falls back), else scan the list for the first
dict holding the key; scalars end the walk with `None`. -/
def get_nested_value (data : PyVal) : List String → Option PyVal
  | [] => some data
  | k :: ks =>
    match data with
    | .obj fs =>
      match dictGet fs k with
      | some v => get_nested_value v ks
      | none => none
    | .list xs =>
      let viaSearch : Option PyVal :=
        match xs.find? (fun item =>
          match item with
          | .obj fs => fs.any (fun p => p.1 == k)
          | _ => false) with
        | some (.obj fs) => dictGet fs k
        | _ => none
      match pyParseInt k with
      | some i =>
        let idx := if i < 0 then i + xs.length else i
        if 0 ≤ idx ∧ idx.toNat < xs.length then
          get_nested_value (xs.getD idx.toNat (.str "")) ks
        else
          match viaSearch with
          | some v => get_nested_value v ks
          | none => none
      | none =>
        match viaSearch with
        | some v => get_nested_value v ks
        | none => none
    | _ => none

/-- `DataUtil.set_nested_value(data, keys, value)`: walk/create dicts
along `keys[:-1]` (replacing non-dict intermediates by `{}`), then
assign at the last key.  Returns (the updated store, the dict the
original returns, i.e. the parent holding the leaf). -/
def set_nested_value (data : List (String × PyVal)) :
    List String → PyVal → (List (String × PyVal)) × (List (String × PyVal))
  | [], _ => (data, data)
  | [k], v =>
    let d2 := dictSet data k v
    (d2, d2)
  | k :: k2 :: ks, v =>
    let child :=
      match dictGet data k with
      | some (.obj fs) => fs
      | _ => []
    let r := set_nested_value child (k2 :: ks) v
    (dictSet data k (.obj r.1), r.2)

/-- A Python number: `int` or `float`.  Arithmetic on two ints yields
an int (which also absorbs the original's `int(new_value)` coercion,
an identity there); any float operand yields a float. -/
inductive PyNum where
  | int (n : ℤ)
  | float (q : ℚ)

/-- Numeric value of a `PyNum` as a rational. -/
def PyNum.toQ : PyNum → ℚ
  | .int n => (n : ℚ)
  | .float q => q

/-- `a + b` / `a - b` on Python numbers (`neg` subtracts). -/
def pyNumAdd (sub : Bool) : PyNum → PyNum → PyNum
  | .int a, .int b => .int (if sub then a - b else a + b)
  | a, b => .float (if sub then a.toQ - b.toQ else a.toQ + b.toQ)

/-- Store a Python number as a document value. -/
def PyNum.toVal : PyNum → PyVal
  | .int n => .int n
  | .float q => .float q

/-- Read the current value as a number, as `data + amount` does:
`None` was already replaced by `0` (int); a non-numeric value raises
`TypeError` (a Python `bool` is an `int`). -/
def numOf : Option PyVal → Except PyErr PyNum
  | none => .ok (.int 0)
  | some (.int n) => .ok (.int n)
  | some (.float q) => .ok (.float q)
  | some (.bool b) => .ok (.int (if b then 1 else 0))
  | some (.str _) => .error (.typeError "unsupported operand type")
  | some .null => .error (.typeError "unsupported operand type")
  | some (.list _) => .error (.typeError "unsupported operand type")
  | some (.obj _) => .error (.typeError "unsupported operand type")

/-- One element of `DataCommandHandler.incr_decr_command` (sharding
inactive, so `check_sharding` answers LOCAL; the subscriber
notification and replication side effects carry no state modelled
here).  Returns the updated store and the reply line; a non-numeric
stored value raises. -/
def incr_decr_element (store : List (String × PyVal)) (command : String)
    (increment : Bool) : Except PyErr ((List (String × PyVal)) × String) :=
  match splitWs (pyStrip command) with
  | p0 :: p1 :: _ =>
    let keys := splitOnChar ':' p0
    let amount : Option PyNum :=
      if p1.toList.contains '.' then
        match pyParseFloat p1 with
        | some q => some (.float q)
        | none => none
      else
        match pyParseInt p1 with
        | some n => some (.int n)
        | none => none
    match amount with
    | none => .ok (store, "ERROR: Invalid amount")
    | some a =>
      match numOf (get_nested_value (.obj store) keys) with
      | .error e => .error e
      | .ok d =>
        let newv := (pyNumAdd (!increment) d a).toVal
        .ok ((set_nested_value store keys newv).1, "OK")
  | _ => .ok (store, "ERROR: Invalid syntax")

/-- `DataCommandHandler.incr_decr_command(args, increment)`: split the
batch on `|`, process each element, join the reply lines with
newlines; an exception in one element aborts the whole command. -/
def incr_decr_command (store : List (String × PyVal)) (args : String)
    (increment : Bool) : Except PyErr ((List (String × PyVal)) × String) :=
  go store (splitOnChar '|' args) []
where
  go (store : List (String × PyVal)) :
      List String → List String →
      Except PyErr ((List (String × PyVal)) × String)
    | [], acc => .ok (store, String.intercalate "\n" acc.reverse)
    | c :: cs, acc =>
      match incr_decr_element store c increment with
      | .error e => .error e
      | .ok (store2, resp) => go store2 cs (resp :: acc)

theorem dictGet_dictSet (d : List (String × PyVal)) (k : String) (v : PyVal) :
    dictGet (dictSet d k v) k = some v := by
  unfold dictGet dictSet
  by_cases h : d.any (fun p => p.1 == k)
  · simp only [h, if_true]
    induction d with
    | nil => simp at h
    | cons p ps ih =>
      by_cases hp : p.1 == k
      · simp [List.find?, hp]
      · simp only [List.any_cons, hp, Bool.false_or] at h
        simp only [List.map_cons, List.find?, hp, if_neg]
        simp only [hp, Bool.false_eq_true, not_false_iff, ite_false]
        exact ih h
  · simp only [h, if_false]
    have hfind : List.find? (fun p => p.1 == k) d = none := by
      rw [List.find?_eq_none]
      intro p hp hc
      exact h (List.any_eq_true.mpr ⟨p, hp, hc⟩)
    simp [List.find?_append, hfind, List.find?]

/-- Writing through `set_nested_value` and reading back through
`get_nested_value` along the same non-empty path yields the written
value. -/
theorem get_set_nested (data : List (String × PyVal)) (keys : List String)
    (v : PyVal) (h : keys ≠ []) :
    get_nested_value (.obj (set_nested_value data keys v).1) keys = some v := by
  induction keys generalizing data with
  | nil => exact absurd rfl h
  | cons k ks ih =>
    cases ks with
    | nil =>
      simp [set_nested_value, get_nested_value, dictGet_dictSet]
    | cons k2 ks2 =>
      simp only [set_nested_value, get_nested_value, dictGet_dictSet]
      exact ih _ (by simp)

/-- C5: `INCR <path> <n>` with an absent path treats the current value
as 0 and stores the integer `0 + n`; with an integer current value `m`
and integer increment it stores the integer `m + n`; and the concrete
scenario `INCR counter:hits 3` then `INCR counter:hits 2` on an
initially empty store leaves the integer 5 at the path. -/
theorem incr_integer_semantics (store : List (String × PyVal))
    (command p0 nStr : String) (keys : List String) (n : ℤ)
    (hsplit : splitWs (pyStrip command) = [p0, nStr])
    (hdot : ('.' : Char) ∉ nStr.data)
    (hn : pyParseInt nStr = some n)
    (hkeys : splitOnChar ':' p0 = keys)
    (hne : keys ≠ []) :
    (get_nested_value (.obj store) keys = none →
      ∃ store2,
        incr_decr_element store command true = .ok (store2, "OK") ∧
        get_nested_value (.obj store2) keys = some (.int (0 + n))) ∧
    (∀ m : ℤ, get_nested_value (.obj store) keys = some (.int m) →
      ∃ store2,
        incr_decr_element store command true = .ok (store2, "OK") ∧
        get_nested_value (.obj store2) keys = some (.int (m + n))) ∧
    (incr_decr_command [] "counter:hits 3" true =
        .ok ([("counter", PyVal.obj [("hits", PyVal.int 3)])], "OK") ∧
      incr_decr_command [("counter", PyVal.obj [("hits", PyVal.int 3)])]
          "counter:hits 2" true =
        .ok ([("counter", PyVal.obj [("hits", PyVal.int 5)])], "OK") ∧
      get_nested_value (.obj [("counter", PyVal.obj [("hits", PyVal.int 5)])])
          ["counter", "hits"] = some (.int 5)) := by
  refine ⟨?_, ?_, rfl, rfl, rfl⟩
  · intro habs
    refine ⟨(set_nested_value store keys (.int (0 + n))).1, ?_,
      get_set_nested store keys _ hne⟩
    unfold incr_decr_element
    rw [hsplit]
    simp [hkeys, hdot, hn, habs, numOf, pyNumAdd, PyNum.toVal]
  · intro m hm
    refine ⟨(set_nested_value store keys (.int (m + n))).1, ?_,
      get_set_nested store keys _ hne⟩
    unfold incr_decr_element
    rw [hsplit]
    simp [hkeys, hdot, hn, hm, numOf, pyNumAdd, PyNum.toVal]

/-- Witness for C5 at the second scenario step: on a store holding
integer 3 at `counter:hits`, `INCR counter:hits 2` stores the
integer `3 + 2`. -/
theorem incr_integer_semantics_witness :
    ∃ store2,
      incr_decr_element [("counter", PyVal.obj [("hits", PyVal.int 3)])]
          "counter:hits 2" true = .ok (store2, "OK") ∧
      get_nested_value (.obj store2) ["counter", "hits"] =
        some (.int (3 + 2)) :=
  (incr_integer_semantics [("counter", PyVal.obj [("hits", PyVal.int 3)])]
      "counter:hits 2" "counter:hits" "2" ["counter", "hits"] 2
      rfl (by decide) rfl rfl (by decide)).2.1 3 rfl

/-!
## JSON (`ujson.loads`) and the small regex helpers of the SET pipeline

`set_specific_key` JSON-parses every incoming value; `set_command`
extracts `FOR WALLET:` / `TO WALLET:` adornments and `EXPIRE(n)`
suffixes by regex and runs the expression-function loop.  All are
embedded as fuel-recursive character scanners (the fuel always
suffices on terminating inputs; `none` on exhaustion).
-/

/-- JSON whitespace. -/
def jsonWs (cs : List Char) : List Char :=
  cs.dropWhile (fun c => c = ' ' || c = '\t' || c = '\n' || c = '\r')

/-- Scan a JSON string body after the opening quote. -/
def parseJString : List Char → List Char → Option (String × List Char)
  | [], _ => none
  | '"' :: rest, acc => some (String.mk acc.reverse, rest)
  | '\\' :: c :: rest, acc =>
    if c = 'n' then parseJString rest ('\n' :: acc)
    else if c = 't' then parseJString rest ('\t' :: acc)
    else if c = 'r' then parseJString rest ('\r' :: acc)
    else if c = 'b' then parseJString rest (Char.ofNat 8 :: acc)
    else if c = 'f' then parseJString rest (Char.ofNat 12 :: acc)
    else if c = 'u' then
      match rest with
      | h1 :: h2 :: h3 :: h4 :: rest2 =>
        let hv := fun (h : Char) =>
          if isDigitChar h then h.toNat - 48
          else if 97 ≤ h.toNat && h.toNat ≤ 102 then h.toNat - 87
          else if 65 ≤ h.toNat && h.toNat ≤ 70 then h.toNat - 55
          else 1000
        let n := ((hv h1 * 16 + hv h2) * 16 + hv h3) * 16 + hv h4
        if n < 1114112 then parseJString rest2 (Char.ofNat n :: acc) else none
      | _ => none
    else if c = '"' || c = '\\' || c = '/' then parseJString rest (c :: acc)
    else none
  | c :: rest, acc => parseJString rest (c :: acc)

/-- Scan a JSON number. -/
def parseJNumber (cs : List Char) : Option (PyVal × List Char) :=
  let (sign, cs1) : ℤ × List Char :=
    match cs with
    | '-' :: r => (-1, r)
    | r => (1, r)
  let ip := cs1.takeWhile isDigitChar
  let cs2 := cs1.dropWhile isDigitChar
  if ip.isEmpty then none
  else
    match cs2 with
    | '.' :: r =>
      let fp := r.takeWhile isDigitChar
      let cs3 := r.dropWhile isDigitChar
      if fp.isEmpty then none
      else
        let q : ℚ := (sign : ℚ) *
          ((natOfDigits ip : ℚ) + (natOfDigits fp : ℚ) / (10 : ℚ) ^ fp.length)
        match cs3 with
        | 'e' :: r2 => parseJExp q r2
        | 'E' :: r2 => parseJExp q r2
        | _ => some (.float q, cs3)
    | 'e' :: r2 => parseJExp ((sign * natOfDigits ip : ℤ) : ℚ) r2
    | 'E' :: r2 => parseJExp ((sign * natOfDigits ip : ℤ) : ℚ) r2
    | _ => some (.int (sign * natOfDigits ip), cs2)
where
  parseJExp (mant : ℚ) (r : List Char) : Option (PyVal × List Char) :=
    let (esign, r1) : ℤ × List Char :=
      match r with
      | '-' :: r2 => (-1, r2)
      | '+' :: r2 => (1, r2)
      | r2 => (1, r2)
    let ed := r1.takeWhile isDigitChar
    if ed.isEmpty then none
    else some (.float (mant * (10 : ℚ) ^ (esign * natOfDigits ed)),
      r1.dropWhile isDigitChar)

/-- JSON value parser (fuel bounds nesting and element count). -/
def parseJValue : Nat → List Char → Option (PyVal × List Char)
  | 0, _ => none
  | fuel + 1, cs =>
    match jsonWs cs with
    | 't' :: 'r' :: 'u' :: 'e' :: rest => some (.bool true, rest)
    | 'f' :: 'a' :: 'l' :: 's' :: 'e' :: rest => some (.bool false, rest)
    | 'n' :: 'u' :: 'l' :: 'l' :: rest => some (.null, rest)
    | '"' :: rest =>
      match parseJString rest [] with
      | some (s, rest2) => some (.str s, rest2)
      | none => none
    | '[' :: rest =>
      match jsonWs rest with
      | ']' :: rest2 => some (.list [], rest2)
      | rest2 => parseJArray fuel rest2 []
    | '{' :: rest =>
      match jsonWs rest with
      | '}' :: rest2 => some (.obj [], rest2)
      | rest2 => parseJObject fuel rest2 []
    | rest => parseJNumber rest
where
  parseJArray : Nat → List Char → List PyVal → Option (PyVal × List Char)
    | 0, _, _ => none
    | fuel + 1, cs, acc =>
      match parseJValue fuel cs with
      | some (v, rest) =>
        match jsonWs rest with
        | ',' :: rest2 => parseJArray fuel rest2 (v :: acc)
        | ']' :: rest2 => some (.list (v :: acc).reverse, rest2)
        | _ => none
      | none => none
  parseJObject : Nat → List Char → List (String × PyVal) →
      Option (PyVal × List Char)
    | 0, _, _ => none
    | fuel + 1, cs, acc =>
      match jsonWs cs with
      | '"' :: rest =>
        match parseJString rest [] with
        | some (k, rest2) =>
          match jsonWs rest2 with
          | ':' :: rest3 =>
            match parseJValue fuel rest3 with
            | some (v, rest4) =>
              match jsonWs rest4 with
              | ',' :: rest5 => parseJObject fuel rest5 ((k, v) :: acc)
              | '}' :: rest5 => some (.obj (acc.reverse ++ [(k, v)]), rest5)
              | _ => none
            | none => none
          | _ => none
        | none => none
      | _ => none

/-- `ujson.loads(s)`: `none` models the `JSONDecodeError` path. -/
def pyJson (s : String) : Option PyVal :=
  match parseJValue (2 * s.length + 8) s.toList with
  | some (v, rest) => if (jsonWs rest).isEmpty then some v else none
  | none => none

/-- `[A-Za-z0-9]`. -/
def isAlnumChar (c : Char) : Bool :=
  isDigitChar c || (97 ≤ c.toNat && c.toNat ≤ 122) ||
    (65 ≤ c.toNat && c.toNat ≤ 90)

/-- `\w`. -/
def isWordChar (c : Char) : Bool := isAlnumChar c || c = '_'

/-- Substring test (Python `needle in haystack`). -/
def isSubstr (needle : List Char) : List Char → Bool
  | [] => needle.isEmpty
  | cs@(_ :: tl) => needle.isPrefixOf cs || isSubstr needle tl

/-- `re.search(marker + "([A-Za-z0-9]+)", s)`: capture of the first
match. -/
def findMarkerCapture (marker : List Char) : List Char → Option (List Char)
  | [] => none
  | cs@(_ :: tl) =>
    if marker.isPrefixOf cs then
      let cap := (cs.drop marker.length).takeWhile isAlnumChar
      if cap.isEmpty then findMarkerCapture marker tl else some cap
    else findMarkerCapture marker tl

/-- `re.sub(marker + "[A-Za-z0-9]+", "", s)`: delete every match. -/
def reSubMarker (marker : List Char) : Nat → List Char → List Char
  | 0, cs => cs
  | fuel + 1, cs =>
    match cs with
    | [] => []
    | c :: tl =>
      if marker.isPrefixOf cs then
        let cap := (cs.drop marker.length).takeWhile isAlnumChar
        if cap.isEmpty then c :: reSubMarker marker fuel tl
        else reSubMarker marker fuel (cs.drop (marker.length + cap.length))
      else c :: reSubMarker marker fuel tl

/-- First `EXPIRE(ddd)` occurrence: the captured number. -/
def findExpire : List Char → Option Nat
  | [] => none
  | cs@(_ :: tl) =>
    if (String.toList "EXPIRE(").isPrefixOf cs then
      let ds := (cs.drop 7).takeWhile isDigitChar
      if !ds.isEmpty && (cs.drop (7 + ds.length)).head? = some ')' then
        some (natOfDigits ds)
      else findExpire tl
    else findExpire tl

/-- `re.sub(r"EXPIRE\(\d+\)", "", s)`. -/
def reSubExpire : Nat → List Char → List Char
  | 0, cs => cs
  | fuel + 1, cs =>
    match cs with
    | [] => []
    | c :: tl =>
      if (String.toList "EXPIRE(").isPrefixOf cs then
        let ds := (cs.drop 7).takeWhile isDigitChar
        if !ds.isEmpty && (cs.drop (7 + ds.length)).head? = some ')' then
          reSubExpire fuel (cs.drop (8 + ds.length))
        else c :: reSubExpire fuel tl
      else c :: reSubExpire fuel tl

/-!
## Secondary indices (`indices_manager.py`, `IndicesManager`)

The index tree is a nested dict whose leaves are descriptor dicts
`{type, values}`; `values` maps a stringified field value to an entity
key (`string` index), a Python set of entity keys (maintained by
`update_index_on_add`), or a list of entity keys (as built by
`indices_create`).
-/

/-- A node of the indices tree. -/
inductive INode where
  | str (s : String)
  | set (xs : List String)
  | ilist (xs : List String)
  | obj (fields : List (String × INode))
  deriving Repr

/-- Structural equality on index nodes. -/
def INode.beq : INode → INode → Bool
  | .str a, .str b => a == b
  | .set a, .set b => a == b
  | .ilist a, .ilist b => a == b
  | .obj a, .obj b => beqObj a b
  | _, _ => false
where
  beqObj : List (String × INode) → List (String × INode) → Bool
    | [], [] => true
    | (k, x) :: xs, (l, y) :: ys => k == l && INode.beq x y && beqObj xs ys
    | _, _ => false

instance : BEq INode := ⟨INode.beq⟩

/-- Association-list get (first binding). -/
def alGet (d : List (String × α)) (k : String) : Option α :=
  (d.find? (fun p => p.1 == k)).map (fun p => p.2)

/-- Association-list set (overwrite in place or append). -/
def alSet (d : List (String × α)) (k : String) (v : α) : List (String × α) :=
  if d.any (fun p => p.1 == k) then
    d.map (fun p => if p.1 == k then (k, v) else p)
  else
    d ++ [(k, v)]

/-- Association-list delete. -/
def alDel (d : List (String × α)) (k : String) : List (String × α) :=
  d.filter (fun p => p.1 != k)

/-- Python `part in node` on an index node. -/
def iMem (k : String) : INode → Bool
  | .obj fs => fs.any (fun p => p.1 == k)
  | .str s => isSubstr k.toList s.toList
  | .set xs => xs.contains k
  | .ilist xs => xs.contains k

/-- Python truthiness of an index node. -/
def iTruthy : INode → Bool
  | .obj fs => !fs.isEmpty
  | .str s => s ≠ ""
  | .set xs => !xs.isEmpty
  | .ilist xs => !xs.isEmpty

/-- `IndicesManager.construct_index_parts(parts, indices)`: walk the
index tree, keeping the segments present in it and skipping the rest;
stop at the first absent segment below a non-dict. -/
def construct_index_parts (parts : List String)
    (indices : List (String × INode)) : Except PyErr (List String) :=
  go parts (.obj indices) []
where
  go : List String → INode → List String → Except PyErr (List String)
    | [], _, acc => .ok acc.reverse
    | p :: ps, cur, acc =>
      if iMem p cur then
        match cur with
        | .obj fs =>
          match alGet fs p with
          | some next => go ps next (p :: acc)
          | none => .ok acc.reverse
        | _ => .error (.typeError "get on non-dict")
      else
        match cur with
        | .obj _ => go ps cur acc
        | _ => .ok acc.reverse

/-- `IndicesManager.get_nested_index_info(index_dict, index_parts)`. -/
def get_nested_index_info (indices : List (String × INode)) :
    List String → Option INode :=
  go (.obj indices)
where
  go : INode → List String → Option INode
    | cur, [] => some cur
    | .obj fs, p :: ps =>
      match alGet fs p with
      | some next => go next ps
      | none => none
    | _, _ :: _ => none

/-- Apply `f` to the node the path addresses (no change when the path
does not resolve through dicts). -/
def iUpdateAt (indices : List (String × INode)) :
    List String → (INode → INode) → List (String × INode)
  | [], _ => indices
  | [k], f =>
    match alGet indices k with
    | some node => alSet indices k (f node)
    | none => indices
  | k :: k2 :: ks, f =>
    match alGet indices k with
    | some (.obj fs) => alSet indices k (.obj (iUpdateAt fs (k2 :: ks) f))
    | _ => indices

/-- Membership of an entity key in a bucket (set or list). -/
def bucketHas (entity : String) : INode → Bool
  | .set xs => xs.contains entity
  | .ilist xs => xs.contains entity
  | .str s => s == entity
  | .obj _ => false

/-- Add to a set bucket (converting an accidental list, as the source
does). -/
def bucketAdd (entity : String) : INode → INode
  | .set xs => if xs.contains entity then .set xs else .set (xs ++ [entity])
  | .ilist xs => if xs.contains entity then .set xs else .set (xs ++ [entity])
  | other => other

/-- `IndicesManager.update_index_on_add(parts, last_key, value,
entity_key)`: locate the descriptor through `construct_index_parts`,
then add each (stringified) element of the value to its bucket (`set`
type) or overwrite the mapping (`string` type). -/
def update_index_on_add (indices : List (String × INode))
    (parts : List String) (value : PyVal) (entity_key : String) :
    Except PyErr (List (String × INode)) := do
  let index_parts ← construct_index_parts parts indices
  match get_nested_index_info indices index_parts with
  | none => .ok indices
  | some info =>
    if !iTruthy info || !iMem "type" info then .ok indices
    else
      match info with
      | .obj fields =>
        let fields := if fields.any (fun p => p.1 == "values") then fields
          else alSet fields "values" (.obj [])
        match alGet fields "type", alGet fields "values" with
        | some (.str t), some (.obj buckets) =>
          let items : List String :=
            match value with
            | .list xs => xs.map pyStr
            | v => [pyStr v]
          let buckets2 :=
            if t = "set" then
              items.foldl
                (fun bks item =>
                  match alGet bks item with
                  | some b => alSet bks item (bucketAdd entity_key b)
                  | none => alSet bks item (.set [entity_key]))
                buckets
            else if t = "string" then
              items.foldl (fun bks item => alSet bks item (.str entity_key))
                buckets
            else buckets
          .ok (iUpdateAt indices index_parts
            (fun _ => .obj (alSet fields "values" (.obj buckets2))))
        | _, _ => .error (.typeError "malformed index descriptor")
      | _ => .ok indices

/-- Remove an entity key from a set bucket; `none` deletes the
emptied bucket. -/
def bucketRemove (entity : String) : INode → Option INode
  | .set xs =>
    let xs2 := xs.filter (fun x => x != entity)
    if xs2.isEmpty then none else some (.set xs2)
  | .ilist xs =>
    let xs2 := xs.filter (fun x => x != entity)
    if xs2.isEmpty then none else some (.ilist xs2)
  | other => some other

/-- `IndicesManager.update_index_on_remove(parts, last_key, old_value,
entity_key)` (the `values` access raises `KeyError` when absent, per
the source). -/
def update_index_on_remove (indices : List (String × INode))
    (parts : List String) (old_value : PyVal) (entity_key : String) :
    Except PyErr (List (String × INode)) := do
  let index_parts ← construct_index_parts parts indices
  match get_nested_index_info indices index_parts with
  | none => .ok indices
  | some info =>
    if !iTruthy info || !iMem "type" info then .ok indices
    else
      match info with
      | .obj fields =>
        match alGet fields "type", alGet fields "values" with
        | some (.str t), some (.obj buckets) =>
          let items : List String :=
            match old_value with
            | .list xs => xs.map pyStr
            | v => [pyStr v]
          let buckets2 :=
            if t = "set" then
              items.foldl
                (fun bks item =>
                  match alGet bks item with
                  | some b =>
                    if bucketHas entity_key b then
                      match bucketRemove entity_key b with
                      | some b2 => alSet bks item b2
                      | none => alDel bks item
                    else bks
                  | none => bks)
                buckets
            else if t = "string" then
              buckets.filter (fun p => !(p.2 == INode.str entity_key))
            else buckets
          .ok (iUpdateAt indices index_parts
            (fun _ => .obj (alSet fields "values" (.obj buckets2))))
        | some _, none => .error (.valueError "KeyError: values")
        | _, _ => .error (.typeError "malformed index descriptor")
      | _ => .ok indices


/-- Modify the *fields* of the dict a path of dict keys addresses
(path `[]` = the root dict). -/
def iModifyFields (indices : List (String × INode)) :
    List String → (List (String × INode) → List (String × INode)) →
    List (String × INode)
  | [], f => f indices
  | k :: ks, f =>
    match alGet indices k with
    | some (.obj fs) => alSet indices k (.obj (iModifyFields fs ks f))
    | _ => indices

/-- Fields of the dict a path addresses, walking `.get(part)`. -/
def iFieldsAt (indices : List (String × INode)) :
    List String → Except PyErr (Option (List (String × INode)))
  | [] => .ok (some indices)
  | k :: ks =>
    match alGet indices k with
    | some (.obj fs) => iFieldsAt fs ks
    | some _ =>
      if ks.isEmpty then .ok none
      else .error (.attributeError "get on non-dict")
    | none =>
      if ks.isEmpty then .ok none
      else .error (.attributeError "get on None")

/-- `IndicesManager.cleanup_empty_dicts(data, path)` (the two-argument
form every caller uses): walk to the deepest dict, then delete empty
dicts bottom-up along the path, stopping at the first truthy node;
deleting an absent key raises `KeyError` as in the source. -/
def iCleanup (indices : List (String × INode)) (path : List String) :
    Except PyErr (List (String × INode)) :=
  if navOk (.obj indices) (path.dropLast) then
    go indices path.length
  else
    .ok indices
where
  navOk : INode → List String → Bool
    | _, [] => true
    | cur, p :: ps =>
      if iMem p cur then
        match cur with
        | .obj fs =>
          match alGet fs p with
          | some next => navOk next ps
          | none => false
        | _ => false
      else false
  go (d : List (String × INode)) : Nat → Except PyErr (List (String × INode))
    | 0 => .ok d
    | i + 1 => do
      match ← iFieldsAt d (path.take i) with
      | none => .error (.attributeError "get on None")
      | some parent =>
        let key := path.getD i ""
        match alGet parent key with
        | some (.obj []) => go (iModifyFields d (path.take i) (fun fs => alDel fs key)) i
        | some node => if iTruthy node then .ok d else go d i
        | none => .error (.keyError key)

/-- `DataUtil.cleanup_empty_dicts(data, path)` (used on the document
tree after DEL): same bottom-up pruning, but the loop stops *before*
index 0, so a top-level key is never pruned, and a missing part simply
returns. -/
def pyCleanup (store : List (String × PyVal)) (path : List String) :
    Except PyErr (List (String × PyVal)) :=
  go store path.length
where
  fieldsAt (store : List (String × PyVal)) :
      List String → Option (List (String × PyVal))
    | [] => some store
    | k :: ks =>
      match dictGet store k with
      | some (.obj fs) => fieldsAt fs ks
      | _ => none
  modifyAt (store : List (String × PyVal)) :
      List String → (List (String × PyVal) → List (String × PyVal)) →
      List (String × PyVal)
    | [], f => f store
    | k :: ks, f =>
      match dictGet store k with
      | some (.obj fs) => dictSet store k (.obj (modifyAt fs ks f))
      | _ => store
  go (d : List (String × PyVal)) : Nat → Except PyErr (List (String × PyVal))
    | 0 => .ok d
    | 1 => .ok d
    | i + 1 =>
      match fieldsAt d (path.take i) with
      | none => .ok d
      | some parent =>
        let key := path.getD i ""
        match dictGet parent key with
        | some (.obj []) =>
          go (modifyAt d (path.take i) (fun fs => dictDel fs key)) i
        | some node => if pyTruthy node then .ok d else go d i
        | none => .error (.keyError key)

/-- Look up a bucket by a Python value used as a dict key against
string keys (`value_to_remove in values_dict`): only a `str` can
match; unhashable values raise. -/
def valBucketKey : PyVal → Except PyErr (Option String)
  | .str s => .ok (some s)
  | .list _ => .error (.typeError "unhashable type: list")
  | .obj _ => .error (.typeError "unhashable type: dict")
  | _ => .ok none

/-- `IndicesManager.remove_field_from_index(keys, field,
value_to_remove)`.  A list bucket here raises `AttributeError`
(`list` has no `discard`). -/
def remove_field_from_index (indices : List (String × INode))
    (keys : List String) (field : String) (value_to_remove : PyVal) :
    Except PyErr ((List (String × INode)) × String) := do
  if keys.isEmpty then
    .ok (indices, "Error: No keys provided for index removal.")
  else
    let index_parts ←
      if keys.length > 2 then pure (keys ++ [field])
      else do
        let base ← construct_index_parts keys.dropLast indices
        pure (base ++ [field])
    match get_nested_index_info indices index_parts with
    | some info =>
      if !iTruthy info then
        .ok (indices, "Field not indexed or index part not found.")
      else
        match info with
        | .obj fields =>
          let index_type := (alGet fields "type").getD (.str "set")
          let values := match alGet fields "values" with
            | some (.obj bks) => bks
            | _ => []
          let entityJoined := String.intercalate ":" keys
          if index_type == INode.str "set" then do
            let keyOpt ← valBucketKey value_to_remove
            let values2 ←
              match keyOpt with
              | some s =>
                match alGet values s with
                | some (INode.set xs) =>
                  if xs.contains entityJoined then
                    let xs2 := xs.filter (fun x => x != entityJoined)
                    if xs2.isEmpty then pure (alDel values s)
                    else pure (alSet values s (INode.set xs2))
                  else pure values
                | some (INode.ilist _) =>
                  Except.error (.attributeError "list object has no attribute discard")
                | some _ => pure values
                | none => pure values
              | none => pure values
            let indices2 := iModifyFields indices index_parts.dropLast
              (fun fs => alSet fs (index_parts.getLastD "")
                (.obj (alSet fields "values" (.obj values2))))
            let indices3 ← iCleanup indices2 index_parts
            .ok (indices3, "Index entry for set removed successfully.")
          else if index_type == INode.str "string" then do
            let keyOpt ← valBucketKey value_to_remove
            let values2 :=
              match keyOpt with
              | some s => alDel values s
              | none => values
            let indices2 := iModifyFields indices index_parts.dropLast
              (fun fs => alSet fs (index_parts.getLastD "")
                (.obj (alSet fields "values" (.obj values2))))
            let indices3 ← iCleanup indices2 index_parts
            .ok (indices3, "Index entry for string removed successfully.")
          else do
            let indices3 ← iCleanup indices index_parts
            .ok (indices3, "Field not indexed or no matching entry found.")
        | _ => .error (.attributeError "get on non-dict")
    | none => .ok (indices, "Field not indexed or index part not found.")

/-- Strip one entity key from every bucket of one field descriptor
(the `set` loop of `remove_entity_from_index`). -/
def stripEntityFromField (entity_key : String) (field_info : INode) :
    Except PyErr INode :=
  match field_info with
  | .obj fields =>
    let index_type := (alGet fields "type").getD (.str "set")
    let values := match alGet fields "values" with
      | some (.obj bks) => bks
      | _ => []
    if index_type == INode.str "set" then
      let values2 := values.foldl
        (fun acc (p : String × INode) =>
          match p.2 with
          | .set xs =>
            let xs2 := xs.filter (fun x => x != entity_key)
            if xs2.isEmpty then alDel acc p.1 else alSet acc p.1 (.set xs2)
          | .ilist xs =>
            let xs2 := xs.filter (fun x => x != entity_key)
            if xs2.isEmpty then alDel acc p.1 else alSet acc p.1 (.ilist xs2)
          | .str s => if s = "" then alDel acc p.1 else acc
          | .obj fs => if fs.isEmpty then alDel acc p.1 else acc)
        values
      .ok (.obj (alSet fields "values" (.obj values2)))
    else if index_type == INode.str "string" then
      let values2 := values.filter (fun p => !(p.2 == INode.str entity_key))
      .ok (.obj (alSet fields "values" (.obj values2)))
    else .ok field_info
  | _ => .error (.attributeError "get on non-dict")

/-- `IndicesManager.remove_entity_from_index(keys, entity_data)`: for
every field indexed under the entity's top-level key, drop the entity
from every bucket (sets and lists alike), pruning emptied buckets;
the inner `cleanup_empty_dicts` call passes the *subtree* with an
absolute path, so it never prunes anything there. -/
def remove_entity_from_index (indices : List (String × INode))
    (keys : List String) : Except PyErr (List (String × INode)) := do
  if keys.isEmpty then .ok indices
  else
    let main_key := keys.headD ""
    let entity_key :=
      if keys.length > 1 then
        main_key ++ ":" ++ String.intercalate ":" keys.tail
      else main_key
    match alGet indices main_key with
    | some (.obj fs) => do
      let fs2 ← fs.foldlM
        (fun acc (p : String × INode) => do
          let info2 ← stripEntityFromField entity_key p.2
          pure (alSet acc p.1 info2))
        fs
      .ok (alSet indices main_key (.obj fs2))
    | some _ => .error (.attributeError "items on non-dict")
    | none => .ok indices

/-- `IndicesManager.get_nested_value(data, keys)` (plain integer list
indexing only, unlike the `DataUtil` version). -/
def idx_get_nested_value (data : PyVal) : List String → Option PyVal
  | [] => some data
  | k :: ks =>
    match data with
    | .obj fs =>
      match dictGet fs k with
      | some v => idx_get_nested_value v ks
      | none => none
    | .list xs =>
      match pyParseInt k with
      | some i =>
        if 0 ≤ i ∧ i.toNat < xs.length then
          idx_get_nested_value (xs.getD i.toNat (.str "")) ks
        else none
      | none => none
    | _ => none

/-- The population loop of `IndicesManager.indices_create` (lines
406-423): build a fresh descriptor for `main_key:nested_keys` of the
given type from the current document tree; `set` buckets are built as
*lists* (`.append`). -/
def indices_create_descriptor (data_store : List (String × PyVal))
    (main_key : String) (nested_keys : List String)
    (index_type : String) : INode :=
  let ents := match dictGet data_store main_key with
    | some (.obj es) => es
    | _ => []
  let values := ents.foldl
    (fun acc (p : String × PyVal) =>
      match idx_get_nested_value p.2 nested_keys with
      | none => acc
      | some attr =>
        let items := match attr with
          | .list xs => xs.map pyStr
          | v => [pyStr v]
        if index_type = "set" then
          items.foldl
            (fun acc2 item =>
              match alGet acc2 item with
              | some (.ilist xs) =>
                alSet acc2 item (.ilist (xs ++ [main_key ++ ":" ++ p.1]))
              | some other => alSet acc2 item other
              | none => alSet acc2 item (.ilist [main_key ++ ":" ++ p.1]))
            acc
        else if index_type = "string" then
          items.foldl
            (fun acc2 item => alSet acc2 item (.str (main_key ++ ":" ++ p.1)))
            acc
        else acc)
    []
  .obj [("type", .str index_type), ("values", .obj values)]

/-!
## Engine state, configuration and the query cache (`app_state.py`,
`cache_manager.py`)
-/

/-- The mutable stores of `AppState` the claims touch. -/
structure EState where
  data_store : List (String × PyVal)
  indices : List (String × INode)
  cache : List (String × (List Entry × ℚ × ℚ))
  cacheExp : List (String × ℚ)
  keyCmdMap : List (String × List String)
  expires : List (String × ℚ)
  data_has_changed : Bool
  indices_has_changed : Bool

/-- The configuration the handlers consult, plus the ambient clock and
the remote-shard channel (`send_to_shard`, `none` = unreachable). -/
structure Config where
  sharding : Bool
  shardingType : String
  host : String
  shards : List String
  port : String
  scheduler : Bool
  caching : Bool
  cachingTTL : ℚ
  now : ℚ
  remote : String → String → Option String

/-- `del d[k]` over a list of keys (`for key in keys_to_remove`): a
key absent at its turn raises `KeyError`. -/
def delMapKeys : List (String × List String) → List String →
    Except PyErr (List (String × List String))
  | m, [] => .ok m
  | m, k :: ks =>
    if m.any (fun p => p.1 == k) then delMapKeys (alDel m k) ks
    else .error (.keyError k)

/-- `CacheManager.remove_from_cache(query_key)` on a string key.
First the commands registered under the exact key leave the cache;
then every mapping key that *contains* the query key as a substring
has its commands deleted from both cache dictionaries, its command
list rebuilt as the commands no longer cached — which, the commands
having just been deleted, keeps all of them — and the key recorded
for removal; the final loop then deletes each recorded key once and
returns normally.  Only a mapping entry whose command list was
already empty would be recorded twice and raise `KeyError` at the
second delete, a state the cache writers never produce. -/
def remove_from_cache (cfg : Config) (st : EState) (query_key : String) :
    Except PyErr EState :=
  if !cfg.caching then .ok st
  else
    let st1 :=
      match alGet st.keyCmdMap query_key with
      | some related =>
        { st with
          cache := related.foldl alDel st.cache
          cacheExp := related.foldl alDel st.cacheExp
          keyCmdMap := alDel st.keyCmdMap query_key }
      | none => st
    let folded := st1.keyCmdMap.foldl
      (fun (acc : (List (String × (List Entry × ℚ × ℚ))) ×
          (List (String × ℚ)) × (List (String × List String)) × List String)
        (p : String × List String) =>
        if isSubstr query_key.toList p.1.toList then
          let cache2 := p.2.foldl alDel acc.1
          let cacheExp2 := p.2.foldl alDel acc.2.1
          let rebuilt := p.2.filter
            (fun c => !(cache2.any (fun q => q.1 == c)))
          let mapping2 := alSet acc.2.2.1 p.1 rebuilt
          let ktr2 := acc.2.2.2 ++ [p.1] ++
            (if rebuilt.isEmpty then [p.1] else [])
          (cache2, cacheExp2, mapping2, ktr2)
        else acc)
      (st1.cache, st1.cacheExp, st1.keyCmdMap, [])
    match delMapKeys folded.2.2.1 folded.2.2.2 with
    | .ok mapping4 =>
      .ok { st1 with
        cache := folded.1
        cacheExp := folded.2.1
        keyCmdMap := mapping4 }
    | .error e => .error e

/-- The wildcard handlers call `remove_from_cache(base_path)` with a
*list*; hashing it for the first membership test raises `TypeError`
before anything is removed. -/
def remove_from_cache_list_arg (cfg : Config) (st : EState) :
    Except PyErr EState :=
  if !cfg.caching then .ok st
  else .error (.typeError "unhashable type: list")

/-- `CacheManager.add_to_cache(command, query_key, query_result)`. -/
def add_to_cache (cfg : Config) (st : EState) (command query_key : String)
    (query_result : List Entry) : EState :=
  if !cfg.caching then st
  else
    let expiration := cfg.now + cfg.cachingTTL
    let st1 :=
      { st with
        cache := alSet st.cache command (query_result, cfg.now, expiration)
        cacheExp := alSet st.cacheExp command expiration
        keyCmdMap :=
          alSet st.keyCmdMap query_key
            ((alGet st.keyCmdMap query_key).getD [] ++ [command]) }
    query_result.foldl
      (fun st2 entry =>
        match dictGet entry "key" with
        | some kv =>
          let individual := query_key ++ ":" ++ pyStr kv
          { st2 with
            keyCmdMap :=
              alSet st2.keyCmdMap individual
                ((alGet st2.keyCmdMap individual).getD [] ++ [command]) }
        | none => st2)
      st1

/-!
## SET / DEL / RENAME (`command_processing.py`, `DataCommandHandler`)
-/

/-- `ContextUtil.get_context_from_key(data_store, key)`: walk
`parts[:-1]` with `.get(part, {})`; reaching a non-dict raises on the
next step (`AttributeError`), a non-dict at the end is returned. -/
def get_context_from_key (store : List (String × PyVal)) (key : String) :
    Except PyErr PyVal :=
  go (.obj store) ((splitOnChar ':' key).dropLast)
where
  go : PyVal → List String → Except PyErr PyVal
    | cur, [] => .ok cur
    | .obj fs, p :: ps => go ((dictGet fs p).getD (.obj [])) ps
    | _, _ :: _ => .error (.attributeError "get on non-dict")

/-- `%(\w+)` matches of `ContextUtil.replace_placeholders`. -/
def findPlaceholders : Nat → List Char → List String
  | 0, _ => []
  | _ + 1, [] => []
  | fuel + 1, '%' :: tl =>
    let w := tl.takeWhile isWordChar
    if w.isEmpty then findPlaceholders fuel tl
    else String.mk w :: findPlaceholders fuel (tl.drop w.length)
  | fuel + 1, _ :: tl => findPlaceholders fuel tl

/-- `s.replace(needle, repl)` (all occurrences). -/
def replaceAll (needle repl : List Char) : Nat → List Char → List Char
  | 0, cs => cs
  | fuel + 1, cs =>
    match cs with
    | [] => []
    | c :: tl =>
      if !needle.isEmpty && needle.isPrefixOf cs then
        repl ++ replaceAll needle repl fuel (cs.drop needle.length)
      else c :: replaceAll needle repl fuel tl

/-- `ContextUtil.replace_placeholders(arg, context)`: resolve every
`%name` from the context dict, or answer the error string. -/
def replace_placeholders (arg : String) (context : PyVal) : String :=
  go (findPlaceholders (arg.length + 1) arg.toList) arg.toList
where
  go : List String → List Char → String
    | [], cs => String.mk cs
    | m :: ms, cs =>
      match context with
      | .obj fs =>
        match dictGet fs m with
        | some v =>
          go ms (replaceAll ('%' :: m.toList) (pyStr v).toList
            (cs.length + 1) cs)
        | none => "ERROR: Placeholder " ++ m ++ " not found in context"
      | _ => "ERROR: Placeholder " ++ m ++ " not found in context"

/-- Leftmost innermost `(\w+)\(([^()]*?)\)` match of the expression
regex: (reversed prefix before the word, word, argument, suffix).
(On pathological nesting the regex engine and this scanner can pick
different—equally innermost—matches; the claims exercise none.) -/
def findFunc : List Char → List Char → Option (List Char × String × String × List Char)
  | _, [] => none
  | acc, '(' :: tl =>
    let wrev := acc.takeWhile isWordChar
    if wrev.isEmpty then findFunc ('(' :: acc) tl
    else
      let inside := tl.takeWhile (fun c => c ≠ ')' && c ≠ '(')
      match tl.drop inside.length with
      | ')' :: after =>
        some (acc.drop wrev.length, String.mk wrev.reverse,
          String.mk inside, after)
      | _ => findFunc ('(' :: acc) tl
  | acc, c :: tl => findFunc (c :: acc) tl

/-- `s.upper()` (character-wise, kernel-computable). -/
def pyUpper (s : String) : String := String.mk (s.toList.map Char.toUpper)

/-- `ExpressionUtil.evaluate_expression(expr, context)`: repeatedly
find the innermost function call, substitute placeholders in its
argument, apply the function and splice the result back, until no
call remains; an `ERROR:` result short-circuits. -/
def evaluate_expression (env : PyEnv) (context : PyVal) :
    Nat → List Char → String
  | 0, expr => String.mk expr
  | fuel + 1, expr =>
    match findFunc [] expr with
    | none => String.mk expr
    | some (beforeRev, func, argRaw, after) =>
      let arg := String.mk (stripSpace argRaw.toList)
      let arg2 := replace_placeholders arg context
      if isSubstr "ERROR:".toList arg2.toList then arg2
      else
        let result := apply_function env (pyUpper func) arg2
        if isSubstr "ERROR:".toList result.toList then result
        else
          evaluate_expression env context fuel
            (beforeRev.reverse ++ result.toList ++ after)

/-- `ExpressionUtil.handle_expression_functions(value, context)`. -/
def handle_expression_functions (env : PyEnv) (value : String)
    (context : PyVal) : String :=
  evaluate_expression env context (value.length + 1) value.toList

/-- `DataUtil.parse_value_instructions(value)`: extract `EXPIRE(n)`
(absolute expiry `now + n`), strip it, then recognise a
`{"value": …, "expiry": …}` JSON wrapper; returns the stripped value
string and the optional expiry. -/
def parse_value_instructions (cfg : Config) (value : String) :
    Except PyErr (String × Option ℚ) := do
  let cs := value.toList
  let expiry : Option ℚ :=
    match findExpire cs with
    | some n => some (cfg.now + (n : ℚ))
    | none => none
  let cs := reSubExpire (cs.length + 1) cs
  let v := String.mk cs
  if v.toList.head? = some '{' && v.toList.getLast? = some '}' then
    match pyJson v with
    | some (.obj kvs) =>
      if (alGet kvs "value").isSome then
        match alGet kvs "value" with
        | some (.str inner) =>
          let expiry2 ←
            if (alGet kvs "expiry").isSome && expiry.isNone then
              match alGet kvs "expiry" with
              | some (.int n) => pure (some (cfg.now + (n : ℚ)))
              | some (.float q) => pure (some (cfg.now + q))
              | _ => .error (.typeError "unsupported operand type")
            else pure expiry
          .ok (pyStrip inner, expiry2)
        | _ => .error (.attributeError "strip on non-str")
      else .ok (pyStrip v, expiry)
    | _ => .ok (pyStrip v, expiry)
  else .ok (pyStrip v, expiry)

/-- `ujson.dumps` (compact form; only used to re-serialize parsed
values inside wildcard SET recursion). -/
def pyJsonDump : PyVal → String
  | .str s => "\"" ++ s ++ "\""
  | .int n => toString n
  | .float q => pyFloatRepr q
  | .bool b => if b then "true" else "false"
  | .null => "null"
  | .list xs => "[" ++ String.intercalate "," (dumpList xs) ++ "]"
  | .obj fs => "\x7b" ++ String.intercalate "," (dumpObj fs) ++ "\x7d"
where
  dumpList : List PyVal → List String
    | [] => []
    | v :: vs => pyJsonDump v :: dumpList vs
  dumpObj : List (String × PyVal) → List String
    | [] => []
    | (k, v) :: fs => ("\"" ++ k ++ "\":" ++ pyJsonDump v) :: dumpObj fs

/-- `ShardingManager.check_sharding(command, command_line, key)` with
`send_to_shard` abstracted as `cfg.remote` (`none` = unreachable,
which the source turns into `"ERROR"`). -/
def check_sharding (cfg : Config) (command command_line key : String) :
    String :=
  if !cfg.sharding then "LOCAL"
  else
    match get_shard cfg.shards key with
    | none => "ERROR: integer division or modulo by zero"
    | some shard =>
      if cfg.shardingType = "MASTER" && shard ≠ cfg.host then
        match cfg.remote (command ++ " " ++ command_line)
            (shard ++ ":" ++ cfg.port) with
        | some r => if r = "" then "ERROR" else r
        | none => "ERROR"
      else "LOCAL"

/-- Walk `parts[:-1]` with `current.setdefault(part, {})`, returning
the contents of the parent dict ( `[]` where segments were created);
a non-dict on the way raises. -/
def getParentFieldsPy (store : List (String × PyVal)) :
    List String → Except PyErr (List (String × PyVal))
  | [] => .ok store
  | k :: ks =>
    match dictGet store k with
    | some (.obj fs) => getParentFieldsPy fs ks
    | some _ => .error (.typeError "assignment through a non-dict")
    | none => getParentFieldsPy [] ks

/-- Rewrite the parent dict along a path, creating empty dicts for
missing segments (the write-back of the `setdefault` walk). -/
def setAtParentPy (store : List (String × PyVal)) :
    List String → (List (String × PyVal) → List (String × PyVal)) →
    List (String × PyVal)
  | [], f => f store
  | k :: ks, f =>
    match dictGet store k with
    | some (.obj fs) => dictSet store k (.obj (setAtParentPy fs ks f))
    | some _ => store
    | none => dictSet store k (.obj (setAtParentPy [] ks f))

/-- `DataCommandHandler.set_individual_key(parts, value)`: remove the
old value from the index when overwriting, parse a `[...]` string as a
list, store, update the index, invalidate the cache under the
top-level key, mark data changed.  (Subscriber notification and the
synchronous save are outside the modelled state.) -/
def set_individual_key (cfg : Config) (st : EState) (parts : List String)
    (value : PyVal) : EState × Except PyErr String :=
  match getParentFieldsPy st.data_store parts.dropLast with
  | .error e => (st, .error e)
  | .ok parent =>
    let base_key := parts.headD ""
    let last_key := parts.getLastD ""
    let entity_key :=
      if parts.length > 2 then String.intercalate ":" (parts.take 2)
      else parts.headD ""
    let old? := dictGet parent last_key
    let indices1E :=
      match old? with
      | some old =>
        if !(old == value) then
          update_index_on_remove st.indices parts old entity_key
        else .ok st.indices
      | none => .ok st.indices
    match indices1E with
    | .error e => (st, .error e)
    | .ok indices1 =>
      let value2 :=
        match value with
        | .str s =>
          if s.toList.head? = some '[' && s.toList.getLast? = some ']' then
            (pyJson s).getD (.str s)
          else .str s
        | v => v
      let data2 := setAtParentPy st.data_store parts.dropLast
        (fun fs => dictSet fs last_key value2)
      match update_index_on_add indices1 parts value2 entity_key with
      | .error e => ({ st with data_store := data2, indices := indices1 }, .error e)
      | .ok indices2 =>
        let st1 := { st with data_store := data2, indices := indices2 }
        match remove_from_cache cfg st1 base_key with
        | .error e => (st1, .error e)
        | .ok st2 => ({ st2 with data_has_changed := true }, .ok "OK")

/-- `DataCommandHandler.set_specific_key(parts, value)`: a value that
JSON-parses to a dict fans out into one `set_individual_key` per
field; otherwise the parse result (or the raw string) is stored. -/
def set_specific_key (cfg : Config) (st : EState) (parts : List String)
    (value : String) : EState × Except PyErr String :=
  match pyJson value with
  | some (.obj kvs) =>
    let rec go (st : EState) : List (String × PyVal) →
        EState × Except PyErr String
      | [] => (st, .ok "OK")
      | (k, v) :: rest =>
        match set_individual_key cfg st (parts ++ [k]) v with
        | (st2, .ok _) => go st2 rest
        | (st2, .error e) => (st2, .error e)
    go st kvs
  | some v => set_individual_key cfg st parts v
  | none => set_individual_key cfg st parts (.str value)

/-- Apply the wildcard write to every entity of the resolved level:
for each `(item_key, item_value)` set `item_value[last_key]`, with
index remove/add around it. -/
def wc_apply (indices : List (String × INode))
    (ents : List (String × PyVal)) (base_path : List String)
    (last_key : String) (parsedv : PyVal) :
    Except PyErr ((List (String × PyVal)) × (List (String × INode)) × Nat) :=
  go indices ents
where
  go (indices : List (String × INode)) :
      List (String × PyVal) →
      Except PyErr ((List (String × PyVal)) × (List (String × INode)) × Nat)
    | [] => .ok ([], indices, 0)
    | (item_key, item_value) :: rest =>
      match item_value with
      | .obj ifs => do
        let full_path := base_path ++ [item_key, last_key]
        let entity_key :=
          if full_path.length > 2 then
            String.intercalate ":" (full_path.take 2)
          else full_path.headD ""
        let indices1 ←
          match dictGet ifs last_key with
          | some old =>
            if !(old == parsedv) then
              update_index_on_remove indices full_path old entity_key
            else pure indices
          | none => pure indices
        let ifs2 := dictSet ifs last_key parsedv
        let indices2 ← update_index_on_add indices1 full_path parsedv entity_key
        let (rest2, indices3, n) ← go indices2 rest
        .ok ((item_key, .obj ifs2) :: rest2, indices3, n + 1)
      | _ => .error (.attributeError "get on non-dict")

/-- Navigate `base_path` (via `recursive_set`) and apply `wc_apply` at
the bottom; a missing segment updates nothing. -/
def wcNav (indices : List (String × INode)) (fs : List (String × PyVal))
    (base_path full_base : List String) (last_key : String)
    (parsedv : PyVal) :
    Except PyErr ((List (String × PyVal)) × (List (String × INode)) × Nat) :=
  match base_path with
  | [] => wc_apply indices fs full_base last_key parsedv
  | k :: ks =>
    match dictGet fs k with
    | some (.obj sub) => do
      let (sub2, idx2, n) ← wcNav indices sub ks full_base last_key parsedv
      .ok (dictSet fs k (.obj sub2), idx2, n)
    | some _ => .error (.attributeError "items on non-dict")
    | none => .ok (fs, indices, 0)

/-- `DataCommandHandler.set_keys_wildcard(base_path, last_key, value,
data_store)`: a dict value recurses field-wise (re-serialized); a
scalar value updates every entity at the wildcard level, then
invalidates the cache — passing `base_path` (a list!) to
`remove_from_cache`, which raises `TypeError` when caching is active,
*after* the document tree was already mutated. -/
def set_keys_wildcard (cfg : Config) :
    Nat → EState → List String → String → String →
    EState × Except PyErr Nat
  | 0, st, _, _, _ => (st, .error (.typeError "recursion limit"))
  | fuel + 1, st, base_path, last_key, value =>
    match pyJson value with
    | some (.obj kvs) =>
      kvs.foldl
        (fun (acc : EState × Except PyErr Nat) (p : String × PyVal) =>
          match acc with
          | (st1, .ok n) =>
            match set_keys_wildcard cfg fuel st1 base_path
                (last_key ++ ":" ++ p.1) (pyJsonDump p.2) with
            | (st2, .ok m) => (st2, .ok (n + m))
            | (st2, .error e) => (st2, .error e)
          | err => err)
        (st, .ok 0)
    | parsedOpt =>
      let parsedv := match parsedOpt with
        | some v => v
        | none => .str value
      match wcNav st.indices st.data_store base_path base_path last_key
          parsedv with
      | .error e => (st, .error e)
      | .ok (data2, idx2, count) =>
        let st1 := { st with data_store := data2, indices := idx2 }
        if count > 0 then
          match remove_from_cache_list_arg cfg st1 with
          | .error e => (st1, .error e)
          | .ok st2 => ({ st2 with data_has_changed := true }, .ok count)
        else ({ st1 with data_has_changed := true }, .ok count)

/-- One wallet-marker pass of `set_command` (`re.search` then
`re.sub` on the stripped command). -/
def walletPass (marker : String) (cmd : String) : String :=
  match findMarkerCapture marker.toList (pyStrip cmd).toList with
  | some _ =>
    String.mk (reSubMarker marker.toList (cmd.length + 1) (pyStrip cmd).toList)
  | none => cmd

/-- `DataCommandHandler.set_command(args)` with blockchain and
replication disabled (their branches only forward outward).  Each
`|`-element appends one reply line — except the `EXPIRE`-without-
scheduler guard, which *returns* the guidance string for the whole
batch, and an exception, which aborts the command. -/
def set_command (cfg : Config) (env : PyEnv) (st : EState) (args : String) :
    EState × Except PyErr String :=
  go st (splitOnChar '|' args) []
where
  go (st : EState) : List String → List String → EState × Except PyErr String
    | [], acc => (st, .ok (String.intercalate "\n" acc.reverse))
    | cmd :: rest, acc =>
      let c1 := walletPass "FOR WALLET:" cmd
      let c2 := walletPass "TO WALLET:" c1
      let stripped := (pyStrip c2).toList
      let g1 := stripped.takeWhile (fun c => c ≠ ' ')
      match g1, stripped.drop g1.length with
      | _ :: _, ' ' :: r2@(_ :: _) =>
        let key_pattern := String.mk g1
        let raw_value := String.mk r2
        if isSubstr "EXPIRE".toList r2 && !cfg.scheduler then
          (st, .ok "Scheduler is not active. Run the command CONFIG SET SCHEDULER 1 to activate")
        else
          match parse_value_instructions cfg raw_value with
          | .error e => (st, .error e)
          | .ok (value0, expiry) =>
            match get_context_from_key st.data_store key_pattern with
            | .error e => (st, .error e)
            | .ok context =>
              let value := handle_expression_functions env value0 context
              let parts := splitOnChar ':' key_pattern
              let sharding_key :=
                if parts.length > 1 then
                  String.intercalate ":" (parts.take 2)
                else parts.headD ""
              if parts.contains "*" && cfg.sharding then
                go st rest
                  ("ERROR: Wildcard operations are not supported in sharding mode." :: acc)
              else
                let shard_result := check_sharding cfg "SET" c2 sharding_key
                if shard_result ≠ "ERROR" && shard_result ≠ "LOCAL" then
                  go st rest ("OK" :: acc)
                else if shard_result = "ERROR" then
                  go st rest ("ERROR: Sharding failed" :: acc)
                else
                  let (st2, resE) :=
                    if parts.contains "*" then
                      let base_path := parts.takeWhile (fun p => p ≠ "*")
                      match set_keys_wildcard cfg (value.length + 8) st
                          base_path (parts.getLastD "") value with
                      | (st2, .ok n) =>
                        (st2, .ok ("Updated " ++ toString n ++ " entries."))
                      | (st2, .error e) => (st2, .error e)
                    else set_specific_key cfg st parts value
                  match resE with
                  | .error e => (st2, .error e)
                  | .ok resp =>
                    let st3 :=
                      match expiry with
                      | some exp =>
                        { st2 with expires := alSet st2.expires key_pattern exp }
                      | none => st2
                    go st3 rest (resp :: acc)
      | _, _ => go st rest ("ERROR: Invalid SET syntax" :: acc)

/-- Python `key in container`: dict membership on a dict, substring
test on a string, element equality on a list; any other value is not
iterable and raises `TypeError`. -/
def pyIn (key : String) : PyVal → Except PyErr Bool
  | .obj kvs => .ok (dictGet kvs key).isSome
  | .str s => .ok (isSubstr key.toList s.toList)
  | .list xs => .ok (xs.any (fun x => PyVal.beq x (.str key)))
  | .int _ => .error (.typeError "argument of type int is not iterable")
  | .float _ => .error (.typeError "argument of type float is not iterable")
  | .bool _ => .error (.typeError "argument of type bool is not iterable")
  | .null => .error (.typeError "argument of type NoneType is not iterable")

/-- Python `data_store[key]` with a string subscript: dict lookup on
a dict, `TypeError` on a string or list. -/
def pyIndex (key : String) : PyVal → Except PyErr PyVal
  | .obj kvs =>
    match dictGet kvs key with
    | some v => .ok v
    | none => .error (.keyError key)
  | .str _ => .error (.typeError "string indices must be integers")
  | .list _ => .error (.typeError "list indices must be integers or slices, not str")
  | v => .error (.typeError (pyStr v))

/-- Plain subscript navigation (`current = current[part]` with no
membership guard): a missing dict key raises `KeyError`; subscripting
a non-dict raises `TypeError`; a value reached after the last part —
scalar or not — is returned as is. -/
def pyNav : PyVal → List String → Except PyErr PyVal
  | v, [] => .ok v
  | .obj fs, k :: ks =>
    match dictGet fs k with
    | some v2 => pyNav v2 ks
    | none => .error (.keyError k)
  | .str _, _ :: _ => .error (.typeError "string indices must be integers")
  | .list _, _ :: _ =>
    .error (.typeError "list indices must be integers or slices, not str")
  | _, _ :: _ => .error (.typeError "object is not subscriptable")

/-- Membership-guarded navigation (`if part in current: current =
current[part] else: return …`): `none` models the early `return` on a
missing part, an exception from `in` or from the subscript aborts. -/
def renNav : PyVal → List String → Except PyErr (Option PyVal)
  | v, [] => .ok (some v)
  | v, k :: ks =>
    match pyIn k v with
    | .error e => .error e
    | .ok false => .ok none
    | .ok true =>
      match pyIndex k v with
      | .error e => .error e
      | .ok v2 => renNav v2 ks

/-- `DataCommandHandler.delete_specific_key(parts)`: walk `parts[:-1]`
by plain subscripting, test `parts[-1] in current_data`, remove the
leaf (entity removal or field removal from the indices first), prune
empty ancestors, invalidate the cache; `KeyError` anywhere answers
`ERROR: Path not found`, any other exception `ERROR: Exception
occurred - …` (both leave the partial effects in place). -/
def delete_specific_key (cfg : Config) (st : EState) (parts : List String) :
    EState × String :=
  match pyNav (.obj st.data_store) parts.dropLast with
  | .error (.keyError _) => (st, "ERROR: Path not found")
  | .error _ => (st, "ERROR: Exception occurred - unhandled")
  | .ok cur =>
    let key := parts.getLastD ""
    match pyIn key cur with
    | .error _ => (st, "ERROR: Exception occurred - unhandled")
    | .ok false => (st, "ERROR: Key does not exist")
    | .ok true =>
      match cur with
      | .obj curFs =>
        match dictGet curFs key with
        | none => (st, "ERROR: Key does not exist")
        | some v =>
          let idxE :=
            match v with
            | .obj _ => remove_entity_from_index st.indices parts
            | _ =>
              let remove_field_parts :=
                if parts.length > 3 then parts.take 1 ++ parts.drop 2 else parts
              (remove_field_from_index st.indices remove_field_parts.dropLast
                key v).map
                (fun (p : (List (String × INode)) × String) => p.1)
          match idxE with
          | .error (.keyError _) => (st, "ERROR: Path not found")
          | .error _ => (st, "ERROR: Exception occurred - unhandled")
          | .ok indices2 =>
            let data2 := setAtParentPy st.data_store parts.dropLast
              (fun fs => dictDel fs key)
            match pyCleanup data2 parts.dropLast with
            | .error (.keyError _) =>
              ({ st with data_store := data2, indices := indices2 },
                "ERROR: Path not found")
            | .error _ =>
              ({ st with data_store := data2, indices := indices2 },
                "ERROR: Exception occurred - unhandled")
            | .ok data3 =>
              let st1 := { st with
                data_store := data3, indices := indices2,
                data_has_changed := true }
              match remove_from_cache cfg st1 (parts.headD "") with
              | .error (.keyError _) => (st1, "ERROR: Path not found")
              | .error _ => (st1, "ERROR: Exception occurred - unhandled")
              | .ok st2 => (st2, "OK")
      | _ => (st, "ERROR: Exception occurred - unhandled")

/-- `recursive_delete` of `delete_keys_wildcard`: delete every binding
of `last_key` anywhere below, counting; a non-dict contributes 0. -/
def recDelKey (last_key : String) : PyVal → PyVal × Nat
  | .obj fs =>
    let r := goObj fs
    (.obj r.1, r.2)
  | v => (v, 0)
where
  goObj : List (String × PyVal) → List (String × PyVal) × Nat
    | [] => ([], 0)
    | (k, v) :: rest =>
      let r := goObj rest
      if k = last_key then (r.1, r.2 + 1)
      else
        let rv := recDelKey last_key v
        ((k, rv.1) :: r.1, rv.2 + r.2)

/-- `DataCommandHandler.delete_keys_wildcard(base_path, last_key,
data_store)`: walk `base_path` by plain subscripting (a `KeyError`
returns 0; reaching a scalar after the last part succeeds and
`recursive_delete` then counts 0), delete recursively, then
invalidate the cache with the `base_path` *list* — a `TypeError`
when caching is active, raised after the tree was mutated and not
caught by the `except KeyError` handler. -/
def delete_keys_wildcard (cfg : Config) (st : EState)
    (base_path : List String) (last_key : String) :
    EState × Except PyErr Nat :=
  match pyNav (.obj st.data_store) base_path with
  | .error (.keyError _) => (st, .ok 0)
  | .error e => (st, .error e)
  | .ok cur =>
    match cur with
    | .obj curFs =>
      let r := recDelKey last_key (.obj curFs)
      match r.1 with
      | .obj cur2 =>
        let data2 := setAtParentPy st.data_store base_path (fun _ => cur2)
        let st1 := { st with data_store := data2 }
        match remove_from_cache_list_arg cfg st1 with
        | .error e => (st1, .error e)
        | .ok st2 => ({ st2 with data_has_changed := true }, .ok r.2)
      | _ => (st, .error (.typeError "unreachable"))
    | _ =>
      match remove_from_cache_list_arg cfg st with
      | .error e => (st, .error e)
      | .ok st2 => ({ st2 with data_has_changed := true }, .ok 0)

/-- `DataCommandHandler.del_command(args)` (replication disabled):
each `|`-element appends exactly one reply line; note the wildcard
message differs from SET (`Wildcard deletions …`) and the shard error
line is the literal `check_sharding` result `ERROR`. -/
def del_command (cfg : Config) (st : EState) (args : String) :
    EState × Except PyErr String :=
  go st (splitOnChar '|' args) []
where
  go (st : EState) : List String → List String → EState × Except PyErr String
    | [], acc => (st, .ok (String.intercalate "\n" acc.reverse))
    | cmd :: rest, acc =>
      let parts := splitOnChar ':' (pyStrip cmd)
      if parts.isEmpty || parts.contains "" then
        go st rest ("ERROR: Invalid DEL syntax" :: acc)
      else
        let shard_key :=
          if parts.length > 1 then String.intercalate ":" (parts.take 2)
          else parts.headD ""
        if parts.contains "*" && cfg.sharding then
          go st rest
            ("ERROR: Wildcard deletions are not supported in sharding mode." :: acc)
        else
          let shard_result := check_sharding cfg "DEL" cmd shard_key
          if shard_result ≠ "ERROR" && shard_result ≠ "LOCAL" then
            go st rest ("OK" :: acc)
          else if shard_result = "ERROR" then
            go st rest (shard_result :: acc)
          else if parts.contains "*" then
            let base_path := parts.takeWhile (fun p => p ≠ "*")
            match delete_keys_wildcard cfg st base_path (parts.getLastD "") with
            | (st2, .ok n) =>
              go st2 rest (("Deleted " ++ toString n ++ " entries.") :: acc)
            | (st2, .error e) => (st2, .error e)
          else
            let (st2, resp) := delete_specific_key cfg st parts
            go st2 rest (resp :: acc)

/-- Split on a full substring separator (Python `s.split(sep)`). -/
def splitOnSub (sep : List Char) : Nat → List Char → List (List Char)
  | 0, cs => [cs]
  | fuel + 1, cs =>
    match cs with
    | [] => [[]]
    | c :: tl =>
      if !sep.isEmpty && sep.isPrefixOf cs then
        [] :: splitOnSub sep fuel (cs.drop sep.length)
      else
        match splitOnSub sep fuel tl with
        | h :: t => (c :: h) :: t
        | [] => [[c]]

/-- One level of `recursive_rename` at the wildcard depth: for each
item of `current.values()`, `target_key in item` (Python `in`
semantics), a dict hit pops and re-inserts under `new_key`, a string
or list hit aborts at `item.pop(target_key)`; an exception leaves the
already-renamed prefix in place. -/
def renWcApply (target_key new_key : String) :
    List (String × PyVal) → List (String × PyVal) × Nat × Option PyErr
  | [] => ([], 0, none)
  | (k, item) :: rest =>
    match pyIn target_key item with
    | .error e => ((k, item) :: rest, 0, some e)
    | .ok false =>
      let r := renWcApply target_key new_key rest
      ((k, item) :: r.1, r.2.1, r.2.2)
    | .ok true =>
      match item with
      | .obj ifs =>
        match dictGet ifs target_key with
        | some v =>
          let r := renWcApply target_key new_key rest
          ((k, .obj (dictSet (dictDel ifs target_key) new_key v)) :: r.1,
            r.2.1 + 1, r.2.2)
        | none =>
          let r := renWcApply target_key new_key rest
          ((k, item) :: r.1, r.2.1, r.2.2)
      | .str _ =>
        ((k, item) :: rest, 0,
          some (.attributeError "str object has no attribute pop"))
      | .list _ =>
        ((k, item) :: rest, 0,
          some (.typeError "str object cannot be interpreted as an integer"))
      | _ =>
        ((k, item) :: rest, 0,
          some (.attributeError "object has no attribute pop"))

/-- `recursive_rename(current, depth)`: descend `base_path` by
membership-guarded subscripting (a missing part returns 0 renames),
then rename inside every value of the reached dict; `.values()` on a
non-dict aborts.  Returns the (possibly partially) rewritten value,
the rename count and the pending exception, if any. -/
def renWcGo (target_key new_key : String) :
    PyVal → List String → PyVal × Nat × Option PyErr
  | cur, [] =>
    match cur with
    | .obj fs =>
      let r := renWcApply target_key new_key fs
      (.obj r.1, r.2.1, r.2.2)
    | v => (v, 0, some (.attributeError "object has no attribute values"))
  | cur, k :: ks =>
    match pyIn k cur with
    | .error e => (cur, 0, some e)
    | .ok false => (cur, 0, none)
    | .ok true =>
      match cur with
      | .obj fs =>
        match dictGet fs k with
        | some v =>
          let r := renWcGo target_key new_key v ks
          (.obj (dictSet fs k r.1), r.2.1, r.2.2)
        | none => (cur, 0, none)
      | .str _ => (cur, 0, some (.typeError "string indices must be integers"))
      | .list _ =>
        (cur, 0,
          some (.typeError "list indices must be integers or slices, not str"))
      | _ => (cur, 0, some (.typeError "object is not subscriptable"))

/-- `DataCommandHandler.rename_command(args)` (replication disabled).
The wildcard branch renames `target_key` inside every value under
`base_path`; the plain branch walks `path_parts[:-1]` by
membership-guarded subscripting and pops/re-inserts the final key in
its parent.  *No index update and no cache invalidation happens* —
this is the mutation path that breaks index/data consistency.  More
than one ` TO ` makes the unpacking raise `ValueError`. -/
def rename_command (cfg : Config) (st : EState) (args : String) :
    EState × Except PyErr String :=
  if !isSubstr " TO ".toList args.toList then
    (st, .ok "ERROR: Invalid RENAME syntax")
  else
    match splitOnSub " TO ".toList (args.length + 1) args.toList with
    | [pathCs, newCs] =>
      let path := String.mk pathCs
      let path_parts := splitOnChar ':' path
      let new_key := pyStrip (String.mk newCs)
      let sharding_key :=
        if path_parts.length > 1 then
          String.intercalate ":" (path_parts.take 2)
        else path_parts.headD ""
      let shard_result := check_sharding cfg "RENAME" path sharding_key
      if shard_result ≠ "ERROR" && shard_result ≠ "LOCAL" then (st, .ok "OK")
      else if shard_result = "ERROR" then (st, .ok "ERROR: Sharding failed")
      else if path_parts.contains "*" then
        let base_path := path_parts.takeWhile (fun p => p ≠ "*")
        let target_key := path_parts.getLastD ""
        let r := renWcGo target_key new_key (.obj st.data_store) base_path
        let data2 :=
          match r.1 with
          | .obj fs2 => fs2
          | _ => st.data_store
        match r.2.2 with
        | some e => ({ st with data_store := data2 }, .error e)
        | none =>
          let st1 := { st with data_store := data2, data_has_changed := true }
          if r.2.1 = 0 then (st1, .ok "Nothing to rename")
          else
            (st1,
              .ok ("RENAME successful: " ++ toString r.2.1 ++ " keys renamed."))
      else
        match renNav (.obj st.data_store) path_parts.dropLast with
        | .error e => (st, .error e)
        | .ok none => (st, .ok "ERROR: Path not found")
        | .ok (some cur) =>
          let last := path_parts.getLastD ""
          match pyIn last cur with
          | .error e => (st, .error e)
          | .ok false => (st, .ok "ERROR: Key not found to rename.")
          | .ok true =>
            match cur with
            | .obj fs =>
              match dictGet fs last with
              | some v =>
                let data2 := setAtParentPy st.data_store path_parts.dropLast
                  (fun fs2 => dictSet (dictDel fs2 last) new_key v)
                ({ st with data_store := data2, data_has_changed := true },
                  .ok "RENAME successful: 1 key renamed.")
              | none => (st, .ok "ERROR: Key not found to rename.")
            | .str _ =>
              (st, .error (.attributeError "str object has no attribute pop"))
            | .list _ =>
              (st,
                .error (.typeError
                  "str object cannot be interpreted as an integer"))
            | _ =>
              (st, .error (.attributeError "object has no attribute pop"))
    | _ => (st, .error (.valueError "too many values to unpack"))

theorem takeWhile_ne_space_self (l : List Char) (h : ' ' ∉ l) :
    l.takeWhile (fun c => c ≠ ' ') = l := by
  induction l with
  | nil => rfl
  | cons c cs ih =>
    have hc : c ≠ ' ' := fun he => h (he ▸ List.mem_cons_self c cs)
    simp only [List.takeWhile_cons, decide_eq_true hc, if_true,
      List.cons.injEq, true_and]
    exact ih (fun hm => h (List.mem_cons_of_mem _ hm))

theorem del_go_step (cfg : Config) (st : EState) (cmd : String)
    (rest acc : List String) :
    (∃ e stx, del_command.go cfg st (cmd :: rest) acc = (stx, .error e)) ∨
    (∃ r st3, del_command.go cfg st (cmd :: rest) acc =
      del_command.go cfg st3 rest (r :: acc)) := by
  rw [del_command.go]
  dsimp only
  repeat' split
  all_goals
    first
      | exact .inl ⟨_, _, rfl⟩
      | exact .inr ⟨_, _, rfl⟩

theorem del_go_lines (cfg : Config) :
    ∀ (elems : List String) (st : EState) (acc : List String)
      (st2 : EState) (reply : String),
      del_command.go cfg st elems acc = (st2, .ok reply) →
      ∃ acc2 : List String, acc2.length = elems.length + acc.length ∧
        reply = String.intercalate "\n" acc2.reverse := by
  intro elems
  induction elems with
  | nil =>
    intro st acc st2 reply h
    rw [del_command.go] at h
    simp only [Prod.mk.injEq, Except.ok.injEq] at h
    exact ⟨acc, by simp, h.2.symm⟩
  | cons cmd rest ih =>
    intro st acc st2 reply h
    rcases del_go_step cfg st cmd rest acc with ⟨e, stx, he⟩ | ⟨r, st3, hgo⟩
    · rw [he] at h
      simp only [Prod.mk.injEq] at h
      exact Except.noConfusion h.2
    · rw [hgo] at h
      obtain ⟨acc2, hlen, hrep⟩ := ih _ _ _ _ h
      refine ⟨acc2, ?_, hrep⟩
      simp only [List.length_cons] at hlen ⊢
      omega

theorem set_go_step (cfg : Config) (env : PyEnv) (st : EState)
    (cmd : String) (rest acc : List String) :
    (∃ e stx, set_command.go cfg env st (cmd :: rest) acc = (stx, .error e)) ∨
    (set_command.go cfg env st (cmd :: rest) acc =
      (st, .ok "Scheduler is not active. Run the command CONFIG SET SCHEDULER 1 to activate")) ∨
    (∃ r st3, set_command.go cfg env st (cmd :: rest) acc =
      set_command.go cfg env st3 rest (r :: acc)) := by
  rw [set_command.go]
  dsimp only
  repeat' split
  all_goals
    first
      | exact .inl ⟨_, _, rfl⟩
      | exact .inr (.inl rfl)
      | exact .inr (.inr ⟨_, _, rfl⟩)

theorem set_go_lines (cfg : Config) (env : PyEnv) :
    ∀ (elems : List String) (st : EState) (acc : List String)
      (st2 : EState) (reply : String),
      set_command.go cfg env st elems acc = (st2, .ok reply) →
      reply = "Scheduler is not active. Run the command CONFIG SET SCHEDULER 1 to activate" ∨
      ∃ acc2 : List String, acc2.length = elems.length + acc.length ∧
        reply = String.intercalate "\n" acc2.reverse := by
  intro elems
  induction elems with
  | nil =>
    intro st acc st2 reply h
    rw [set_command.go] at h
    simp only [Prod.mk.injEq, Except.ok.injEq] at h
    exact .inr ⟨acc, by simp, h.2.symm⟩
  | cons cmd rest ih =>
    intro st acc st2 reply h
    rcases set_go_step cfg env st cmd rest acc with ⟨e, stx, he⟩ | habort | ⟨r, st3, hgo⟩
    · rw [he] at h
      simp only [Prod.mk.injEq] at h
      exact Except.noConfusion h.2
    · rw [habort] at h
      simp only [Prod.mk.injEq, Except.ok.injEq] at h
      exact .inl h.2.symm
    · rw [hgo] at h
      rcases ih _ _ _ _ h with hmsg | ⟨acc2, hlen, hrep⟩
      · exact .inl hmsg
      · refine .inr ⟨acc2, ?_, hrep⟩
        simp only [List.length_cons] at hlen ⊢
        omega

/-- C4 counterexample: in the two-element batch `a 1|b EXPIRE(10) 2`
with the scheduler inactive, the EXPIRE guard in the second element
returns immediately with the single scheduler-guidance line,
discarding the first element reply: one reply line for two batch
elements, so elements are not handled independently. -/
theorem expire_without_scheduler_aborts_batch :
    (set_command ⟨false, "M", "h", ["h"], "10", false, false, 0, 0,
        fun _ _ => none⟩ ⟨fun _ => 0, "u", 0, "f", "d", "t"⟩
      ⟨[], [], [], [], [], [], false, false⟩ "a 1|b EXPIRE(10) 2").2 =
      .ok "Scheduler is not active. Run the command CONFIG SET SCHEDULER 1 to activate" ∧
    (splitOnChar '|' "a 1|b EXPIRE(10) 2").length = 2 ∧
    (splitOnChar '\n'
      "Scheduler is not active. Run the command CONFIG SET SCHEDULER 1 to activate").length = 1 := by
  refine ⟨rfl, rfl, rfl⟩

/-- C4 amended: a successful SET or DEL batch reply is the
newline-join of exactly one reply line per pipe-separated element —
except that a SET element mentioning EXPIRE while the scheduler is
inactive makes the whole batch return the single scheduler-guidance
line; a syntactically invalid element contributes its error line and
leaves the state and the processing of its siblings untouched. -/
theorem set_del_batch_line_per_element :
    (∀ (cfg : Config) (st : EState) (args : String) (st2 : EState)
      (reply : String),
      del_command cfg st args = (st2, .ok reply) →
      ∃ lines : List String,
        lines.length = (splitOnChar '|' args).length ∧
        reply = String.intercalate "\n" lines) ∧
    (∀ (cfg : Config) (env : PyEnv) (st : EState) (args : String)
      (st2 : EState) (reply : String),
      set_command cfg env st args = (st2, .ok reply) →
      reply = "Scheduler is not active. Run the command CONFIG SET SCHEDULER 1 to activate" ∨
      ∃ lines : List String,
        lines.length = (splitOnChar '|' args).length ∧
        reply = String.intercalate "\n" lines) ∧
    (∀ (cfg : Config) (env : PyEnv) (st : EState) (cmd : String)
      (rest acc : List String),
      ' ' ∉ (pyStrip (walletPass "TO WALLET:" (walletPass "FOR WALLET:" cmd))).toList →
      set_command.go cfg env st (cmd :: rest) acc =
        set_command.go cfg env st rest ("ERROR: Invalid SET syntax" :: acc)) ∧
    (∀ (cfg : Config) (st : EState) (cmd : String) (rest acc : List String),
      "" ∈ splitOnChar ':' (pyStrip cmd) →
      del_command.go cfg st (cmd :: rest) acc =
        del_command.go cfg st rest ("ERROR: Invalid DEL syntax" :: acc)) := by
  refine ⟨?_, ?_, ?_, ?_⟩
  · intro cfg st args st2 reply h
    rw [del_command] at h
    obtain ⟨acc2, hlen, hrep⟩ := del_go_lines cfg _ _ _ _ _ h
    exact ⟨acc2.reverse, by simpa using hlen, hrep⟩
  · intro cfg env st args st2 reply h
    rw [set_command] at h
    rcases set_go_lines cfg env _ _ _ _ _ h with hmsg | ⟨acc2, hlen, hrep⟩
    · exact .inl hmsg
    · exact .inr ⟨acc2.reverse, by simpa using hlen, hrep⟩
  · intro cfg env st cmd rest acc hns
    rw [set_command.go]
    cases hl : (pyStrip (walletPass "TO WALLET:" (walletPass "FOR WALLET:" cmd))).toList with
    | nil => rfl
    | cons c cs =>
      rw [hl] at hns
      rw [takeWhile_ne_space_self _ hns, List.drop_length]
  · intro cfg st cmd rest acc hmem
    rw [del_command.go]
    simp [hmem]

/-- Witness for C4 (amended): a spaceless SET element is reported as
invalid syntax and its siblings continue from the same state. -/
theorem set_del_batch_line_per_element_witness :
    set_command.go ⟨false, "M", "h", ["h"], "10", true, false, 0, 0,
        fun _ _ => none⟩ ⟨fun _ => 0, "u", 0, "f", "d", "t"⟩
      ⟨[], [], [], [], [], [], false, false⟩ ["nospace"] [] =
      set_command.go ⟨false, "M", "h", ["h"], "10", true, false, 0, 0,
        fun _ _ => none⟩ ⟨fun _ => 0, "u", 0, "f", "d", "t"⟩
      ⟨[], [], [], [], [], [], false, false⟩ [] ["ERROR: Invalid SET syntax"] :=
  set_del_batch_line_per_element.2.2.1 _ _ _ "nospace" [] [] (by decide)

/-- Configuration with caching enabled and sharding disabled, as when
`QUERY_CACHING` is `'1'`. -/
def c2cfg : Config := ⟨false, "M", "h", ["h"], "10", true, true, 10, 0, fun _ _ => none⟩

def c2env : PyEnv := ⟨fun _ => 0, "u", 0, "f", "d", "t"⟩

/-- A store with two `user` entities and one cached query registered
under the top-level key `user`. -/
def c2st : EState :=
  ⟨[("user", .obj [("1", .obj [("age", .int 30)]), ("2", .obj [("age", .int 25)])])],
   [], [("QUERY user WHERE age>18", ([], 0, 0))],
   [("QUERY user WHERE age>18", 0)],
   [("user", ["QUERY user WHERE age>18"])], [], false, false⟩

/-- C2: a wildcard `SET user:*:age 31` with caching enabled first
mutates every matching document, then calls `remove_from_cache` with
`base_path` — a Python *list* — whose first membership test raises
`TypeError: unhashable type: list`.  The returned state keeps the
cached query registered under `user` (`cache`, `cache_expiry` and
`keys_to_commands_map` untouched) although both `user` documents were
already changed, and `data_has_changed` is still false. -/
theorem wildcard_set_typeerror_stale_cache :
    (set_command c2cfg c2env c2st "user:*:age 31").2 =
      .error (.typeError "unhashable type: list") ∧
    (set_command c2cfg c2env c2st "user:*:age 31").1.data_store =
      [("user", .obj [("1", .obj [("age", .int 31)]),
                      ("2", .obj [("age", .int 31)])])] ∧
    (set_command c2cfg c2env c2st "user:*:age 31").1.data_store ≠
      c2st.data_store ∧
    (set_command c2cfg c2env c2st "user:*:age 31").1.cache = c2st.cache ∧
    (set_command c2cfg c2env c2st "user:*:age 31").1.cacheExp = c2st.cacheExp ∧
    (set_command c2cfg c2env c2st "user:*:age 31").1.keyCmdMap =
      [("user", ["QUERY user WHERE age>18"])] ∧
    (set_command c2cfg c2env c2st "user:*:age 31").1.data_has_changed = false := by
  refine ⟨by rfl, by rfl, ?_, by rfl, by rfl, by rfl, by rfl⟩
  intro h
  rw [show (set_command c2cfg c2env c2st "user:*:age 31").1.data_store =
      [("user", .obj [("1", .obj [("age", .int 31)]),
                      ("2", .obj [("age", .int 31)])])] from rfl] at h
  simp [c2st] at h

/-- The root-existence loop of `QueryCommandHandler.query_command`:
`for key in keys: if key in data_store: data_store = data_store[key]
else: return "[]"`.  `.ok false` models the early `return "[]"`,
`.ok true` a completed walk. -/
def query_root_walk : PyVal → List String → Except PyErr Bool
  | _, [] => .ok true
  | data, key :: rest =>
    match pyIn key data with
    | .error e => .error e
    | .ok false => .ok false
    | .ok true =>
      match pyIndex key data with
      | .error e => .error e
      | .ok v => query_root_walk v rest

/-- `query_command` up to the root-existence check: the root is the
part of `args` before the first space, split on `:`; `some "[]"` is
the early empty reply, `none` means the query proceeds. -/
def query_root_check (data_store : List (String × PyVal)) (args : String) :
    Except PyErr (Option String) :=
  let root := (splitOnChar ' ' args).headD ""
  (query_root_walk (.obj data_store) (splitOnChar ':' root)).map
    (fun ok => if ok then none else some "[]")

/-- Spec-side reading of the walk (clearly separate from the source
embedding): every level actually reached is a dict. -/
def specDictLevels : PyVal → List String → Bool
  | _, [] => true
  | .obj kvs, k :: rest =>
    (match dictGet kvs k with
     | some v => specDictLevels v rest
     | none => true)
  | _, _ :: _ => false

/-- Spec-side reading: some segment of the root is not present at the
corresponding (dict) level of the document tree. -/
def specSegmentMissing : PyVal → List String → Bool
  | _, [] => false
  | .obj kvs, k :: rest =>
    (match dictGet kvs k with
     | some v => specSegmentMissing v rest
     | none => true)
  | _, _ :: _ => false

theorem query_root_walk_obj_iff :
    ∀ (keys : List String) (v : PyVal),
      specDictLevels v keys = true →
      (query_root_walk v keys = .ok false ↔
        specSegmentMissing v keys = true) := by
  intro keys
  induction keys with
  | nil => intro v _; simp [query_root_walk, specSegmentMissing]
  | cons k rest ih =>
    intro v hlv
    cases v with
    | obj kvs =>
      rw [query_root_walk]
      rw [specDictLevels] at hlv
      rw [specSegmentMissing]
      cases hk : dictGet kvs k with
      | none => simp [pyIn, hk]
      | some v2 =>
        simp only [hk] at hlv
        simp [pyIn, pyIndex, hk, ih v2 hlv]
    | str s => exact Bool.noConfusion hlv
    | list xs => exact Bool.noConfusion hlv
    | int n => exact Bool.noConfusion hlv
    | float q => exact Bool.noConfusion hlv
    | bool b => exact Bool.noConfusion hlv
    | null => exact Bool.noConfusion hlv

/-- C10 counterexample: a root segment that is *contained* in a
scalar level — substring of a string value, element of a list value —
passes the Python `in` test and then raises `TypeError` at the
subscript, instead of replying `[]`. -/
theorem query_scalar_level_raises :
    query_root_check [("a", .str "bc")] "a:b" =
      .error (.typeError "string indices must be integers") ∧
    query_root_check [("a", .list [.str "x"])] "a:x" =
      .error (.typeError "list indices must be integers or slices, not str") :=
  ⟨rfl, rfl⟩

theorem query_check_map (pv : PyVal) (keys : List String) :
    ((query_root_walk pv keys).map
        (fun ok => if ok then none else some "[]") =
      Except.ok (some "[]")) ↔ query_root_walk pv keys = .ok false := by
  cases hw : query_root_walk pv keys with
  | error e => simp [Except.map]
  | ok b => cases b <;> simp [Except.map]

/-- C10 amended: as long as every level the root walk reaches is a
dict, the reply is exactly `[]` iff some segment is missing at its
level (and the early return touches no state); but when the walk
meets a string or list level containing the segment, it raises
`TypeError` instead. -/
theorem query_missing_root_empty_reply :
    ∀ (ds : List (String × PyVal)) (args : String),
      specDictLevels (.obj ds)
        (splitOnChar ':' ((splitOnChar ' ' args).headD "")) = true →
      (query_root_check ds args = .ok (some "[]") ↔
        specSegmentMissing (.obj ds)
          (splitOnChar ':' ((splitOnChar ' ' args).headD "")) = true) := by
  intro ds args h
  rw [show query_root_check ds args =
      (query_root_walk (.obj ds)
        (splitOnChar ':' ((splitOnChar ' ' args).headD ""))).map
        (fun ok => if ok then none else some "[]") from rfl]
  rw [query_check_map]
  exact query_root_walk_obj_iff _ _ h

/-- Witness for C10 (amended): `QUERY a:x` against `{"a": {"b": 1}}`
replies `[]` because segment `x` is missing at a dict level. -/
theorem query_missing_root_empty_reply_witness :
    query_root_check [("a", PyVal.obj [("b", PyVal.int 1)])] "a:x" =
      .ok (some "[]") :=
  (query_missing_root_empty_reply [("a", PyVal.obj [("b", PyVal.int 1)])]
    "a:x" (by decide)).mpr (by decide)

/-!
## Association-list laws used by the index-consistency development
-/

theorem alGet_cons (p : String × α) (d : List (String × α)) (k : String) :
    alGet (p :: d) k = if p.1 = k then some p.2 else alGet d k := by
  unfold alGet
  by_cases h : p.1 = k
  · have hb : (p.1 == k) = true := by simp [h]
    simp [List.find?, hb, h]
  · have hb : (p.1 == k) = false := by simp [h]
    simp [List.find?, hb, h]

theorem alGet_append (d e : List (String × α)) (k : String) :
    alGet (d ++ e) k =
      match alGet d k with
      | some v => some v
      | none => alGet e k := by
  unfold alGet
  rw [List.find?_append]
  cases d.find? (fun p => p.1 == k) <;> simp [Option.orElse]

theorem alGet_map_set (k k2 : String) (v : α) :
    ∀ d : List (String × α),
      alGet (d.map (fun p => if p.1 == k then (k, v) else p)) k2 =
        if k2 = k ∧ d.any (fun p => p.1 == k) then some v else alGet d k2 := by
  intro d
  induction d with
  | nil => simp [alGet]
  | cons p ps ih =>
    rw [List.map_cons]
    by_cases hp : p.1 = k
    · rw [if_pos (by simp [hp])]
      rw [alGet_cons, alGet_cons, ih]
      by_cases h2 : k2 = k
      · subst h2
        simp [hp, List.any_cons]
      · have hkk2 : ¬ (k, v).1 = k2 := fun he => h2 (by simpa using he.symm)
        have hpk2 : ¬ p.1 = k2 := fun he => h2 (by rw [← he, hp])
        rw [if_neg hkk2, if_neg hpk2]
        simp [h2]
    · rw [if_neg (by simp [hp])]
      rw [alGet_cons, alGet_cons, ih]
      by_cases h2 : p.1 = k2
      · rw [if_pos h2, if_pos h2]
        have hne : ¬(k2 = k ∧ ((p :: ps).any fun q => q.1 == k) = true) := by
          rintro ⟨he, _⟩; exact hp (by rw [h2, he])
        rw [if_neg hne]
      · rw [if_neg h2, if_neg h2]
        by_cases h3 : k2 = k ∧ (ps.any fun q => q.1 == k) = true
        · rw [if_pos h3, if_pos ⟨h3.1, by simp [List.any_cons, h3.2]⟩]
        · rw [if_neg h3]
          have hne : ¬(k2 = k ∧ ((p :: ps).any fun q => q.1 == k) = true) := by
            rintro ⟨he, hor⟩
            rw [List.any_cons] at hor
            rcases Bool.or_eq_true_iff.mp hor with h4 | h4
            · exact hp (by simpa using h4)
            · exact h3 ⟨he, h4⟩
          rw [if_neg hne]

theorem alGet_alSet (d : List (String × α)) (k k2 : String) (v : α) :
    alGet (alSet d k v) k2 = if k2 = k then some v else alGet d k2 := by
  unfold alSet
  by_cases hany : (d.any fun p => p.1 == k) = true
  · rw [if_pos hany, alGet_map_set]
    by_cases h2 : k2 = k
    · simp [h2, hany]
    · simp [h2]
  · rw [if_neg hany, alGet_append]
    have hdk : alGet d k = none := by
      unfold alGet
      have hf : d.find? (fun p => p.1 == k) = none :=
        List.find?_eq_none.mpr (fun p hp => by
          simp only [beq_iff_eq]
          intro he
          exact hany (List.any_eq_true.mpr ⟨p, hp, by simp [he]⟩))
      simp [hf]
    by_cases h2 : k2 = k
    · subst h2
      simp [hdk, alGet_cons]
    · rw [if_neg h2]
      cases hd : alGet d k2 with
      | none =>
        have hne : ¬ (k, v).1 = k2 := fun he => h2 (by simpa using he.symm)
        simp [alGet_cons, hne, alGet]
      | some v2 => rfl

theorem alGet_alDel (d : List (String × α)) (k k2 : String) :
    alGet (alDel d k) k2 = if k2 = k then none else alGet d k2 := by
  unfold alDel
  induction d with
  | nil => by_cases h2 : k2 = k <;> simp [alGet, h2]
  | cons p ps ih =>
    rw [List.filter_cons]
    by_cases hp : p.1 = k
    · have hg : (p.1 != k) = false := by simp [hp]
      rw [hg]
      simp only [Bool.false_eq_true, if_false]
      rw [ih, alGet_cons]
      by_cases h2 : k2 = k
      · simp [h2]
      · have hpk2 : ¬ p.1 = k2 := fun he => h2 (by rw [← he, hp])
        simp [h2, hpk2]
    · have hg : (p.1 != k) = true := by simp [hp]
      rw [hg]
      simp only [if_true]
      rw [alGet_cons, alGet_cons, ih]
      by_cases h2 : p.1 = k2
      · have hk2k : ¬ k2 = k := fun he => hp (by rw [h2, he])
        simp [h2, hk2k]
      · simp [h2]

theorem alDel_map_set (k : String) (v : α) : ∀ d : List (String × α),
    alDel (d.map (fun p => if p.1 == k then (k, v) else p)) k = alDel d k := by
  intro d
  unfold alDel
  induction d with
  | nil => rfl
  | cons p ps ih =>
    by_cases hp : p.1 = k
    · have hf : (if (p.1 == k) = true then (k, v) else p) = (k, v) := by simp [hp]
      rw [List.map_cons, hf, List.filter_cons, List.filter_cons]
      have h1 : ((k, v).1 != k) = false := by simp
      have h2 : (p.1 != k) = false := by simp [hp]
      rw [h1, h2]
      simp only [Bool.false_eq_true, if_false]
      exact ih
    · have hf : (if (p.1 == k) = true then (k, v) else p) = p := by simp [hp]
      rw [List.map_cons, hf, List.filter_cons, List.filter_cons]
      have h2 : (p.1 != k) = true := by simp [hp]
      rw [h2]
      simp only [if_true]
      rw [ih]

theorem alDel_alSet (d : List (String × α)) (k : String) (v : α) :
    alDel (alSet d k v) k = alDel d k := by
  unfold alSet
  by_cases hany : (d.any fun p => p.1 == k) = true
  · rw [if_pos hany]
    exact alDel_map_set k v d
  · rw [if_neg hany]
    unfold alDel
    rw [List.filter_append]
    have hone : List.filter (fun p => p.1 != k) [(k, v)] = [] := by simp
    rw [hone, List.append_nil]

theorem alGet_none_iff (d : List (String × α)) (k : String) :
    alGet d k = none ↔ k ∉ d.map Prod.fst := by
  unfold alGet
  constructor
  · intro h hmem
    obtain ⟨p, hp, hk⟩ := List.mem_map.mp hmem
    rcases hf : d.find? (fun q => q.1 == k) with _ | q
    · exact absurd (List.find?_eq_none.mp hf p hp) (by simp [hk])
    · simp [hf] at h
  · intro hmem
    rcases hf : d.find? (fun q => q.1 == k) with _ | q
    · simp [hf]
    · have hq := List.find?_some hf
      have hqm := List.mem_of_find?_eq_some hf
      exact absurd (List.mem_map.mpr ⟨q, hqm, by simpa using hq⟩) hmem

theorem mem_iff_alGet (d : List (String × α))
    (N : (d.map Prod.fst).Nodup) (k : String) (v : α) :
    (k, v) ∈ d ↔ alGet d k = some v := by
  induction d with
  | nil => simp [alGet]
  | cons p ps ih =>
    rw [List.map_cons, List.nodup_cons] at N
    rw [alGet_cons, List.mem_cons]
    by_cases hp : p.1 = k
    · rw [if_pos hp]
      constructor
      · rintro (he | hm2)
        · rw [Option.some_inj]
          exact congrArg Prod.snd he.symm
        · exact absurd (List.mem_map.mpr ⟨(k, v), hm2, hp.symm⟩) N.1
      · intro he
        rw [Option.some_inj] at he
        left
        rw [← hp, ← he]
    · rw [if_neg hp]
      rw [← ih N.2]
      constructor
      · rintro (he | hm2)
        · exact absurd (congrArg Prod.fst he.symm) hp
        · exact hm2
      · exact fun hm2 => Or.inr hm2

theorem map_set_keys (k : String) (v : α) : ∀ d : List (String × α),
    (d.map (fun p => if p.1 == k then (k, v) else p)).map Prod.fst =
      d.map Prod.fst := by
  intro d
  induction d with
  | nil => rfl
  | cons p ps ih =>
    by_cases hp : p.1 = k
    · have hf : (if (p.1 == k) = true then (k, v) else p) = (k, v) := by simp [hp]
      rw [List.map_cons, hf, List.map_cons, List.map_cons, ih]
      simp [hp]
    · have hf : (if (p.1 == k) = true then (k, v) else p) = p := by simp [hp]
      rw [List.map_cons, hf, List.map_cons, List.map_cons, ih]

theorem alSet_keys_sub (d : List (String × α)) (k : String) (v : α) :
    ∀ k2, k2 ∈ (alSet d k v).map Prod.fst → k2 = k ∨ k2 ∈ d.map Prod.fst := by
  intro k2 hm
  unfold alSet at hm
  by_cases hany : (d.any fun p => p.1 == k) = true
  · rw [if_pos hany, map_set_keys] at hm
    exact .inr hm
  · rw [if_neg hany, List.map_append] at hm
    rcases List.mem_append.mp hm with h | h
    · exact .inr h
    · simp at h
      exact .inl h

theorem alSet_keys_nodup (d : List (String × α)) (k : String) (v : α)
    (N : (d.map Prod.fst).Nodup) : ((alSet d k v).map Prod.fst).Nodup := by
  unfold alSet
  by_cases hany : (d.any fun p => p.1 == k) = true
  · rw [if_pos hany, map_set_keys]
    exact N
  · rw [if_neg hany, List.map_append, List.nodup_append]
    refine ⟨N, List.nodup_singleton _, ?_⟩
    intro k2 hk2 hk2p
    simp only [List.map_cons, List.map_nil, List.mem_singleton] at hk2p
    subst hk2p
    obtain ⟨p, hp, hpe⟩ := List.mem_map.mp hk2
    exact hany (List.any_eq_true.mpr ⟨p, hp, by simp [hpe]⟩)

theorem alDel_keys_nodup (d : List (String × α)) (k : String)
    (N : (d.map Prod.fst).Nodup) : ((alDel d k).map Prod.fst).Nodup := by
  unfold alDel
  exact List.Nodup.sublist (List.Sublist.map Prod.fst (List.filter_sublist d)) N

theorem dictGet_eq_alGet (d : List (String × PyVal)) (k : String) :
    dictGet d k = alGet d k := by
  unfold dictGet alGet
  cases d.find? (fun p => p.1 == k) <;> rfl

theorem dictSet_eq_alSet (d : List (String × PyVal)) (k : String) (v : PyVal) :
    dictSet d k v = alSet d k v := rfl

theorem dictDel_eq_alDel (d : List (String × PyVal)) (k : String) :
    dictDel d k = alDel d k := rfl

theorem string_append_cancel (pre a b : String)
    (h : pre ++ a = pre ++ b) : a = b := by
  have hd := congrArg String.data h
  simp only [String.data_append] at hd
  have := List.append_cancel_left hd
  cases a
  cases b
  exact congrArg String.mk this

/-!
## Index/data consistency: state shapes, invariant and operations
-/

/-- A `set`-type index descriptor for `user:age` with bucket map `B`. -/
def c1desc (B : List (String × INode)) : INode :=
  .obj [("type", .str "set"), ("values", .obj B)]

/-- The index tree holding exactly the `user:age` descriptor. -/
def c1idx (B : List (String × INode)) : List (String × INode) :=
  [("user", .obj [("age", c1desc B)])]

/-- A document tree holding exactly the `user` collection. -/
def c1data (ents : List (String × PyVal)) : List (String × PyVal) :=
  [("user", .obj ents)]

/-- Effect of `update_index_on_add` on the bucket map. -/
def addB (B : List (String × INode)) (s uid : String) :
    List (String × INode) :=
  match alGet B s with
  | some b => alSet B s (bucketAdd uid b)
  | none => alSet B s (.set [uid])

/-- Effect of `update_index_on_remove` (and of the set branch of
`remove_field_from_index`) on the bucket map. -/
def removeB (B : List (String × INode)) (s uid : String) :
    List (String × INode) :=
  match alGet B s with
  | some b =>
    if bucketHas uid b then
      match bucketRemove uid b with
      | some b2 => alSet B s b2
      | none => alDel B s
    else B
  | none => B

/-- The entity `ent` sits in the bucket for value `val`. -/
def bucketMem (B : List (String × INode)) (val ent : String) : Prop :=
  ∃ b, alGet B val = some b ∧ bucketHas ent b = true

/-- Consistency invariant between the `user` collection and the live
bucket map of the `user:age` index. -/
structure C1Inv (ents : List (String × PyVal))
    (B : List (String × INode)) : Prop where
  shape : ∀ id v, dictGet ents id = some v →
    ∃ s, v = PyVal.obj [("age", PyVal.str s)]
  entsN : (ents.map Prod.fst).Nodup
  bN : (B.map Prod.fst).Nodup
  bset : ∀ val b, alGet B val = some b → ∃ xs, b = INode.set xs ∧ xs ≠ []
  mem : ∀ val ent, bucketMem B val ent ↔
    ∃ id, dictGet ents id = some (PyVal.obj [("age", PyVal.str val)]) ∧
      ent = "user:" ++ id

/-- One SET or DEL batch element against the `user` collection:
`SET user:id:age sv`, `DEL user:id:age`, `DEL user:id`. -/
inductive C1Op where
  | setF (id sv : String)
  | delF (id : String)
  | delE (id : String)

/-- Side conditions: the entity id is not the literal field name, and
the SET value is a plain scalar string (not JSON). -/
def c1valid : C1Op → Prop
  | .setF id sv => id ≠ "age" ∧ pyJson sv = none
  | .delF _ => True
  | .delE _ => True

/-- Apply one operation through the SET/DEL element handlers. -/
def c1apply (cfg : Config) (st : EState) : C1Op → EState
  | .setF id sv => (set_specific_key cfg st ["user", id, "age"] sv).1
  | .delF id => (delete_specific_key cfg st ["user", id, "age"]).1
  | .delE id => (delete_specific_key cfg st ["user", id]).1

/-- Run a whole operation sequence. -/
def c1run (cfg : Config) : List C1Op → EState → EState
  | [], st => st
  | op :: ops, st => c1run cfg ops (c1apply cfg st op)

theorem contains_iff_mem_str (xs : List String) (e : String) :
    xs.contains e = true ↔ e ∈ xs := by
  simp

theorem intercalate_pair (a b : String) :
    String.intercalate ":" [a, b] = a ++ ":" ++ b := by
  simp [String.intercalate, String.intercalate.go]

theorem c1_construct_parts (B : List (String × INode)) (id : String)
    (hid : id ≠ "age") :
    construct_index_parts ["user", id, "age"] (c1idx B) = .ok ["user", "age"] := by
  have hne : ("age" == id) = false := by
    simp only [beq_eq_false_iff_ne, ne_eq]
    exact fun he => hid he.symm
  simp [construct_index_parts, construct_index_parts.go, iMem, hne,
    alGet, List.find?, List.any, c1idx, c1desc]

theorem c1_nested_info (B : List (String × INode)) :
    get_nested_index_info (c1idx B) ["user", "age"] = some (c1desc B) := rfl

theorem c1_index_add (B : List (String × INode)) (id s uid : String)
    (hid : id ≠ "age") :
    update_index_on_add (c1idx B) ["user", id, "age"] (.str s) uid =
      .ok (c1idx (addB B s uid)) := by
  unfold update_index_on_add
  rw [c1_construct_parts B id hid]
  rfl

theorem c1_index_remove (B : List (String × INode)) (id s uid : String)
    (hid : id ≠ "age") :
    update_index_on_remove (c1idx B) ["user", id, "age"] (.str s) uid =
      .ok (c1idx (removeB B s uid)) := by
  unfold update_index_on_remove
  rw [c1_construct_parts B id hid]
  rfl

theorem c1_rfc_off (cfg : Config) (hc : cfg.caching = false)
    (st : EState) (q : String) : remove_from_cache cfg st q = .ok st := by
  simp [remove_from_cache, hc]

theorem c1_set_individual_new (cfg : Config) (hc : cfg.caching = false)
    (st : EState) (ents : List (String × PyVal)) (B : List (String × INode))
    (hd : st.data_store = c1data ents) (hi : st.indices = c1idx B)
    (id sv : String) (hid : id ≠ "age") (hjson : pyJson sv = none)
    (hent : dictGet ents id = none) :
    set_individual_key cfg st ["user", id, "age"] (.str sv) =
      ({ st with
          data_store := c1data (dictSet ents id (.obj [("age", .str sv)])),
          indices := c1idx (addB B sv ("user:" ++ id)),
          data_has_changed := true }, .ok "OK") := by
  have hfind : List.find? (fun p => p.1 == id) ents = none := by
    unfold dictGet at hent
    rcases hf : List.find? (fun p => p.1 == id) ents with _ | p
    · exact hf
    · rw [hf] at hent
      simp at hent
  have hparent : getParentFieldsPy st.data_store
      (List.dropLast ["user", id, "age"]) = .ok [] := by
    rw [hd]
    simp [getParentFieldsPy, c1data, dictGet, List.find?, hfind]
  have hek : String.intercalate ":" (List.take 2 ["user", id, "age"]) =
      "user:" ++ id := by
    rw [show List.take 2 ["user", id, "age"] = ["user", id] from rfl,
      intercalate_pair]
    rfl
  have hdata2 : setAtParentPy st.data_store (List.dropLast ["user", id, "age"])
      (fun fs => dictSet fs "age" (.str sv)) =
      c1data (dictSet ents id (.obj [("age", .str sv)])) := by
    rw [hd]
    simp [setAtParentPy, c1data, dictGet, List.find?, hfind, dictSet]
  unfold set_individual_key
  rw [hparent]
  simp only [hek, hi]
  rw [show (dictGet [] (["user", id, "age"].getLastD "")) =
    (none : Option PyVal) from rfl]
  simp only []
  have hval2 : (if sv.toList.head? = some '[' && sv.toList.getLast? = some ']'
      then (pyJson sv).getD (.str sv) else .str sv) = PyVal.str sv := by
    split <;> simp [hjson]
  rw [hval2]
  rw [show (if ["user", id, "age"].length > 2 then "user:" ++ id
      else ["user", id, "age"].headD "") = "user:" ++ id from rfl]
  rw [c1_index_add B id sv ("user:" ++ id) hid]
  simp only []
  rw [show (["user", id, "age"].getLastD "") = "age" from rfl]
  rw [hdata2]
  rw [show (["user", id, "age"].headD "") = "user" from rfl]
  rw [c1_rfc_off cfg hc]

theorem c1_set_individual_old (cfg : Config) (hc : cfg.caching = false)
    (st : EState) (ents : List (String × PyVal)) (B : List (String × INode))
    (hd : st.data_store = c1data ents) (hi : st.indices = c1idx B)
    (id sv sOld : String) (hid : id ≠ "age") (hjson : pyJson sv = none)
    (hent : dictGet ents id = some (PyVal.obj [("age", PyVal.str sOld)])) :
    set_individual_key cfg st ["user", id, "age"] (.str sv) =
      ({ st with
          data_store := c1data (dictSet ents id (.obj [("age", .str sv)])),
          indices := c1idx (if sOld = sv then addB B sv ("user:" ++ id)
            else addB (removeB B sOld ("user:" ++ id)) sv ("user:" ++ id)),
          data_has_changed := true }, .ok "OK") := by
  rcases hf : List.find? (fun p => p.1 == id) ents with _ | pp
  · exfalso
    unfold dictGet at hent
    rw [hf] at hent
    exact Option.noConfusion hent
  obtain ⟨a, b⟩ := pp
  have ha : a = id := by
    have h1 := List.find?_some hf
    simpa using h1
  subst ha
  have hb : b = PyVal.obj [("age", PyVal.str sOld)] := by
    unfold dictGet at hent
    rw [hf] at hent
    simpa using hent
  subst hb
  have hparent : getParentFieldsPy st.data_store
      (List.dropLast ["user", a, "age"]) = .ok [("age", PyVal.str sOld)] := by
    rw [hd]
    simp [getParentFieldsPy, c1data, dictGet, List.find?, hf]
  have hek : String.intercalate ":" (List.take 2 ["user", a, "age"]) =
      "user:" ++ a := by
    rw [show List.take 2 ["user", a, "age"] = ["user", a] from rfl,
      intercalate_pair]
    rfl
  have hval2 : (if sv.toList.head? = some '[' && sv.toList.getLast? = some ']'
      then (pyJson sv).getD (.str sv) else .str sv) = PyVal.str sv := by
    split <;> simp [hjson]
  have hdata2 : setAtParentPy st.data_store (List.dropLast ["user", a, "age"])
      (fun fs => dictSet fs "age" (.str sv)) =
      c1data (dictSet ents a (.obj [("age", .str sv)])) := by
    rw [hd]
    simp [setAtParentPy, c1data, dictGet, List.find?, hf, dictSet]
  unfold set_individual_key
  rw [hparent]
  simp only [hek, hi]
  rw [show (dictGet [("age", PyVal.str sOld)] (["user", a, "age"].getLastD "")) =
    some (PyVal.str sOld) from rfl]
  simp only []
  by_cases hss : sOld = sv
  · subst hss
    have hbeq : (PyVal.str sOld == PyVal.str sOld) = true := by
      show PyVal.beq (PyVal.str sOld) (PyVal.str sOld) = true
      simp [PyVal.beq]
    rw [hbeq]
    simp only [Bool.not_true, Bool.false_eq_true, if_false]
    rw [hval2]
    rw [show (if ["user", a, "age"].length > 2 then "user:" ++ a
        else ["user", a, "age"].headD "") = "user:" ++ a from rfl]
    rw [c1_index_add B a sOld ("user:" ++ a) hid]
    simp only []
    rw [show (["user", a, "age"].getLastD "") = "age" from rfl]
    rw [hdata2]
    rw [show (["user", a, "age"].headD "") = "user" from rfl]
    rw [c1_rfc_off cfg hc]
    simp
  · have hbeq : (PyVal.str sOld == PyVal.str sv) = false := by
      show PyVal.beq (PyVal.str sOld) (PyVal.str sv) = false
      simp [PyVal.beq, hss]
    rw [hbeq]
    simp only [Bool.not_false, if_true]
    rw [show (if ["user", a, "age"].length > 2 then "user:" ++ a
        else ["user", a, "age"].headD "") = "user:" ++ a from rfl]
    rw [c1_index_remove B a sOld ("user:" ++ a) hid]
    simp only []
    rw [hval2]
    rw [c1_index_add (removeB B sOld ("user:" ++ a)) a sv ("user:" ++ a) hid]
    simp only []
    rw [show (["user", a, "age"].getLastD "") = "age" from rfl]
    rw [hdata2]
    rw [show (["user", a, "age"].headD "") = "user" from rfl]
    rw [c1_rfc_off cfg hc]
    rw [if_neg hss]

theorem c1_set_specific (cfg : Config) (st : EState) (parts : List String)
    (sv : String) (hjson : pyJson sv = none) :
    set_specific_key cfg st parts sv =
      set_individual_key cfg st parts (.str sv) := by
  simp [set_specific_key, hjson]

theorem c1_remove_field_idx (B : List (String × INode)) (id s : String)
    (hB : ∀ val b, alGet B val = some b → ∃ xs, b = INode.set xs ∧ xs ≠ []) :
    remove_field_from_index (c1idx B) ["user", id] "age" (.str s) =
      .ok (c1idx (removeB B s ("user:" ++ id)),
        "Index entry for set removed successfully.") := by
  have hpair : String.intercalate ":" ["user", id] = "user:" ++ id := by
    rw [intercalate_pair]
    rfl
  have hstep : remove_field_from_index (c1idx B) ["user", id] "age" (.str s) =
      (do
        let values2 ←
          match alGet B s with
          | some (INode.set xs) =>
            if xs.contains (String.intercalate ":" ["user", id]) then
              let xs2 := xs.filter
                (fun x => x != String.intercalate ":" ["user", id])
              if xs2.isEmpty then pure (alDel B s)
              else pure (alSet B s (INode.set xs2))
            else pure B
          | some (INode.ilist _) =>
            Except.error (.attributeError "list object has no attribute discard")
          | some _ => pure B
          | none => pure B
        Except.ok (c1idx values2,
          "Index entry for set removed successfully.")) := by rfl
  rw [hstep]
  cases halg : alGet B s with
  | none => simp [removeB, halg, Except.bind]
  | some b =>
    obtain ⟨xs, rfl, _⟩ := hB s b halg
    simp only [hpair]
    by_cases hct : ("user:" ++ id) ∈ xs
    · cases hie : (xs.filter (fun x => x != "user:" ++ id)).isEmpty <;>
        simp [removeB, halg, bucketHas, bucketRemove, hct, hie, Except.bind]
    · simp [removeB, halg, bucketHas, bucketRemove, hct, Except.bind]

theorem c1_del_field_absent (cfg : Config) (st : EState)
    (ents : List (String × PyVal)) (hd : st.data_store = c1data ents)
    (id : String) (hent : dictGet ents id = none) :
    delete_specific_key cfg st ["user", id, "age"] =
      (st, "ERROR: Path not found") := by
  have hfind : List.find? (fun p => p.1 == id) ents = none := by
    unfold dictGet at hent
    rcases hf : List.find? (fun p => p.1 == id) ents with _ | p
    · exact hf
    · rw [hf] at hent
      simp at hent
  have hnav : pyNav (.obj st.data_store) (List.dropLast ["user", id, "age"]) =
      .error (.keyError id) := by
    rw [hd]
    simp [pyNav, c1data, dictGet, List.find?, hfind]
  unfold delete_specific_key
  rw [hnav]

theorem c1_del_field (cfg : Config) (hc : cfg.caching = false)
    (st : EState) (ents : List (String × PyVal)) (B : List (String × INode))
    (hd : st.data_store = c1data ents) (hi : st.indices = c1idx B)
    (id s : String)
    (hB : ∀ val b, alGet B val = some b → ∃ xs, b = INode.set xs ∧ xs ≠ [])
    (hent : dictGet ents id = some (PyVal.obj [("age", PyVal.str s)])) :
    delete_specific_key cfg st ["user", id, "age"] =
      ({ st with
          data_store := c1data (dictDel ents id),
          indices := c1idx (removeB B s ("user:" ++ id)),
          data_has_changed := true }, "OK") := by
  rcases hf : List.find? (fun p => p.1 == id) ents with _ | pp
  · exfalso
    unfold dictGet at hent
    rw [hf] at hent
    exact Option.noConfusion hent
  obtain ⟨a, b⟩ := pp
  have ha : a = id := by
    have h1 := List.find?_some hf
    simpa using h1
  subst ha
  have hb : b = PyVal.obj [("age", PyVal.str s)] := by
    unfold dictGet at hent
    rw [hf] at hent
    simpa using hent
  subst hb
  have hnav : pyNav (.obj st.data_store) (List.dropLast ["user", a, "age"]) =
      .ok (.obj [("age", PyVal.str s)]) := by
    rw [hd]
    simp [pyNav, c1data, dictGet, List.find?, hf]
  have hdata2 : setAtParentPy st.data_store ["user", a]
      (fun fs => dictDel fs "age") =
      c1data (dictSet ents a (.obj [])) := by
    rw [hd]
    simp [setAtParentPy, c1data, dictGet, List.find?, hf, dictSet, dictDel]
  have hcleanGen : ∀ ents2 : List (String × PyVal),
      dictGet ents2 a = some (.obj []) →
      pyCleanup (c1data ents2) ["user", a] =
        .ok (c1data (dictDel ents2 a)) := by
    intro ents2 hg2
    rcases hf2 : List.find? (fun p => p.1 == a) ents2 with _ | q
    · exfalso
      unfold dictGet at hg2
      rw [hf2] at hg2
      exact Option.noConfusion hg2
    · have hq2 : q.2 = PyVal.obj [] := by
        unfold dictGet at hg2
        rw [hf2] at hg2
        simpa using hg2
      simp [pyCleanup, pyCleanup.go, pyCleanup.fieldsAt, pyCleanup.modifyAt,
        c1data, dictGet, List.find?, hf2, hq2, dictSet, List.any]
  have hclean := hcleanGen (dictSet ents a (.obj []))
    (dictGet_dictSet ents a (.obj []))
  have hdd : dictDel (dictSet ents a (.obj [])) a = dictDel ents a := by
    rw [dictDel_eq_alDel, dictSet_eq_alSet, alDel_alSet, ← dictDel_eq_alDel]
  unfold delete_specific_key
  rw [hnav]
  simp only []
  rw [show pyIn (["user", a, "age"].getLastD "") (PyVal.obj [("age", PyVal.str s)]) =
    .ok true from rfl]
  simp only []
  rw [show (dictGet [("age", PyVal.str s)] (["user", a, "age"].getLastD "")) =
    some (PyVal.str s) from rfl]
  simp only []
  rw [show (if (["user", a, "age"] : List String).length > 3 then
      List.take 1 ["user", a, "age"] ++ List.drop 2 ["user", a, "age"]
    else ["user", a, "age"]) = ["user", a, "age"] from rfl]
  rw [show (List.dropLast ["user", a, "age"]) = ["user", a] from rfl]
  rw [show (["user", a, "age"].getLastD "") = "age" from rfl]
  rw [hi]
  rw [c1_remove_field_idx B a s hB]
  simp only [Except.map]
  rw [hdata2]
  rw [hclean]
  rw [hdd]
  rw [show (["user", a, "age"].headD "") = "user" from rfl]
  simp only []
  rw [c1_rfc_off cfg hc]

/-- Effect of `remove_entity_from_index` on the bucket map: drop the
entity from every bucket, pruning emptied ones. -/
def stripB (B : List (String × INode)) (uid : String) :
    List (String × INode) :=
  B.foldl
    (fun acc (p : String × INode) =>
      match p.2 with
      | .set xs =>
        let xs2 := xs.filter (fun x => x != uid)
        if xs2.isEmpty then alDel acc p.1 else alSet acc p.1 (.set xs2)
      | .ilist xs =>
        let xs2 := xs.filter (fun x => x != uid)
        if xs2.isEmpty then alDel acc p.1 else alSet acc p.1 (.ilist xs2)
      | .str s => if s = "" then alDel acc p.1 else acc
      | .obj fs => if fs.isEmpty then alDel acc p.1 else acc)
    B

theorem c1_remove_entity (B : List (String × INode)) (id : String) :
    remove_entity_from_index (c1idx B) ["user", id] =
      .ok (c1idx (stripB B ("user:" ++ id))) := by rfl

theorem c1_del_entity_absent (cfg : Config) (st : EState)
    (ents : List (String × PyVal)) (hd : st.data_store = c1data ents)
    (id : String) (hent : dictGet ents id = none) :
    delete_specific_key cfg st ["user", id] =
      (st, "ERROR: Key does not exist") := by
  have hnav : pyNav (.obj st.data_store) (List.dropLast ["user", id]) =
      .ok (.obj ents) := by
    rw [hd]
    rfl
  unfold delete_specific_key
  rw [hnav]
  simp only []
  rw [show ((["user", id] : List String).getLastD "") = id from rfl]
  rw [show pyIn id (PyVal.obj ents) = .ok (dictGet ents id).isSome from rfl]
  rw [hent]
  rfl

theorem c1_del_entity (cfg : Config) (hc : cfg.caching = false)
    (st : EState) (ents : List (String × PyVal)) (B : List (String × INode))
    (hd : st.data_store = c1data ents) (hi : st.indices = c1idx B)
    (id s : String)
    (hent : dictGet ents id = some (PyVal.obj [("age", PyVal.str s)])) :
    delete_specific_key cfg st ["user", id] =
      ({ st with
          data_store := c1data (dictDel ents id),
          indices := c1idx (stripB B ("user:" ++ id)),
          data_has_changed := true }, "OK") := by
  have hnav : pyNav (.obj st.data_store) (List.dropLast ["user", id]) =
      .ok (.obj ents) := by
    rw [hd]
    rfl
  have hdata2 : setAtParentPy st.data_store (List.dropLast ["user", id])
      (fun fs => dictDel fs id) = c1data (dictDel ents id) := by
    rw [hd]
    simp [setAtParentPy, c1data, dictGet, List.find?, dictSet]
  unfold delete_specific_key
  rw [hnav]
  simp only []
  rw [show ((["user", id] : List String).getLastD "") = id from rfl]
  rw [show pyIn id (PyVal.obj ents) = .ok (dictGet ents id).isSome from rfl]
  rw [hent]
  rw [show Option.isSome (some (PyVal.obj [("age", PyVal.str s)])) = true
    from rfl]
  simp only []
  rw [hi]
  rw [c1_remove_entity B id]
  simp only []
  rw [hdata2]
  rw [show pyCleanup (c1data (dictDel ents id))
    (List.dropLast ["user", id]) = .ok (c1data (dictDel ents id)) from rfl]
  rw [show ((["user", id] : List String).headD "") = "user" from rfl]
  simp only []
  rw [c1_rfc_off cfg hc]

theorem alGet_some_mem_keys (d : List (String × α)) (k : String) (v : α)
    (h : alGet d k = some v) : k ∈ d.map Prod.fst := by
  by_contra hn
  rw [(alGet_none_iff d k).mpr hn] at h
  exact Option.noConfusion h

theorem bucketHas_set (ent : String) (xs : List String) :
    bucketHas ent (INode.set xs) = true ↔ ent ∈ xs := by
  simp [bucketHas]

theorem bucketMem_addB (B : List (String × INode)) (s uid : String)
    (hB : ∀ val b, alGet B val = some b → ∃ xs, b = INode.set xs ∧ xs ≠ []) :
    ∀ val ent, bucketMem (addB B s uid) val ent ↔
      (bucketMem B val ent ∨ (val = s ∧ ent = uid)) := by
  intro val ent
  unfold addB bucketMem
  cases halg : alGet B s with
  | none =>
    rw [alGet_alSet]
    by_cases hv : val = s
    · subst hv
      simp [halg, bucketHas]
    · simp [hv]
  | some b =>
    obtain ⟨xs, rfl, hne⟩ := hB s b halg
    rw [alGet_alSet]
    by_cases hv : val = s
    · subst hv
      by_cases hu : uid ∈ xs
      · simp only [if_pos rfl, halg, bucketAdd, hu, if_true, Option.some.injEq]
        simp [bucketHas, hu]
        intro he
        subst he
        exact hu
      · simp only [if_pos rfl, halg, bucketAdd, hu, if_false, Option.some.injEq]
        simp [bucketHas, hu]
    · simp [hv, halg]

theorem removeB_none (B : List (String × INode)) (s uid : String)
    (halg : alGet B s = none) : removeB B s uid = B := by
  unfold removeB
  rw [halg]

theorem removeB_alGet (B : List (String × INode)) (s uid : String)
    (xs : List String) (halg : alGet B s = some (INode.set xs)) :
    ∀ val, alGet (removeB B s uid) val =
      if val = s then
        (if uid ∈ xs then
          (if (xs.filter (fun x => x != uid)).isEmpty then none
           else some (INode.set (xs.filter (fun x => x != uid))))
         else some (INode.set xs))
      else alGet B val := by
  intro val
  unfold removeB
  rw [halg]
  simp only []
  by_cases hu : uid ∈ xs
  · have hbh : bucketHas uid (INode.set xs) = true := by simp [bucketHas, hu]
    rw [if_pos hbh]
    unfold bucketRemove
    simp only []
    by_cases he : (xs.filter (fun x => x != uid)).isEmpty = true
    · rw [if_pos he]
      rw [alGet_alDel]
      by_cases hv : val = s <;> simp [hv, hu, he, halg]
    · rw [if_neg he]
      rw [alGet_alSet]
      by_cases hv : val = s <;> simp [hv, hu, he, halg]
  · have hbh : ¬ bucketHas uid (INode.set xs) = true := by simp [bucketHas, hu]
    rw [if_neg hbh]
    by_cases hv : val = s <;> simp [hv, hu, halg]

theorem bucketMem_removeB (B : List (String × INode)) (s uid : String)
    (hB : ∀ val b, alGet B val = some b → ∃ xs, b = INode.set xs ∧ xs ≠ []) :
    ∀ val ent, bucketMem (removeB B s uid) val ent ↔
      (bucketMem B val ent ∧ ¬(val = s ∧ ent = uid)) := by
  intro val ent
  cases halg : alGet B s with
  | none =>
    rw [removeB_none B s uid halg]
    by_cases hv : val = s
    · subst hv
      unfold bucketMem
      simp [halg]
    · constructor
      · exact fun h => ⟨h, fun hc => hv hc.1⟩
      · exact fun h => h.1
  | some b =>
    obtain ⟨xs, rfl, hne⟩ := hB s b halg
    unfold bucketMem
    rw [removeB_alGet B s uid xs halg val]
    by_cases hv : val = s
    · subst hv
      rw [if_pos rfl]
      by_cases hu : uid ∈ xs
      · rw [if_pos hu]
        by_cases he : (xs.filter (fun x => x != uid)).isEmpty = true
        · rw [if_pos he]
          have hall : ∀ x ∈ xs, x = uid := by
            intro x hx
            by_contra hxne
            have hmem2 : x ∈ xs.filter (fun x => x != uid) := by
              simp [List.mem_filter, hx, hxne]
            rw [List.isEmpty_iff.mp he] at hmem2
            exact List.not_mem_nil x hmem2
          simp [halg, bucketHas]
          exact fun hmem => hall ent hmem
        · rw [if_neg he]
          simp [halg, bucketHas, List.mem_filter]
      · rw [if_neg hu]
        simp [halg, bucketHas]
        intro hmem he
        exact hu (he ▸ hmem)
    · rw [if_neg hv]
      simp [hv]

theorem addB_bset (B : List (String × INode)) (s uid : String)
    (hB : ∀ val b, alGet B val = some b → ∃ xs, b = INode.set xs ∧ xs ≠ []) :
    ∀ val b, alGet (addB B s uid) val = some b →
      ∃ xs, b = INode.set xs ∧ xs ≠ [] := by
  intro val b h
  unfold addB at h
  cases halg : alGet B s with
  | none =>
    rw [halg, alGet_alSet] at h
    by_cases hv : val = s
    · rw [if_pos hv] at h
      have hb := Option.some.inj h
      exact ⟨[uid], hb.symm, by simp⟩
    · rw [if_neg hv] at h
      exact hB val b h
  | some b0 =>
    obtain ⟨xs, rfl, hne⟩ := hB s b0 halg
    rw [halg, alGet_alSet] at h
    by_cases hv : val = s
    · rw [if_pos hv] at h
      have hb := Option.some.inj h
      rw [← hb]
      unfold bucketAdd
      by_cases hc : xs.contains uid = true
      · simp only [hc, if_true]
        exact ⟨xs, rfl, hne⟩
      · simp only [hc, Bool.false_eq_true, if_false]
        exact ⟨xs ++ [uid], rfl, by simp⟩
    · rw [if_neg hv] at h
      exact hB val b h

theorem removeB_bset (B : List (String × INode)) (s uid : String)
    (hB : ∀ val b, alGet B val = some b → ∃ xs, b = INode.set xs ∧ xs ≠ []) :
    ∀ val b, alGet (removeB B s uid) val = some b →
      ∃ xs, b = INode.set xs ∧ xs ≠ [] := by
  intro val b h
  cases halg : alGet B s with
  | none =>
    rw [removeB_none B s uid halg] at h
    exact hB val b h
  | some b0 =>
    obtain ⟨xs, rfl, hne⟩ := hB s b0 halg
    rw [removeB_alGet B s uid xs halg val] at h
    by_cases hv : val = s
    · rw [if_pos hv] at h
      by_cases hu : uid ∈ xs
      · rw [if_pos hu] at h
        by_cases he : (xs.filter (fun x => x != uid)).isEmpty = true
        · rw [if_pos he] at h
          exact Option.noConfusion h
        · rw [if_neg he] at h
          have hb := Option.some.inj h
          refine ⟨xs.filter (fun x => x != uid), hb.symm, ?_⟩
          intro hnil
          rw [hnil] at he
          exact he rfl
      · rw [if_neg hu] at h
        exact ⟨xs, (Option.some.inj h).symm, hne⟩
    · rw [if_neg hv] at h
      exact hB val b h

theorem addB_nodup (B : List (String × INode)) (s uid : String)
    (hN : (B.map Prod.fst).Nodup) : ((addB B s uid).map Prod.fst).Nodup := by
  unfold addB
  cases alGet B s with
  | none => exact alSet_keys_nodup B s _ hN
  | some b => exact alSet_keys_nodup B s _ hN

theorem removeB_nodup (B : List (String × INode)) (s uid : String)
    (hN : (B.map Prod.fst).Nodup) :
    ((removeB B s uid).map Prod.fst).Nodup := by
  unfold removeB
  cases alGet B s with
  | none => exact hN
  | some b =>
    simp only []
    by_cases hbh : bucketHas uid b = true
    · rw [if_pos hbh]
      cases bucketRemove uid b with
      | none => exact alDel_keys_nodup B s hN
      | some b2 => exact alSet_keys_nodup B s b2 hN
    · rw [if_neg hbh]
      exact hN

theorem dictGet_dictSet_general (d : List (String × PyVal)) (k : String)
    (v : PyVal) (k2 : String) :
    dictGet (dictSet d k v) k2 = if k2 = k then some v else dictGet d k2 := by
  rw [dictGet_eq_alGet, dictSet_eq_alSet, alGet_alSet]
  by_cases h : k2 = k <;> simp [h, dictGet_eq_alGet]

theorem dictGet_dictDel_general (d : List (String × PyVal)) (k k2 : String) :
    dictGet (dictDel d k) k2 = if k2 = k then none else dictGet d k2 := by
  rw [dictGet_eq_alGet, dictDel_eq_alDel, alGet_alDel]
  by_cases h : k2 = k <;> simp [h, dictGet_eq_alGet]

/-- One step of the entity-stripping fold. -/
def stripStep (uid : String) (acc : List (String × INode))
    (p : String × INode) : List (String × INode) :=
  match p.2 with
  | .set xs =>
    let xs2 := xs.filter (fun x => x != uid)
    if xs2.isEmpty then alDel acc p.1 else alSet acc p.1 (.set xs2)
  | .ilist xs =>
    let xs2 := xs.filter (fun x => x != uid)
    if xs2.isEmpty then alDel acc p.1 else alSet acc p.1 (.ilist xs2)
  | .str s => if s = "" then alDel acc p.1 else acc
  | .obj fs => if fs.isEmpty then alDel acc p.1 else acc

theorem stripB_eq_fold (B : List (String × INode)) (uid : String) :
    stripB B uid = B.foldl (stripStep uid) B := rfl

theorem stripStep_alGet_other (uid : String) (acc : List (String × INode))
    (p : String × INode) (val : String) (hv : val ≠ p.1) :
    alGet (stripStep uid acc p) val = alGet acc val := by
  obtain ⟨k, node⟩ := p
  simp only at hv
  cases node with
  | set xs =>
    simp only [stripStep]
    by_cases he : (xs.filter (fun x => x != uid)).isEmpty = true
    · rw [if_pos he, alGet_alDel, if_neg hv]
    · rw [if_neg he, alGet_alSet, if_neg hv]
  | ilist xs =>
    simp only [stripStep]
    by_cases he : (xs.filter (fun x => x != uid)).isEmpty = true
    · rw [if_pos he, alGet_alDel, if_neg hv]
    · rw [if_neg he, alGet_alSet, if_neg hv]
  | str s =>
    simp only [stripStep]
    by_cases hs : s = ""
    · rw [if_pos hs, alGet_alDel, if_neg hv]
    · rw [if_neg hs]
  | obj fs =>
    simp only [stripStep]
    by_cases hf : fs.isEmpty = true
    · rw [if_pos hf, alGet_alDel, if_neg hv]
    · rw [if_neg hf]

theorem stripStep_alGet_set_self (uid : String)
    (acc : List (String × INode)) (k : String) (xs : List String) :
    alGet (stripStep uid acc (k, .set xs)) k =
      if (xs.filter (fun x => x != uid)).isEmpty then none
      else some (INode.set (xs.filter (fun x => x != uid))) := by
  simp only [stripStep]
  by_cases he : (xs.filter (fun x => x != uid)).isEmpty = true
  · rw [if_pos he, alGet_alDel, if_pos rfl, if_pos he]
  · rw [if_neg he, alGet_alSet, if_pos rfl, if_neg he]

theorem strip_fold_mem (uid : String) :
    ∀ (todo : List (String × INode)) (acc : List (String × INode)),
      (todo.map Prod.fst).Nodup →
      (∀ p ∈ todo, alGet acc p.1 = some p.2 ∧ ∃ xs, p.2 = INode.set xs) →
      ∀ val ent,
        bucketMem (todo.foldl (stripStep uid) acc) val ent ↔
          (bucketMem acc val ent ∧ (val ∉ todo.map Prod.fst ∨ ent ≠ uid)) := by
  intro todo
  induction todo with
  | nil =>
    intro acc _ _ val ent
    simp
  | cons p rest ih =>
    intro acc hN hpre val ent
    obtain ⟨k, node⟩ := p
    obtain ⟨hget, xs, rfl⟩ := hpre (k, node) (List.mem_cons_self _ _)
    rw [List.map_cons, List.nodup_cons] at hN
    have hknotin : (k, INode.set xs).1 ∉ rest.map Prod.fst := hN.1
    simp only at hknotin
    rw [List.foldl_cons]
    have hpre2 : ∀ q ∈ rest,
        alGet (stripStep uid acc (k, INode.set xs)) q.1 = some q.2 ∧
          ∃ ys, q.2 = INode.set ys := by
      intro q hq
      have hqp := hpre q (List.mem_cons_of_mem _ hq)
      have hqk : q.1 ≠ k :=
        fun he => hknotin (he ▸ List.mem_map.mpr ⟨q, hq, rfl⟩)
      refine ⟨?_, hqp.2⟩
      rw [stripStep_alGet_other uid acc _ _ hqk]
      exact hqp.1
    rw [ih _ hN.2 hpre2 val ent]
    have hstep_mem : bucketMem (stripStep uid acc (k, INode.set xs)) val ent ↔
        (bucketMem acc val ent ∧ (val ≠ k ∨ ent ≠ uid)) := by
      by_cases hv : val = k
      · subst hv
        unfold bucketMem
        rw [stripStep_alGet_set_self uid acc val xs]
        by_cases he : (xs.filter (fun x => x != uid)).isEmpty = true
        · rw [if_pos he]
          have hall : ∀ x ∈ xs, x = uid := by
            intro x hx
            by_contra hxne
            have hmem2 : x ∈ xs.filter (fun x => x != uid) := by
              simp [List.mem_filter, hx, hxne]
            rw [List.isEmpty_iff.mp he] at hmem2
            exact List.not_mem_nil x hmem2
          simp [hget, bucketHas]
          exact fun hmem => hall ent hmem
        · rw [if_neg he]
          simp [hget, bucketHas, List.mem_filter]
      · rw [bucketMem, bucketMem]
        rw [stripStep_alGet_other uid acc _ _ hv]
        constructor
        · exact fun h => ⟨h, Or.inl hv⟩
        · exact fun h => h.1
    rw [hstep_mem]
    rw [List.map_cons]
    constructor
    · rintro ⟨⟨hm, hkor⟩, hrest⟩
      refine ⟨hm, ?_⟩
      rcases hrest with hnr | hne2
      · rcases hkor with hvk | hne2
        · exact Or.inl (by
            intro hin
            rcases List.mem_cons.mp hin with he | hin2
            · exact hvk he
            · exact hnr hin2)
        · exact Or.inr hne2
      · exact Or.inr hne2
    · rintro ⟨hm, hor⟩
      rcases hor with hnin | hne2
      · exact ⟨⟨hm, Or.inl (fun he => hnin (he ▸ List.mem_cons_self _ _))⟩,
          Or.inl (fun hin => hnin (List.mem_cons_of_mem _ hin))⟩
      · exact ⟨⟨hm, Or.inr hne2⟩, Or.inr hne2⟩

theorem bucketMem_stripB (B : List (String × INode)) (uid : String)
    (hN : (B.map Prod.fst).Nodup)
    (hB : ∀ val b, alGet B val = some b → ∃ xs, b = INode.set xs ∧ xs ≠ []) :
    ∀ val ent, bucketMem (stripB B uid) val ent ↔
      (bucketMem B val ent ∧ ent ≠ uid) := by
  intro val ent
  rw [stripB_eq_fold]
  rw [strip_fold_mem uid B B hN ?pre val ent]
  case pre =>
    intro p hp
    have hpeta : (p.1, p.2) ∈ B := by
      rw [show ((p.1, p.2) : String × INode) = p from rfl]
      exact hp
    refine ⟨(mem_iff_alGet B hN p.1 p.2).mp hpeta, ?_⟩
    obtain ⟨xs, hxs, _⟩ := hB p.1 p.2 ((mem_iff_alGet B hN p.1 p.2).mp hpeta)
    exact ⟨xs, hxs⟩
  constructor
  · rintro ⟨hm, hor⟩
    refine ⟨hm, ?_⟩
    rcases hor with hnin | hne
    · exfalso
      obtain ⟨b, hb, _⟩ := hm
      exact hnin (alGet_some_mem_keys B val b hb)
    · exact hne
  · rintro ⟨hm, hne⟩
    exact ⟨hm, Or.inr hne⟩

theorem strip_fold_shape (uid : String) :
    ∀ (todo : List (String × INode)) (acc : List (String × INode)),
      (∀ p ∈ todo, ∃ xs, p.2 = INode.set xs) →
      (∀ val b, alGet acc val = some b → ∃ xs, b = INode.set xs ∧ xs ≠ []) →
      ∀ val b, alGet (todo.foldl (stripStep uid) acc) val = some b →
        ∃ xs, b = INode.set xs ∧ xs ≠ [] := by
  intro todo
  induction todo with
  | nil =>
    intro acc _ hacc val b h
    exact hacc val b h
  | cons p rest ih =>
    intro acc hshape hacc val b h
    obtain ⟨k, node⟩ := p
    obtain ⟨xs, rfl⟩ := hshape (k, node) (List.mem_cons_self _ _)
    rw [List.foldl_cons] at h
    refine ih _ (fun q hq => hshape q (List.mem_cons_of_mem _ hq)) ?_ val b h
    intro v2 b2 h2
    by_cases hv : v2 = k
    · subst hv
      rw [stripStep_alGet_set_self uid acc v2 xs] at h2
      by_cases he : (xs.filter (fun x => x != uid)).isEmpty = true
      · rw [if_pos he] at h2
        exact Option.noConfusion h2
      · rw [if_neg he] at h2
        refine ⟨xs.filter (fun x => x != uid), (Option.some.inj h2).symm, ?_⟩
        intro hnil
        rw [hnil] at he
        exact he rfl
    · rw [stripStep_alGet_other uid acc _ _ hv] at h2
      exact hacc v2 b2 h2

theorem stripB_bset (B : List (String × INode)) (uid : String)
    (hN : (B.map Prod.fst).Nodup)
    (hB : ∀ val b, alGet B val = some b → ∃ xs, b = INode.set xs ∧ xs ≠ []) :
    ∀ val b, alGet (stripB B uid) val = some b →
      ∃ xs, b = INode.set xs ∧ xs ≠ [] := by
  rw [stripB_eq_fold]
  refine strip_fold_shape uid B B ?_ hB
  intro p hp
  have hpeta : (p.1, p.2) ∈ B := by
    rw [show ((p.1, p.2) : String × INode) = p from rfl]
    exact hp
  obtain ⟨xs, hxs, _⟩ := hB p.1 p.2 ((mem_iff_alGet B hN p.1 p.2).mp hpeta)
  exact ⟨xs, hxs⟩

theorem stripStep_nodup (uid : String) (acc : List (String × INode))
    (p : String × INode) (hN : (acc.map Prod.fst).Nodup) :
    ((stripStep uid acc p).map Prod.fst).Nodup := by
  obtain ⟨k, node⟩ := p
  cases node with
  | set xs =>
    simp only [stripStep]
    by_cases he : (xs.filter (fun x => x != uid)).isEmpty = true
    · rw [if_pos he]; exact alDel_keys_nodup acc k hN
    · rw [if_neg he]; exact alSet_keys_nodup acc k _ hN
  | ilist xs =>
    simp only [stripStep]
    by_cases he : (xs.filter (fun x => x != uid)).isEmpty = true
    · rw [if_pos he]; exact alDel_keys_nodup acc k hN
    · rw [if_neg he]; exact alSet_keys_nodup acc k _ hN
  | str s =>
    simp only [stripStep]
    by_cases hs : s = ""
    · rw [if_pos hs]; exact alDel_keys_nodup acc k hN
    · rw [if_neg hs]; exact hN
  | obj fs =>
    simp only [stripStep]
    by_cases hf : fs.isEmpty = true
    · rw [if_pos hf]; exact alDel_keys_nodup acc k hN
    · rw [if_neg hf]; exact hN

theorem stripB_nodup (B : List (String × INode)) (uid : String)
    (hN : (B.map Prod.fst).Nodup) :
    ((stripB B uid).map Prod.fst).Nodup := by
  rw [stripB_eq_fold]
  have hgen : ∀ (todo acc : List (String × INode)),
      (acc.map Prod.fst).Nodup →
      ((todo.foldl (stripStep uid) acc).map Prod.fst).Nodup := by
    intro todo
    induction todo with
    | nil => intro acc h; exact h
    | cons p rest ih =>
      intro acc h
      rw [List.foldl_cons]
      exact ih _ (stripStep_nodup uid acc p h)
  exact hgen B B hN

/-- One entity step of the `indices_create` population fold,
specialized to the `user:age` set index. -/
def rbStep (acc : List (String × INode)) (p : String × PyVal) :
    List (String × INode) :=
  match idx_get_nested_value p.2 ["age"] with
  | none => acc
  | some attr =>
    let items := match attr with
      | .list xs => xs.map pyStr
      | v => [pyStr v]
    if ("set" : String) = "set" then
      items.foldl
        (fun acc2 item =>
          match alGet acc2 item with
          | some (.ilist xs) =>
            alSet acc2 item (.ilist (xs ++ ["user" ++ ":" ++ p.1]))
          | some other => alSet acc2 item other
          | none => alSet acc2 item (.ilist ["user" ++ ":" ++ p.1]))
        acc
    else if ("set" : String) = "string" then
      items.foldl
        (fun acc2 item => alSet acc2 item (.str ("user" ++ ":" ++ p.1)))
        acc
    else acc

theorem c1_rebuild_eq (ents : List (String × PyVal)) :
    indices_create_descriptor (c1data ents) "user" ["age"] "set" =
      .obj [("type", .str "set"), ("values", .obj (ents.foldl rbStep []))] := by
  rfl

theorem rbStep_mem (acc : List (String × INode)) (id s2 : String)
    (hilist : ∀ val b, alGet acc val = some b → ∃ xs, b = INode.ilist xs) :
    ∀ val ent,
      bucketMem (rbStep acc (id, PyVal.obj [("age", PyVal.str s2)])) val ent ↔
        (bucketMem acc val ent ∨ (val = s2 ∧ ent = "user" ++ ":" ++ id)) := by
  intro val ent
  have hred : rbStep acc (id, PyVal.obj [("age", PyVal.str s2)]) =
      (match alGet acc s2 with
       | some (.ilist xs) => alSet acc s2 (.ilist (xs ++ ["user" ++ ":" ++ id]))
       | some other => alSet acc s2 other
       | none => alSet acc s2 (.ilist ["user" ++ ":" ++ id])) := by rfl
  rw [hred]
  cases halg : alGet acc s2 with
  | none =>
    unfold bucketMem
    rw [alGet_alSet]
    by_cases hv : val = s2
    · subst hv
      simp [halg, bucketHas]
    · simp [hv]
  | some b =>
    obtain ⟨xs, rfl⟩ := hilist s2 b halg
    unfold bucketMem
    simp only []
    rw [alGet_alSet]
    by_cases hv : val = s2
    · subst hv
      simp [halg, bucketHas]
    · simp [hv]

theorem rbStep_ilist (acc : List (String × INode)) (id s2 : String)
    (hilist : ∀ val b, alGet acc val = some b → ∃ xs, b = INode.ilist xs) :
    ∀ val b, alGet (rbStep acc (id, PyVal.obj [("age", PyVal.str s2)])) val =
        some b → ∃ xs, b = INode.ilist xs := by
  intro val b h
  have hred : rbStep acc (id, PyVal.obj [("age", PyVal.str s2)]) =
      (match alGet acc s2 with
       | some (.ilist xs) => alSet acc s2 (.ilist (xs ++ ["user" ++ ":" ++ id]))
       | some other => alSet acc s2 other
       | none => alSet acc s2 (.ilist ["user" ++ ":" ++ id])) := by rfl
  rw [hred] at h
  cases halg : alGet acc s2 with
  | none =>
    rw [halg, alGet_alSet] at h
    by_cases hv : val = s2
    · rw [if_pos hv] at h
      exact ⟨_, (Option.some.inj h).symm⟩
    · rw [if_neg hv] at h
      exact hilist val b h
  | some b0 =>
    obtain ⟨xs, rfl⟩ := hilist s2 b0 halg
    rw [halg] at h
    simp only [] at h
    rw [alGet_alSet] at h
    by_cases hv : val = s2
    · rw [if_pos hv] at h
      exact ⟨_, (Option.some.inj h).symm⟩
    · rw [if_neg hv] at h
      exact hilist val b h

theorem rb_fold_mem :
    ∀ (todo : List (String × PyVal)) (acc : List (String × INode)),
      (∀ p ∈ todo, ∃ s2, p.2 = PyVal.obj [("age", PyVal.str s2)]) →
      (∀ val b, alGet acc val = some b → ∃ xs, b = INode.ilist xs) →
      ∀ val ent,
        bucketMem (todo.foldl rbStep acc) val ent ↔
          (bucketMem acc val ent ∨
            ∃ id, (id, PyVal.obj [("age", PyVal.str val)]) ∈ todo ∧
              ent = "user" ++ ":" ++ id) := by
  intro todo
  induction todo with
  | nil =>
    intro acc _ _ val ent
    simp
  | cons p rest ih =>
    intro acc hshape hilist val ent
    obtain ⟨k, node⟩ := p
    obtain ⟨s2, rfl⟩ := hshape (k, node) (List.mem_cons_self _ _)
    rw [List.foldl_cons]
    rw [ih _ (fun q hq => hshape q (List.mem_cons_of_mem _ hq))
      (rbStep_ilist acc k s2 hilist) val ent]
    rw [rbStep_mem acc k s2 hilist val ent]
    constructor
    · rintro (⟨hm | ⟨rfl, rfl⟩⟩ | ⟨id, hmem, rfl⟩)
      · exact .inl hm
      · exact .inr ⟨k, List.mem_cons_self _ _, rfl⟩
      · exact .inr ⟨id, List.mem_cons_of_mem _ hmem, rfl⟩
    · rintro (hm | ⟨id, hmem, rfl⟩)
      · exact .inl (.inl hm)
      · rcases List.mem_cons.mp hmem with he | hmem2
        · have h1 : id = k := congrArg Prod.fst he
          have h2 : PyVal.obj [("age", PyVal.str val)] =
              PyVal.obj [("age", PyVal.str s2)] := congrArg Prod.snd he
          have h3 : val = s2 := by
            injection h2 with h4
            injection List.cons.inj h4 |>.1 with _ h5
            exact PyVal.str.inj h5
          exact .inl (.inr ⟨h3, by rw [h1]⟩)
        · exact .inr ⟨id, hmem2, rfl⟩

/-- Bucket map of an index descriptor, as `indices_create` builds it. -/
def descValues : INode → List (String × INode)
  | .obj fs =>
    (match alGet fs "values" with
     | some (.obj B) => B
     | _ => [])
  | _ => []

theorem c1_rebuild_values (ents : List (String × PyVal)) :
    descValues (indices_create_descriptor (c1data ents) "user" ["age"] "set") =
      ents.foldl rbStep [] := by
  rw [c1_rebuild_eq]
  rfl

theorem c1_rebuild_mem (ents : List (String × PyVal))
    (hN : (ents.map Prod.fst).Nodup)
    (hshape : ∀ id v, dictGet ents id = some v →
      ∃ s, v = PyVal.obj [("age", PyVal.str s)]) :
    ∀ val ent,
      bucketMem
        (descValues (indices_create_descriptor (c1data ents) "user" ["age"]
          "set")) val ent ↔
        ∃ id, dictGet ents id = some (PyVal.obj [("age", PyVal.str val)]) ∧
          ent = "user:" ++ id := by
  intro val ent
  rw [c1_rebuild_values]
  rw [rb_fold_mem ents [] ?hs ?hi val ent]
  case hs =>
    intro p hp
    have hpeta : (p.1, p.2) ∈ ents := by
      rw [show ((p.1, p.2) : String × PyVal) = p from rfl]
      exact hp
    have hget : dictGet ents p.1 = some p.2 := by
      rw [dictGet_eq_alGet]
      exact (mem_iff_alGet ents hN p.1 p.2).mp hpeta
    exact hshape p.1 p.2 hget
  case hi =>
    intro v2 b h
    simp [alGet] at h
  have hpre : ("user" ++ ":" ++ ent) = ("user" ++ ":" ++ ent) := rfl
  constructor
  · rintro (hm | ⟨id, hmem, rfl⟩)
    · exact absurd hm (by simp [bucketMem, alGet])
    · refine ⟨id, ?_, rfl⟩
      rw [dictGet_eq_alGet]
      exact (mem_iff_alGet ents hN id _).mp hmem
  · rintro ⟨id, hget, rfl⟩
    refine .inr ⟨id, ?_, rfl⟩
    rw [dictGet_eq_alGet] at hget
    exact (mem_iff_alGet ents hN id _).mpr hget

theorem objAge_inj {a b : String}
    (h : PyVal.obj [("age", PyVal.str a)] = PyVal.obj [("age", PyVal.str b)]) :
    a = b := by
  injection h with h1
  injection h1 with h2 h3
  have h4 := congrArg Prod.snd h2
  exact PyVal.str.inj h4

theorem uid_inj {a b : String} (h : "user:" ++ a = "user:" ++ b) : a = b :=
  string_append_cancel "user:" a b h

theorem c1_inv_set_new (ents : List (String × PyVal))
    (B : List (String × INode)) (inv : C1Inv ents B) (id sv : String)
    (hent : dictGet ents id = none) :
    C1Inv (dictSet ents id (.obj [("age", .str sv)]))
      (addB B sv ("user:" ++ id)) := by
  constructor
  · intro id2 v h
    rw [dictGet_dictSet_general] at h
    by_cases h2 : id2 = id
    · rw [if_pos h2] at h
      exact ⟨sv, (Option.some.inj h).symm⟩
    · rw [if_neg h2] at h
      exact inv.shape id2 v h
  · rw [dictSet_eq_alSet]
    exact alSet_keys_nodup ents id _ inv.entsN
  · exact addB_nodup B sv _ inv.bN
  · exact addB_bset B sv _ inv.bset
  · intro val ent
    rw [bucketMem_addB B sv _ inv.bset val ent, inv.mem val ent]
    constructor
    · rintro (⟨id2, hget, rfl⟩ | ⟨rfl, rfl⟩)
      · refine ⟨id2, ?_, rfl⟩
        rw [dictGet_dictSet_general]
        have h2 : ¬ id2 = id := by
          intro he
          rw [he, hent] at hget
          exact Option.noConfusion hget
        rw [if_neg h2]
        exact hget
      · exact ⟨id, by rw [dictGet_dictSet_general, if_pos rfl], rfl⟩
    · rintro ⟨id2, hget, rfl⟩
      rw [dictGet_dictSet_general] at hget
      by_cases h2 : id2 = id
      · rw [if_pos h2] at hget
        have hvv := objAge_inj (Option.some.inj hget)
        subst h2
        exact .inr ⟨hvv.symm, rfl⟩
      · rw [if_neg h2] at hget
        exact .inl ⟨id2, hget, rfl⟩

theorem c1_inv_set_old (ents : List (String × PyVal))
    (B : List (String × INode)) (inv : C1Inv ents B) (id sv sOld : String)
    (hent : dictGet ents id = some (PyVal.obj [("age", PyVal.str sOld)])) :
    C1Inv (dictSet ents id (.obj [("age", .str sv)]))
      (if sOld = sv then addB B sv ("user:" ++ id)
       else addB (removeB B sOld ("user:" ++ id)) sv ("user:" ++ id)) := by
  have hshape2 : ∀ id2 v, dictGet (dictSet ents id (.obj [("age", .str sv)]))
      id2 = some v → ∃ s, v = PyVal.obj [("age", PyVal.str s)] := by
    intro id2 v h
    rw [dictGet_dictSet_general] at h
    by_cases h2 : id2 = id
    · rw [if_pos h2] at h
      exact ⟨sv, (Option.some.inj h).symm⟩
    · rw [if_neg h2] at h
      exact inv.shape id2 v h
  have hentsN : ((dictSet ents id
      (PyVal.obj [("age", PyVal.str sv)])).map Prod.fst).Nodup := by
    rw [dictSet_eq_alSet]
    exact alSet_keys_nodup ents id _ inv.entsN
  by_cases hss : sOld = sv
  · subst hss
    rw [if_pos rfl]
    refine ⟨hshape2, hentsN, addB_nodup B sOld _ inv.bN,
      addB_bset B sOld _ inv.bset, ?_⟩
    intro val ent
    rw [bucketMem_addB B sOld _ inv.bset val ent, inv.mem val ent]
    constructor
    · rintro (⟨id2, hget, rfl⟩ | ⟨rfl, rfl⟩)
      · refine ⟨id2, ?_, rfl⟩
        rw [dictGet_dictSet_general]
        by_cases h2 : id2 = id
        · subst h2
          rw [hent] at hget
          rw [if_pos rfl]
          exact hget
        · rw [if_neg h2]
          exact hget
      · exact ⟨id, by rw [dictGet_dictSet_general, if_pos rfl], rfl⟩
    · rintro ⟨id2, hget, rfl⟩
      rw [dictGet_dictSet_general] at hget
      by_cases h2 : id2 = id
      · rw [if_pos h2] at hget
        have hvv := objAge_inj (Option.some.inj hget)
        subst h2
        exact .inr ⟨hvv.symm, rfl⟩
      · rw [if_neg h2] at hget
        exact .inl ⟨id2, hget, rfl⟩
  · rw [if_neg hss]
    have hbset1 := removeB_bset B sOld ("user:" ++ id) inv.bset
    refine ⟨hshape2, hentsN,
      addB_nodup _ sv _ (removeB_nodup B sOld _ inv.bN),
      addB_bset _ sv _ hbset1, ?_⟩
    intro val ent
    rw [bucketMem_addB _ sv _ hbset1 val ent,
      bucketMem_removeB B sOld _ inv.bset val ent, inv.mem val ent]
    constructor
    · rintro (⟨⟨id2, hget, rfl⟩, hnot⟩ | ⟨rfl, rfl⟩)
      · have h2 : ¬ id2 = id := by
          intro he
          subst he
          rw [hent] at hget
          have hvv := objAge_inj (Option.some.inj hget)
          exact hnot ⟨hvv.symm, rfl⟩
        refine ⟨id2, ?_, rfl⟩
        rw [dictGet_dictSet_general, if_neg h2]
        exact hget
      · exact ⟨id, by rw [dictGet_dictSet_general, if_pos rfl], rfl⟩
    · rintro ⟨id2, hget, rfl⟩
      rw [dictGet_dictSet_general] at hget
      by_cases h2 : id2 = id
      · rw [if_pos h2] at hget
        have hvv := objAge_inj (Option.some.inj hget)
        subst h2
        exact .inr ⟨hvv.symm, rfl⟩
      · rw [if_neg h2] at hget
        refine .inl ⟨⟨id2, hget, rfl⟩, ?_⟩
        rintro ⟨rfl, huid⟩
        exact h2 (uid_inj huid)

theorem c1_inv_del_field (ents : List (String × PyVal))
    (B : List (String × INode)) (inv : C1Inv ents B) (id s : String)
    (hent : dictGet ents id = some (PyVal.obj [("age", PyVal.str s)])) :
    C1Inv (dictDel ents id) (removeB B s ("user:" ++ id)) := by
  refine ⟨?_, ?_, removeB_nodup B s _ inv.bN, removeB_bset B s _ inv.bset, ?_⟩
  · intro id2 v h
    rw [dictGet_dictDel_general] at h
    by_cases h2 : id2 = id
    · rw [if_pos h2] at h
      exact Option.noConfusion h
    · rw [if_neg h2] at h
      exact inv.shape id2 v h
  · rw [dictDel_eq_alDel]
    exact alDel_keys_nodup ents id inv.entsN
  · intro val ent
    rw [bucketMem_removeB B s _ inv.bset val ent, inv.mem val ent]
    constructor
    · rintro ⟨⟨id2, hget, rfl⟩, hnot⟩
      have h2 : ¬ id2 = id := by
        intro he
        subst he
        rw [hent] at hget
        have hvv := objAge_inj (Option.some.inj hget)
        exact hnot ⟨hvv.symm, rfl⟩
      refine ⟨id2, ?_, rfl⟩
      rw [dictGet_dictDel_general, if_neg h2]
      exact hget
    · rintro ⟨id2, hget, rfl⟩
      rw [dictGet_dictDel_general] at hget
      by_cases h2 : id2 = id
      · rw [if_pos h2] at hget
        exact Option.noConfusion hget
      · rw [if_neg h2] at hget
        refine ⟨⟨id2, hget, rfl⟩, ?_⟩
        rintro ⟨rfl, huid⟩
        exact h2 (uid_inj huid)

theorem c1_inv_del_entity (ents : List (String × PyVal))
    (B : List (String × INode)) (inv : C1Inv ents B) (id s : String)
    (hent : dictGet ents id = some (PyVal.obj [("age", PyVal.str s)])) :
    C1Inv (dictDel ents id) (stripB B ("user:" ++ id)) := by
  refine ⟨?_, ?_, stripB_nodup B _ inv.bN, stripB_bset B _ inv.bN inv.bset, ?_⟩
  · intro id2 v h
    rw [dictGet_dictDel_general] at h
    by_cases h2 : id2 = id
    · rw [if_pos h2] at h
      exact Option.noConfusion h
    · rw [if_neg h2] at h
      exact inv.shape id2 v h
  · rw [dictDel_eq_alDel]
    exact alDel_keys_nodup ents id inv.entsN
  · intro val ent
    rw [bucketMem_stripB B _ inv.bN inv.bset val ent, inv.mem val ent]
    constructor
    · rintro ⟨⟨id2, hget, rfl⟩, hne⟩
      have h2 : ¬ id2 = id := fun he => hne (by rw [he])
      refine ⟨id2, ?_, rfl⟩
      rw [dictGet_dictDel_general, if_neg h2]
      exact hget
    · rintro ⟨id2, hget, rfl⟩
      rw [dictGet_dictDel_general] at hget
      by_cases h2 : id2 = id
      · rw [if_pos h2] at hget
        exact Option.noConfusion hget
      · rw [if_neg h2] at hget
        exact ⟨⟨id2, hget, rfl⟩, fun huid => h2 (uid_inj huid)⟩

theorem c1_step_inv (cfg : Config) (hc : cfg.caching = false)
    (st : EState) (ents : List (String × PyVal)) (B : List (String × INode))
    (hd : st.data_store = c1data ents) (hi : st.indices = c1idx B)
    (inv : C1Inv ents B) (op : C1Op) (hv : c1valid op) :
    ∃ ents2 B2,
      (c1apply cfg st op).data_store = c1data ents2 ∧
      (c1apply cfg st op).indices = c1idx B2 ∧
      C1Inv ents2 B2 := by
  cases op with
  | setF id sv =>
    obtain ⟨hid, hjson⟩ := hv
    unfold c1apply
    simp only []
    rw [c1_set_specific cfg st _ sv hjson]
    cases hent : dictGet ents id with
    | none =>
      rw [c1_set_individual_new cfg hc st ents B hd hi id sv hid hjson hent]
      exact ⟨_, _, rfl, rfl, c1_inv_set_new ents B inv id sv hent⟩
    | some v =>
      obtain ⟨sOld, rfl⟩ := inv.shape id v hent
      rw [c1_set_individual_old cfg hc st ents B hd hi id sv sOld hid hjson
        hent]
      exact ⟨_, _, rfl, rfl, c1_inv_set_old ents B inv id sv sOld hent⟩
  | delF id =>
    unfold c1apply
    simp only []
    cases hent : dictGet ents id with
    | none =>
      rw [c1_del_field_absent cfg st ents hd id hent]
      exact ⟨ents, B, hd, hi, inv⟩
    | some v =>
      obtain ⟨s, rfl⟩ := inv.shape id v hent
      rw [c1_del_field cfg hc st ents B hd hi id s inv.bset hent]
      exact ⟨_, _, rfl, rfl, c1_inv_del_field ents B inv id s hent⟩
  | delE id =>
    unfold c1apply
    simp only []
    cases hent : dictGet ents id with
    | none =>
      rw [c1_del_entity_absent cfg st ents hd id hent]
      exact ⟨ents, B, hd, hi, inv⟩
    | some v =>
      obtain ⟨s, rfl⟩ := inv.shape id v hent
      rw [c1_del_entity cfg hc st ents B hd hi id s hent]
      exact ⟨_, _, rfl, rfl, c1_inv_del_entity ents B inv id s hent⟩

theorem c1_run_inv (cfg : Config) (hc : cfg.caching = false) :
    ∀ (ops : List C1Op) (st : EState) (ents : List (String × PyVal))
      (B : List (String × INode)),
      st.data_store = c1data ents → st.indices = c1idx B → C1Inv ents B →
      (∀ op ∈ ops, c1valid op) →
      ∃ ents2 B2,
        (c1run cfg ops st).data_store = c1data ents2 ∧
        (c1run cfg ops st).indices = c1idx B2 ∧
        C1Inv ents2 B2 := by
  intro ops
  induction ops with
  | nil =>
    intro st ents B hd hi inv _
    exact ⟨ents, B, hd, hi, inv⟩
  | cons op rest ih =>
    intro st ents B hd hi inv hvalid
    obtain ⟨e2, B2, hd2, hi2, inv2⟩ :=
      c1_step_inv cfg hc st ents B hd hi inv op
        (hvalid op (List.mem_cons_self _ _))
    rw [show c1run cfg (op :: rest) st =
      c1run cfg rest (c1apply cfg st op) from rfl]
    exact ih _ _ _ hd2 hi2 inv2 (fun o ho => hvalid o (List.mem_cons_of_mem _ ho))

theorem c1_inv_empty : C1Inv [] [] := by
  constructor
  · intro id v h
    simp [dictGet] at h
  · simp
  · simp
  · intro val b h
    simp [alGet] at h
  · intro val ent
    constructor
    · rintro ⟨b, hb, _⟩
      simp [alGet] at hb
    · rintro ⟨id, hg, _⟩
      simp [dictGet] at hg

/-- C1 counterexample: `RENAME` does no index maintenance.  After
`SET user:1:age thirty` the live `user:age` set index holds `user:1`
in the `thirty` bucket; `RENAME user:1:age TO years` moves the field
in the document tree and succeeds, yet the live index still holds the
stale entry while rebuilding the descriptor from the tree yields an
empty bucket map — live and rebuilt indices differ. -/
theorem rename_breaks_index_rebuild :
    (rename_command ⟨false, "M", "h", ["h"], "10", true, false, 0, 0,
        fun _ _ => none⟩
      (set_specific_key ⟨false, "M", "h", ["h"], "10", true, false, 0, 0,
          fun _ _ => none⟩
        ⟨c1data [], c1idx [], [], [], [], [], false, false⟩
        ["user", "1", "age"] "thirty").1
      "user:1:age TO years").2 = .ok "RENAME successful: 1 key renamed." ∧
    (rename_command ⟨false, "M", "h", ["h"], "10", true, false, 0, 0,
        fun _ _ => none⟩
      (set_specific_key ⟨false, "M", "h", ["h"], "10", true, false, 0, 0,
          fun _ _ => none⟩
        ⟨c1data [], c1idx [], [], [], [], [], false, false⟩
        ["user", "1", "age"] "thirty").1
      "user:1:age TO years").1.indices =
      c1idx [("thirty", INode.set ["user:1"])] ∧
    indices_create_descriptor
      (rename_command ⟨false, "M", "h", ["h"], "10", true, false, 0, 0,
          fun _ _ => none⟩
        (set_specific_key ⟨false, "M", "h", ["h"], "10", true, false, 0, 0,
            fun _ _ => none⟩
          ⟨c1data [], c1idx [], [], [], [], [], false, false⟩
          ["user", "1", "age"] "thirty").1
        "user:1:age TO years").1.data_store "user" ["age"] "set" =
      .obj [("type", .str "set"), ("values", .obj [])] ∧
    bucketMem [("thirty", INode.set ["user:1"])] "thirty" "user:1" ∧
    ¬ bucketMem (descValues
        (INode.obj [("type", .str "set"), ("values", .obj [])]))
      "thirty" "user:1" := by
  refine ⟨by rfl, by rfl, by rfl, ⟨INode.set ["user:1"], rfl, by decide⟩, ?_⟩
  rintro ⟨b, hb, _⟩
  simp [descValues, alGet] at hb

/-- C1 amended: for sequences of SET and DEL element operations
(scalar string values, caching off) against a `user` collection with
a declared `user:age` set index, consistency does hold up to bucket
membership: after any such sequence from a consistent state, an
entity sits in a value bucket of the live index exactly when it sits
in that bucket of the descriptor rebuilt from scratch by
`indices_create` — RENAME is excluded, and even for SET/DEL the
rebuilt buckets are lists while the live ones are sets, so the
correspondence is membership, not structural equality. -/
theorem set_del_index_rebuild_consistent :
    ∀ (cfg : Config), cfg.caching = false →
    ∀ (ops : List C1Op) (st : EState) (ents : List (String × PyVal))
      (B : List (String × INode)),
      st.data_store = c1data ents → st.indices = c1idx B → C1Inv ents B →
      (∀ op ∈ ops, c1valid op) →
      ∃ ents2 B2,
        (c1run cfg ops st).data_store = c1data ents2 ∧
        (c1run cfg ops st).indices = c1idx B2 ∧
        (∀ val ent, bucketMem B2 val ent ↔
          bucketMem (descValues (indices_create_descriptor
            (c1run cfg ops st).data_store "user" ["age"] "set")) val ent) := by
  intro cfg hc ops st ents B hd hi inv hvalid
  obtain ⟨e2, B2, hd2, hi2, inv2⟩ :=
    c1_run_inv cfg hc ops st ents B hd hi inv hvalid
  refine ⟨e2, B2, hd2, hi2, ?_⟩
  intro val ent
  rw [hd2]
  rw [c1_rebuild_mem e2 inv2.entsN inv2.shape val ent]
  exact inv2.mem val ent

/-- Witness for C1 (amended): one `SET user:1:age thirty` from the
empty consistent state. -/
theorem set_del_index_rebuild_consistent_witness :
    ∃ ents2 B2,
      (c1run ⟨false, "M", "h", ["h"], "10", true, false, 0, 0,
          fun _ _ => none⟩ [C1Op.setF "1" "thirty"]
        ⟨c1data [], c1idx [], [], [], [], [], false, false⟩).data_store =
        c1data ents2 ∧
      (c1run ⟨false, "M", "h", ["h"], "10", true, false, 0, 0,
          fun _ _ => none⟩ [C1Op.setF "1" "thirty"]
        ⟨c1data [], c1idx [], [], [], [], [], false, false⟩).indices =
        c1idx B2 ∧
      (∀ val ent, bucketMem B2 val ent ↔
        bucketMem (descValues (indices_create_descriptor
          (c1run ⟨false, "M", "h", ["h"], "10", true, false, 0, 0,
              fun _ _ => none⟩ [C1Op.setF "1" "thirty"]
            ⟨c1data [], c1idx [], [], [], [], [], false, false⟩).data_store
          "user" ["age"] "set")) val ent) :=
  set_del_index_rebuild_consistent
    ⟨false, "M", "h", ["h"], "10", true, false, 0, 0, fun _ _ => none⟩ rfl
    [C1Op.setF "1" "thirty"]
    ⟨c1data [], c1idx [], [], [], [], [], false, false⟩ [] [] rfl rfl
    c1_inv_empty
    (fun op hop => by
      rcases List.mem_singleton.mp hop with rfl
      exact show ("1" : String) ≠ "age" ∧ pyJson "thirty" = none from
        ⟨by decide, by rfl⟩)
